import Mathlib

/-!
Sanguinova: a shallow embedding of the per-sample DSP pipeline

The C++ sources under `src/` (`dsp/SVFFilter.h`, `dsp/OnePole.h`, `dsp/SanguinovaEngine.h`,
`dsp/Oversampler.h`, `dsp/AutoGain.h`, `PluginProcessor.h`, `PluginProcessor.cpp`,
`PresetManager.h`) are translated function by function.

Conventions of the embedding.

* A C++ `float` is an element of a linear ordered field `α` (exact arithmetic: no rounding,
  no infinities, no NaN).  Every definition is polymorphic in `α`, hence executable at `ℚ`;
  the theorems that need analysis instantiate `α` with `ℝ`.
* The `<cmath>` functions (`std::exp`, `std::pow`, `std::tan`, `std::sin`, `std::sqrt`), the
  single-precision constant for pi and `juce::Decibels::decibelsToGain` are library code
  outside the repository; they are explicit parameters (`exp`, `pow`, `tan`, `sin`, `sqrt`,
  `pi`, `decibelsToGain`) of the functions that call them.  Over `ℝ` they are instantiated
  with `Real.exp`, real powers and so on.
* A C++ `int` is an `Int`; `/` and `%` on `int` are `Int.tdiv` and `Int.tmod` (truncation).
* A `std::array<float, N>` is a `List α`; an element access with an `int` index goes through
  `readAt` / `writeAt`.
* Object state is passed explicitly: a method `T::m(args)` becomes a function taking the
  object first and returning the updated object (paired with the return value when there is
  one).
* The JUCE parameter tree is the list of the registered parameter IDs with their values; a
  `std::map` is the list of its entries in key order; what JUCE stores for a requested
  parameter value, and what a preset file on disk parses to, are parameters of the model.
-/

set_option linter.unusedSectionVars false

namespace Sanguinova

variable {α : Type} [LinearOrderedField α]

/-! ## Array access -/

/-- Element read `a[i]` of a `std::array` with an `int` index (value 0 outside the array,
where the C++ behaviour is undefined). -/
def readAt (a : List α) (i : Int) : α := a.getD i.toNat 0

/-- Element write `a[i] = v` of a `std::array` with an `int` index. -/
def writeAt (a : List α) (i : Int) (v : α) : List α := a.set i.toNat v

/-- A `std::array<T, 2>` indexed by the channel number. -/
structure Array2 (β : Type) where
  ch0 : β
  ch1 : β

/-- Element read `a[channel]`. -/
def Array2.get {β : Type} (a : Array2 β) (channel : Nat) : β :=
  if channel = 0 then a.ch0 else a.ch1

/-- Element write `a[channel] = v`. -/
def Array2.set {β : Type} (a : Array2 β) (channel : Nat) (v : β) : Array2 β :=
  if channel = 0 then { a with ch0 := v } else { a with ch1 := v }

/-! ## dsp/SVFFilter.h -/

/-- The `enum class Mode` of `SVFFilter`, carried by its underlying `int`. -/
structure Mode where
  val : Int
deriving DecidableEq

/-- Enumerator `Mode::LowPass = 0`. -/
def Mode.LowPass : Mode := ⟨0⟩

/-- Enumerator `Mode::HighPass`. -/
def Mode.HighPass : Mode := ⟨1⟩

/-- Enumerator `Mode::BandPass`. -/
def Mode.BandPass : Mode := ⟨2⟩

/-- Data members of `class SVFFilter`. -/
structure SVFFilter (α : Type) where
  ic1eq : α
  ic2eq : α
  sampleRate : α
  g : α
  k : α
  a1 : α
  a2 : α
  a3 : α

namespace SVFFilter

/-- Constructor `SVFFilter()`: it initialises `ic1eq`, `ic2eq` and `sampleRate`; the
coefficient members, which C++ leaves uninitialised until `setParameters`, are 0 here. -/
def new : SVFFilter α :=
  { ic1eq := 0, ic2eq := 0, sampleRate := 44100, g := 0, k := 0, a1 := 0, a2 := 0, a3 := 0 }

/-- Method `SVFFilter::reset`. -/
def reset (f : SVFFilter α) : SVFFilter α :=
  { f with ic1eq := 0, ic2eq := 0 }

/-- Method `SVFFilter::prepare`. -/
def prepare (f : SVFFilter α) (newSampleRate : α) : SVFFilter α :=
  reset { f with sampleRate := newSampleRate }

/-- Method `SVFFilter::setParameters`. -/
def setParameters (tan : α → α) (pi : α) (f : SVFFilter α) (frequency resonance : α) :
    SVFFilter α :=
  let frequency := max 20 (min frequency (f.sampleRate * 0.49))
  let q := 0.5 + resonance * 9.5
  let g := tan (pi * frequency / f.sampleRate)
  let k := 1 / q
  let a1 := 1 / (1 + g * (g + k))
  let a2 := g * a1
  let a3 := g * a2
  { f with g := g, k := k, a1 := a1, a2 := a2, a3 := a3 }

/-- Method `SVFFilter::processSample`: the updated filter and the returned sample. -/
def processSample (f : SVFFilter α) (input : α) (mode : Mode) : SVFFilter α × α :=
  let v3 := input - f.ic2eq
  let v1 := f.a1 * f.ic1eq + f.a2 * v3
  let v2 := f.ic2eq + f.a2 * f.ic1eq + f.a3 * v3
  let f1 := { f with ic1eq := 2 * v1 - f.ic1eq, ic2eq := 2 * v2 - f.ic2eq }
  (f1,
   if mode = Mode.LowPass then v2
   else if mode = Mode.HighPass then input - f.k * v1 - v2
   else if mode = Mode.BandPass then v1
   else v2)

end SVFFilter

/-! ## dsp/OnePole.h -/

/-- Data members of `class OnePole`. -/
structure OnePole (α : Type) where
  fs : α
  g : α
  z1 : α

namespace OnePole

/-- Constructor `OnePole()` (the default member initialisers). -/
def new : OnePole α := { fs := 44100, g := 1, z1 := 0 }

/-- Method `OnePole::reset`. -/
def reset (f : OnePole α) : OnePole α := { f with z1 := 0 }

/-- Method `OnePole::prepare`. -/
def prepare (f : OnePole α) (sampleRate : α) : OnePole α :=
  reset { f with fs := sampleRate }

/-- Method `OnePole::setFrequency`. -/
def setFrequency (exp : α → α) (pi : α) (f : OnePole α) (frequency : α) : OnePole α :=
  let frequency := max 20 (min frequency (f.fs * 0.49))
  let w := 2 * pi * frequency / f.fs
  { f with g := 1 - exp (-w) }

/-- Method `OnePole::processSample`: the updated filter and the returned sample. -/
def processSample (f : OnePole α) (input : α) : OnePole α × α :=
  let z1 := f.z1 + f.g * (input - f.z1)
  ({ f with z1 := z1 }, z1)

end OnePole

/-! ## dsp/SanguinovaEngine.h -/

namespace SanguinovaEngine

/-- Method `SanguinovaEngine::processSample` (the class has no data members). -/
def processSample (exp : α → α) (pow : α → α → α) (input driveDb stageMult : α) : α :=
  let driveLinear := pow 10 (driveDb / 20)
  let x := input * driveLinear * stageMult
  if x > 0 then 1 - exp (-x) else x / (1 + x * x)

end SanguinovaEngine

/-! ## dsp/Oversampler.h -/

/-- Data members of `class Oversampler`. -/
structure Oversampler (α : Type) where
  filterCoeffs : List α
  upsampleBuffer : List α
  downsampleBuffer : List α
  upsampleIndex : Int
  downsampleIndex : Int

namespace Oversampler

/-- Constant `Oversampler::Factor`. -/
def Factor : Int := 4

/-- Constant `Oversampler::FilterOrder`. -/
def FilterOrder : Int := 32

/-- Method `Oversampler::reset`: `std::fill` of both buffers with 0 and both indices to 0. -/
def reset (os : Oversampler α) : Oversampler α :=
  { os with
    upsampleBuffer := os.upsampleBuffer.map (fun _ => 0)
    downsampleBuffer := os.downsampleBuffer.map (fun _ => 0)
    upsampleIndex := 0
    downsampleIndex := 0 }

/-- Constructor `Oversampler()`: value-initialised arrays, then `initializeFilter()` and
`reset()`.  The table that `initializeFilter` leaves in `filterCoeffs` is the argument. -/
def new (filterCoeffs : List α) : Oversampler α :=
  reset
    { filterCoeffs := filterCoeffs
      upsampleBuffer := List.replicate FilterOrder.toNat 0
      downsampleBuffer := List.replicate (FilterOrder * Factor).toNat 0
      upsampleIndex := 0
      downsampleIndex := 0 }

/-- Method `Oversampler::getFilterCoeff`. -/
def getFilterCoeff (os : Oversampler α) (index : Int) : α :=
  let coeffIdx := Int.tdiv index Factor
  if coeffIdx < FilterOrder then readAt os.filterCoeffs coeffIdx else 0

/-- The inner `tap` loop of `Oversampler::upsample` for one `phase`, run on the history
buffer `buf` (already holding the new input). -/
def upsamplePhase (os : Oversampler α) (buf : List α) (phase : Nat) : α :=
  (List.range FilterOrder.toNat).foldl
    (fun (sum : α) (tap : Nat) =>
      let bufIdx := Int.tmod (os.upsampleIndex - (tap : Int) + FilterOrder) FilterOrder
      let coeffIdx := (tap : Int) * Factor + (phase : Int)
      if coeffIdx < FilterOrder * Factor then
        sum + readAt buf bufIdx * getFilterCoeff os coeffIdx
      else sum)
    0

/-- Method `Oversampler::upsample`: the updated object and the four output samples. -/
def upsample (os : Oversampler α) (input : α) : Oversampler α × List α :=
  let buf := writeAt os.upsampleBuffer os.upsampleIndex (input * (Factor : α))
  let output := (List.range Factor.toNat).map (fun (phase : Nat) => upsamplePhase os buf phase)
  ({ os with
      upsampleBuffer := buf
      upsampleIndex := Int.tmod (os.upsampleIndex + 1) FilterOrder },
   output)

/-- The inner `tap` loop of `Oversampler::downsample`, entered at the decimation point with
write position `idx`, accumulating into `sum`. -/
def downsampleTaps (coeffs buf : List α) (idx : Int) (sum : α) : α :=
  (List.range FilterOrder.toNat).foldl
    (fun (sum : α) (tap : Nat) =>
      let bufIdx :=
        Int.tmod (idx - (tap : Int) * Factor + FilterOrder * Factor) (FilterOrder * Factor)
      if bufIdx < FilterOrder * Factor then
        sum + readAt buf bufIdx * readAt coeffs (tap : Int)
      else sum)
    sum

/-- One iteration of the `phase` loop of `Oversampler::downsample` on the pair
(object, running `sum`). -/
def downsampleStep (input : List α) (st : Oversampler α × α) (phase : Nat) :
    Oversampler α × α :=
  let buf := writeAt st.1.downsampleBuffer st.1.downsampleIndex (input.getD phase 0)
  let sum :=
    if (phase : Int) = Factor - 1 then
      downsampleTaps st.1.filterCoeffs buf st.1.downsampleIndex st.2
    else st.2
  ({ st.1 with
      downsampleBuffer := buf
      downsampleIndex := Int.tmod (st.1.downsampleIndex + 1) (FilterOrder * Factor) },
   sum)

/-- Method `Oversampler::downsample`: the updated object and the returned sample. -/
def downsample (os : Oversampler α) (input : List α) : Oversampler α × α :=
  (List.range Factor.toNat).foldl (downsampleStep input) (os, 0)

/-- Method `Oversampler::process`: upsample, apply `processor` to each of the four samples,
downsample. -/
def process (os : Oversampler α) (input : α) (processor : α → α) : Oversampler α × α :=
  let up := upsample os input
  downsample up.1 (up.2.map processor)

end Oversampler

/-! ## PluginProcessor.h / PluginProcessor.cpp -/

/-- The raw parameter values read by `processBlock` through `state.getRawParameterValue`,
one field per parameter ID.  `FILTER_MODE` holds the value after `static_cast<int>`. -/
structure Parameters (α : Type) where
  INPUT_Q : α
  COLOR : α
  FILTER_MODE : Int
  DRIVE : α
  OUTPUT_LP : α
  OUTPUT_GAIN : α
  MIX : α
  STAGE_2X : α
  STAGE_5X : α
  STAGE_10X : α
  PAD_ENABLED : α

/-- Data members of `class SanguinovaAudioProcessor` used by the audio path
(`engines` has no data and is left out). -/
structure SanguinovaAudioProcessor (α : Type) where
  preFilters : Array2 (SVFFilter α)
  postFilters : Array2 (OnePole α)
  oversamplers : Array2 (Oversampler α)
  smoothedPadGain : α
  padAttackCoeff : α
  padReleaseCoeff : α
  currentInputLevel : α
  currentOutputLevel : α
  currentGR : α
  totalMultiplier : α
  scopeBuffer : List α
  scopeWritePos : Int
  scopeDecimation : Int
  scopeDecimationFactor : Int

namespace SanguinovaAudioProcessor

/-- Constant `SanguinovaAudioProcessor::scopeSize`. -/
def scopeSize : Int := 256

/-- The default values given to the parameters by `createParameterLayout`
(a bool parameter reads as 1 when true, 0 when false). -/
def defaultParameters : Parameters α :=
  { INPUT_Q := 0.5
    COLOR := 1000
    FILTER_MODE := 2
    DRIVE := 0
    OUTPUT_LP := 20000
    OUTPUT_GAIN := 0
    MIX := 100
    STAGE_2X := 0
    STAGE_5X := 0
    STAGE_10X := 0
    PAD_ENABLED := 1 }

/-- The object after construction: default-constructed DSP members and the default member
initialisers of `PluginProcessor.h`; `filterCoeffs` is the table of each oversampler. -/
def new (filterCoeffs : List α) : SanguinovaAudioProcessor α :=
  { preFilters := Array2.mk SVFFilter.new SVFFilter.new
    postFilters := Array2.mk OnePole.new OnePole.new
    oversamplers := Array2.mk (Oversampler.new filterCoeffs) (Oversampler.new filterCoeffs)
    smoothedPadGain := 1
    padAttackCoeff := 0
    padReleaseCoeff := 0
    currentInputLevel := 0
    currentOutputLevel := 0
    currentGR := 1
    totalMultiplier := 1
    scopeBuffer := List.replicate 256 0
    scopeWritePos := 0
    scopeDecimation := 0
    scopeDecimationFactor := 8 }

/-- Method `getScopeData`: the filled `data` array. -/
def getScopeData (p : SanguinovaAudioProcessor α) : List α :=
  let pos := p.scopeWritePos
  (List.range scopeSize.toNat).map
    (fun (i : Nat) => readAt p.scopeBuffer (Int.tmod (pos + (i : Int)) scopeSize))

/-- Method `prepareToPlay` (`samplesPerBlock` is ignored by the code). -/
def prepareToPlay (exp : α → α) (p : SanguinovaAudioProcessor α) (sampleRate : α)
    (_samplesPerBlock : Int) : SanguinovaAudioProcessor α :=
  let pre := Array2.mk ((p.preFilters.get 0).prepare sampleRate)
    ((p.preFilters.get 1).prepare sampleRate)
  let post := Array2.mk ((p.postFilters.get 0).prepare sampleRate)
    ((p.postFilters.get 1).prepare sampleRate)
  let attackMs : α := 5
  let releaseMs : α := 150
  { p with
    preFilters := pre
    postFilters := post
    padAttackCoeff := exp (-1 / (sampleRate * attackMs / 1000))
    padReleaseCoeff := exp (-1 / (sampleRate * releaseMs / 1000))
    smoothedPadGain := 1 }

/-- Method `releaseResources`. -/
def releaseResources (p : SanguinovaAudioProcessor α) : SanguinovaAudioProcessor α :=
  { p with
    preFilters := Array2.mk (p.preFilters.get 0).reset (p.preFilters.get 1).reset
    postFilters := Array2.mk (p.postFilters.get 0).reset (p.postFilters.get 1).reset
    oversamplers := Array2.mk (p.oversamplers.get 0).reset (p.oversamplers.get 1).reset }

/-- The block-constant locals of `processBlock` computed from the parameters before the
channel loop (lines 205-234 of `PluginProcessor.cpp`). -/
structure BlockLocals (α : Type) where
  inputQ : α
  color : α
  filterMode : Mode
  drive : α
  outputLpFreq : α
  wetAmount : α
  dryAmount : α
  stageMult : α
  targetPadGain : α
  outputGainLinear : α

/-- The parameter read and derived values at the head of `processBlock`. -/
def blockLocals (decibelsToGain : α → α) (params : Parameters α) : BlockLocals α :=
  let inputQ := params.INPUT_Q
  let color := params.COLOR
  let filterModeInt := params.FILTER_MODE
  let drive := params.DRIVE
  let outputLpFreq := params.OUTPUT_LP
  let outputGainDb := params.OUTPUT_GAIN
  let mixPercent := params.MIX
  let wetAmount := mixPercent / 100
  let dryAmount := 1 - wetAmount
  let stage1 : α := if params.STAGE_2X > 0.5 then 2 else 1
  let stage2 : α := if params.STAGE_5X > 0.5 then 5 else 1
  let stage3 : α := if params.STAGE_10X > 0.5 then 10 else 1
  let stageMult := stage1 * stage2 * stage3
  let padEnabled : Bool := decide (params.PAD_ENABLED > 0.5)
  let targetPadGain := if padEnabled then 1 / stageMult else 1
  { inputQ := inputQ
    color := color
    filterMode := Mode.mk filterModeInt
    drive := drive
    outputLpFreq := outputLpFreq
    wetAmount := wetAmount
    dryAmount := dryAmount
    stageMult := stageMult
    targetPadGain := targetPadGain
    outputGainLinear := decibelsToGain outputGainDb }

/-- The object together with the two running peak locals `maxInputLevel` and
`maxOutputLevel` of `processBlock`. -/
structure LoopState (α : Type) where
  proc : SanguinovaAudioProcessor α
  maxInputLevel : α
  maxOutputLevel : α

/-- Step 4 of the sample loop body: the pad smoothing update, done for channel 0 only. -/
def padUpdate (p : SanguinovaAudioProcessor α) (targetPadGain : α) (channel : Nat) : α :=
  if channel = 0 then
    let coeff := if targetPadGain < p.smoothedPadGain then p.padAttackCoeff
      else p.padReleaseCoeff
    p.smoothedPadGain * coeff + targetPadGain * (1 - coeff)
  else p.smoothedPadGain

/-- Step 8 of the sample loop body: the decimated oscilloscope write, done for channel 0
only; returns the scope buffer, write position and decimation counter. -/
def scopeWrite (p : SanguinovaAudioProcessor α) (channel : Nat) (output : α) :
    List α × Int × Int :=
  if channel = 0 then
    let dec := p.scopeDecimation + 1
    if dec ≥ p.scopeDecimationFactor then
      let pos := p.scopeWritePos
      (writeAt p.scopeBuffer pos output, Int.tmod (pos + 1) scopeSize, 0)
    else (p.scopeBuffer, p.scopeWritePos, dec)
  else (p.scopeBuffer, p.scopeWritePos, p.scopeDecimation)

/-- The body of the sample loop of `processBlock` for one `input = channelData[sample]`:
the updated state and the value written back to `channelData[sample]`. -/
def sampleBody (exp : α → α) (pow : α → α → α) (loc : BlockLocals α) (channel : Nat)
    (st : LoopState α) (input : α) : LoopState α × α :=
  let p := st.proc
  let maxInputLevel := max st.maxInputLevel |input|
  let pre := (p.preFilters.get channel).processSample input loc.filterMode
  let filtered := pre.2
  let os := (p.oversamplers.get channel).process filtered
    (fun x => SanguinovaEngine.processSample exp pow x loc.drive loc.stageMult)
  let distorted := os.2
  let post := (p.postFilters.get channel).processSample distorted
  let postFiltered := post.2
  let smoothedPadGain := padUpdate p loc.targetPadGain channel
  let wetSignal := postFiltered * smoothedPadGain * loc.outputGainLinear
  let output := wetSignal * loc.wetAmount + input * loc.dryAmount
  let maxOutputLevel := max st.maxOutputLevel |output|
  let scope := scopeWrite p channel output
  ({ proc :=
      { p with
        preFilters := p.preFilters.set channel pre.1
        oversamplers := p.oversamplers.set channel os.1
        postFilters := p.postFilters.set channel post.1
        smoothedPadGain := smoothedPadGain
        scopeBuffer := scope.1
        scopeWritePos := scope.2.1
        scopeDecimation := scope.2.2 }
     maxInputLevel := maxInputLevel
     maxOutputLevel := maxOutputLevel },
   output)

/-- The sample loop `for (sample = 0; sample < numSamples; ++sample)` over one channel:
the final state and the rewritten channel data. -/
def sampleLoop (body : LoopState α → α → LoopState α × α) :
    LoopState α → List α → LoopState α × List α
  | st, [] => (st, [])
  | st, input :: rest =>
    let r := body st input
    let r2 := sampleLoop body r.1 rest
    (r2.1, r.2 :: r2.2)

/-- The two parameter updates at the head of the channel loop body. -/
def channelSetup (exp tan : α → α) (pi : α) (loc : BlockLocals α) (channel : Nat)
    (p : SanguinovaAudioProcessor α) : SanguinovaAudioProcessor α :=
  { p with
    preFilters := p.preFilters.set channel
      ((p.preFilters.get channel).setParameters tan pi loc.color loc.inputQ)
    postFilters := p.postFilters.set channel
      ((p.postFilters.get channel).setFrequency exp pi loc.outputLpFreq) }

/-- The body of the channel loop of `processBlock`: parameter updates, then the sample
loop over that channel. -/
def processChannel (exp : α → α) (pow : α → α → α) (tan : α → α) (pi : α)
    (loc : BlockLocals α) (channel : Nat) (st : LoopState α) (channelData : List α) :
    LoopState α × List α :=
  sampleLoop (sampleBody exp pow loc channel)
    { st with proc := channelSetup exp tan pi loc channel st.proc } channelData

/-- The channel loop `for (channel = 0; channel < numChannels; ++channel)` over the
channels of the buffer from `channel` on; channels at or beyond `numChannels` are left
as they are. -/
def channelLoop (f : Nat → LoopState α → List α → LoopState α × List α) (numChannels : Nat) :
    Nat → LoopState α → List (List α) → LoopState α × List (List α)
  | _, st, [] => (st, [])
  | channel, st, channelData :: rest =>
    if channel < numChannels then
      let r := f channel st channelData
      let r2 := channelLoop f numChannels (channel + 1) r.1 rest
      (r2.1, r.2 :: r2.2)
    else (st, channelData :: rest)

/-- Method `processBlock`: the updated object and the buffer after in-place processing.
The buffer is the list of its channels; the bus layout has as many input as output channels
(`isBusesLayoutSupported`), so `totalNumInputChannels` is the number of channels of the
buffer and there is no unused output channel to clear. -/
def processBlock (exp : α → α) (pow : α → α → α) (tan : α → α) (pi : α)
    (decibelsToGain : α → α) (p : SanguinovaAudioProcessor α) (params : Parameters α)
    (buffer : List (List α)) : SanguinovaAudioProcessor α × List (List α) :=
  let loc := blockLocals decibelsToGain params
  let p1 := { p with totalMultiplier := loc.stageMult }
  let numChannels := min buffer.length 2
  let r := channelLoop (processChannel exp pow tan pi loc) numChannels 0
    { proc := p1, maxInputLevel := 0, maxOutputLevel := 0 } buffer
  ({ r.1.proc with
      currentInputLevel := r.1.maxInputLevel
      currentOutputLevel := r.1.maxOutputLevel
      currentGR := r.1.proc.smoothedPadGain },
   r.2)

/-- The values of `smoothedPadGain` that step 5 of the loop body (line 275) multiplies into
the successive samples of one channel: the member as it stands after step 4 of each
iteration of the sample loop. -/
def padGainsApplied (body : LoopState α → α → LoopState α × α) :
    LoopState α → List α → List α
  | _, [] => []
  | st, input :: rest =>
    (body st input).1.proc.smoothedPadGain :: padGainsApplied body (body st input).1 rest

/-- The pad gains multiplied into the samples of every processed channel during one
`processBlock` call: the same channel loop, collecting `padGainsApplied` per channel. -/
def processBlockPadGains (exp : α → α) (pow : α → α → α) (tan : α → α) (pi : α)
    (decibelsToGain : α → α) (p : SanguinovaAudioProcessor α) (params : Parameters α)
    (buffer : List (List α)) : List (List α) :=
  let loc := blockLocals decibelsToGain params
  let p1 := { p with totalMultiplier := loc.stageMult }
  let numChannels := min buffer.length 2
  (channelLoop
    (fun channel st channelData =>
      ((processChannel exp pow tan pi loc channel st channelData).1,
       padGainsApplied (sampleBody exp pow loc channel)
        { st with proc := channelSetup exp tan pi loc channel st.proc } channelData))
    numChannels 0 { proc := p1, maxInputLevel := 0, maxOutputLevel := 0 } buffer).2

end SanguinovaAudioProcessor

/-! ## Library code and specification-side definitions -/

/-- The library function `juce::Decibels::decibelsToGain` with its default floor of
-100 dB, as documented by JUCE. -/
def juceDecibelsToGain (pow : α → α → α) (decibels : α) : α :=
  if decibels > -100 then pow 10 (decibels * 0.05) else 0

/-- The waveshaper transfer function as the specification words it: `1 - e^(-x)` for a
non-negative scaled input `x`, `x / (1 + x^2)` for a negative one. -/
def specTransfer (exp : α → α) (x : α) : α :=
  if 0 ≤ x then 1 - exp (-x) else x / (1 + x ^ 2)

/-- The stage multiplier as the specification words it: the product of the factors
(2, 5, 10) of the stages that are active. -/
def specStageMultiplier (stage2x stage5x stage10x : Bool) : Nat :=
  ((([(stage2x, 2), (stage5x, 5), (stage10x, 10)] : List (Bool × Nat)).filter
    (fun s => s.1)).map (fun s => s.2)).prod

/-- The parameter snapshot with resonance clamped to [0.1, 1.0], mix to [0, 100] percent and
drive to [0, 40] dB, as the specification words the coercion of out-of-range values. -/
def clampParameters (params : Parameters α) : Parameters α :=
  { params with
    INPUT_Q := max 0.1 (min params.INPUT_Q 1.0)
    MIX := max 0 (min params.MIX 100)
    DRIVE := max 0 (min params.DRIVE 40) }

/-- One pad smoothing update on the bare numbers: the attack coefficient when the target is
below the current value, the release coefficient otherwise. -/
def padStep (target attack release s : α) : α :=
  s * (if target < s then attack else release) +
    target * (1 - (if target < s then attack else release))

/-- Feeding the constant `input` to `Oversampler::process` `n` times: the outputs of the
successive calls, first call first. -/
def constantRun (processor : α → α) (input : α) : Nat → Oversampler α → List α
  | 0, _ => []
  | n + 1, os => (os.process input processor).2 ::
      constantRun processor input n (os.process input processor).1

/-- Proof-side invariant of an oversampler after `n` calls of `process` on the constant
input `c` with the identity: tap table `h`, buffer sizes, both write positions, the filled
part of the history buffer holding `4 * c`, and the slots of the decimation ring written
by the calls number 32 and later (and not yet overwritten) holding `4 * c`. -/
def Oversampler.DcInvariant (h : List α) (c : α) (n : Nat) (os : Oversampler α) : Prop :=
  os.filterCoeffs = h ∧ os.upsampleBuffer.length = 32 ∧ os.downsampleBuffer.length = 128 ∧
  os.upsampleIndex = ((n % 32 : Nat) : ℤ) ∧ os.downsampleIndex = ((4 * (n % 32) : Nat) : ℤ) ∧
  (∀ i, i < 32 → i < n → os.upsampleBuffer.getD i 0 = 4 * c) ∧
  (∀ m, 32 ≤ m → m ≤ n → n < m + 32 →
    os.downsampleBuffer.getD (4 * ((m - 1) % 32) + 3) 0 = 4 * c)

/-! ## Definitions for the oscilloscope buffer -/

/-- The three statements of the oscilloscope write of `processBlock` (lines 289-291): store
`output` at the write position and advance the write position by one modulo `scopeSize`. -/
def SanguinovaAudioProcessor.scopeStore (p : SanguinovaAudioProcessor α) (output : α) :
    SanguinovaAudioProcessor α :=
  let pos := p.scopeWritePos
  { p with
    scopeBuffer := writeAt p.scopeBuffer pos output
    scopeWritePos := Int.tmod (pos + 1) scopeSize }

/-! ## Specification-side definition: polyphase decomposition -/

/-- Phase `phase` of the polyphase decomposition as the specification words it: the
convolution of the circular history `hist` (newest entry at `idx`) with the phase-decimated
subset of the prototype taps, the taps whose index is congruent to `phase` modulo 4. -/
def specPolyphasePhase (taps hist : List α) (idx : Int) (phase : Nat) : α :=
  ((List.range 8).map
    (fun (k : Nat) => readAt hist ((idx - (k : Int)) % 32) * readAt taps (4 * (k : Int) + phase))).sum

/-! ## Reachable oversampler states -/

/-- The oversampler states reachable from `reset()` (on an object whose three arrays have
their declared sizes 32, 32 and 128) by any sequence of `upsample`, `downsample` and
`process` calls. -/
inductive Oversampler.Reachable : Oversampler α → Prop
  | reset (os : Oversampler α) (hc : os.filterCoeffs.length = 32)
      (hu : os.upsampleBuffer.length = 32) (hd : os.downsampleBuffer.length = 128) :
      Oversampler.Reachable os.reset
  | upsample (os : Oversampler α) (input : α) :
      Oversampler.Reachable os → Oversampler.Reachable (os.upsample input).1
  | downsample (os : Oversampler α) (input : List α) :
      Oversampler.Reachable os → Oversampler.Reachable (os.downsample input).1
  | process (os : Oversampler α) (input : α) (processor : α → α) :
      Oversampler.Reachable os → Oversampler.Reachable (os.process input processor).1

/-! ## Reachable processor states -/

/-- The processor states reached after `prepareToPlay` with a positive sample rate by
processing any sequence of blocks with any parameters, together with the states in which
a block stands after any of its samples (constructor `sample`: one more run of the loop
body, for any channel). -/
inductive SanguinovaAudioProcessor.PlayReachable (exp : α → α) (pow : α → α → α)
    (tan : α → α) (pi : α) (decibelsToGain : α → α) : SanguinovaAudioProcessor α → Prop
  | prepared (p : SanguinovaAudioProcessor α) (sampleRate : α) (samplesPerBlock : Int)
      (h : 0 < sampleRate) :
      PlayReachable exp pow tan pi decibelsToGain
        (prepareToPlay exp p sampleRate samplesPerBlock)
  | block (p : SanguinovaAudioProcessor α) (params : Parameters α) (buffer : List (List α)) :
      PlayReachable exp pow tan pi decibelsToGain p →
      PlayReachable exp pow tan pi decibelsToGain
        (processBlock exp pow tan pi decibelsToGain p params buffer).1
  | sample (p : SanguinovaAudioProcessor α) (params : Parameters α) (channel : Nat)
      (maxInputLevel maxOutputLevel input : α) :
      PlayReachable exp pow tan pi decibelsToGain p →
      PlayReachable exp pow tan pi decibelsToGain
        (sampleBody exp pow (blockLocals decibelsToGain params) channel
          { proc := p, maxInputLevel := maxInputLevel, maxOutputLevel := maxOutputLevel }
          input).1.proc

/-! ## dsp/Oversampler.h: filter design -/

namespace Oversampler

/-- Constant `Oversampler::HalfOrder`. -/
def HalfOrder : Int := Int.tdiv FilterOrder 2

/-- The loop of `Oversampler::bessel_i0`, as a function of its local `xHalfSq`: the state
is `(sum, term, left)`, `left` telling that the `break` has been taken. -/
def besselLoop (xHalfSq : α) : α :=
  ((List.range' 1 19).foldl
    (fun (st : α × α × Bool) (k : Nat) =>
      if st.2.2 then st
      else
        (st.1 + st.2.1 * (xHalfSq / ((k : α) * (k : α))),
         st.2.1 * (xHalfSq / ((k : α) * (k : α))),
         decide (st.2.1 * (xHalfSq / ((k : α) * (k : α))) < 1e-10)))
    (1, 1, false)).1

/-- Method `Oversampler::bessel_i0`. -/
def bessel_i0 (x : α) : α := besselLoop ((x / 2) * (x / 2))

/-- The body of the first loop of `Oversampler::initializeFilter`: the value stored in
`filterCoeffs[i]` before normalization. -/
def windowedSinc (sin sqrt : α → α) (pow : α → α → α) (pi : α) (i : Nat) : α :=
  let cutoff : α := 0.22
  let beta : α := 7
  let n : α := (i : α) - ((HalfOrder - 1 : Int) : α)
  let sinc : α :=
    if |n| < 1e-6 then 2 * cutoff
    else sin (2 * pi * cutoff * n) / (pi * n)
  let windowArg : α := max 0 (1 - pow (2 * (i : α) / ((FilterOrder - 1 : Int) : α) - 1) 2)
  let window : α := bessel_i0 (beta * sqrt windowArg) / bessel_i0 beta
  sinc * window

/-- Method `Oversampler::initializeFilter`: the windowed-sinc table, then its sum, then
every entry divided by the sum. -/
def initializeFilter (sin sqrt : α → α) (pow : α → α → α) (pi : α) (os : Oversampler α) :
    Oversampler α :=
  let coeffs := (List.range FilterOrder.toNat).map (windowedSinc sin sqrt pow pi)
  let sum := coeffs.foldl (fun (s c : α) => s + c) 0
  { os with filterCoeffs := coeffs.map (fun c => c / sum) }

/-- Constructor `Oversampler()` in full: value-initialised members, `initializeFilter()`,
`reset()`. -/
def construct (sin sqrt : α → α) (pow : α → α → α) (pi : α) : Oversampler α :=
  reset (initializeFilter sin sqrt pow pi
    { filterCoeffs := List.replicate FilterOrder.toNat 0
      upsampleBuffer := List.replicate FilterOrder.toNat 0
      downsampleBuffer := List.replicate (FilterOrder * Factor).toNat 0
      upsampleIndex := 0
      downsampleIndex := 0 })

/-- Proof-side form of the Kaiser window of tap `i`: the quotient of the two Bessel sums
written on the squared argument, which is rational. -/
def kaiserWindow (i : Nat) : α :=
  besselLoop (49 / 4 * max 0 (1 - (2 * (i : α) / 31 - 1) ^ 2)) / besselLoop (49 / 4)

/-- Proof-side lower bound of the sinc factor of tap `i`, valid whenever the constant for
pi lies in [3.14, 3.15]: exact at the centre tap, a bound of `sin(0.44 pi) / pi` next to
it, and `-1 / (3.14 |i - 15|)` elsewhere. -/
def sincLowerBound (i : Nat) : α :=
  if i = 15 then 0.44
  else if i = 14 ∨ i = 16 then 0.29
  else -(1 / (3.14 * |(i : α) - 15|))

end Oversampler

/-! ## Sequences of `downsample` calls -/

/-- The values returned by successive `Oversampler::downsample` calls on the quadruples
of `inputs`, each call starting from the object left by the one before. -/
def Oversampler.downsampleRun : Oversampler α → List (List α) → List α
  | _, [] => []
  | os, input :: rest =>
    (os.downsample input).2 :: Oversampler.downsampleRun (os.downsample input).1 rest

/-- Two objects with the same taps and the same write position, a multiple of 4, whose
rings agree on every slot congruent to 3 modulo 4. -/
def Oversampler.SameDecimated (a b : Oversampler α) : Prop :=
  a.filterCoeffs = b.filterCoeffs ∧ a.downsampleBuffer.length = 128 ∧
    b.downsampleBuffer.length = 128 ∧
    (∃ r : Nat, r < 32 ∧ a.downsampleIndex = ((4 * r : Nat) : ℤ) ∧
      b.downsampleIndex = ((4 * r : Nat) : ℤ)) ∧
    ∀ s : Nat, s < 32 → a.downsampleBuffer.getD (4 * s + 3) 0 =
      b.downsampleBuffer.getD (4 * s + 3) 0

/-! ## States at rest -/

/-- Both integrator states of the filter are zero. -/
def SVFFilter.AtRest (f : SVFFilter α) : Prop := f.ic1eq = 0 ∧ f.ic2eq = 0

/-- The state of the one-pole filter is zero. -/
def OnePole.AtRest (f : OnePole α) : Prop := f.z1 = 0

/-- Every entry of both ring buffers of the oversampler is zero. -/
def Oversampler.AtRest (os : Oversampler α) : Prop :=
  (∀ x ∈ os.upsampleBuffer, x = 0) ∧ (∀ x ∈ os.downsampleBuffer, x = 0)

/-- Every filter accumulator and every oversampler buffer of the processor is zero, in
both channels. -/
def SanguinovaAudioProcessor.Silent (p : SanguinovaAudioProcessor α) : Prop :=
  ∀ channel : Nat,
    (p.preFilters.get channel).AtRest ∧ (p.postFilters.get channel).AtRest ∧
      (p.oversamplers.get channel).AtRest

/-! ## The loop state at a given sample of a block -/

/-- The loop state of `processBlock` on entry to iteration `sample` of the sample loop of
channel `channel`: the channel loop has run over the earlier channels, the two parameter
updates of this channel are done, and the sample loop has run over the earlier samples. -/
def SanguinovaAudioProcessor.loopStateAt (exp : α → α) (pow : α → α → α) (tan : α → α)
    (pi : α) (decibelsToGain : α → α) (p : SanguinovaAudioProcessor α) (params : Parameters α)
    (buffer : List (List α)) (channel sample : Nat) : LoopState α :=
  let loc := blockLocals decibelsToGain params
  let p1 := { p with totalMultiplier := loc.stageMult }
  let numChannels := min buffer.length 2
  let st := (channelLoop (processChannel exp pow tan pi loc) numChannels 0
    { proc := p1, maxInputLevel := 0, maxOutputLevel := 0 } (buffer.take channel)).1
  (sampleLoop (sampleBody exp pow loc channel)
    { st with proc := channelSetup exp tan pi loc channel st.proc }
    ((buffer.getD channel []).take sample)).1

/-- Steps 1 to 3 of the sample loop body (lines 255-266): the pre-filter, the oversampled
waveshaper and the post-filter applied to `input`; the value of the local `postFiltered`. -/
def SanguinovaAudioProcessor.postFiltered (exp : α → α) (pow : α → α → α)
    (loc : BlockLocals α) (channel : Nat) (p : SanguinovaAudioProcessor α) (input : α) : α :=
  let filtered := ((p.preFilters.get channel).processSample input loc.filterMode).2
  let distorted := ((p.oversamplers.get channel).process filtered
    (fun x => SanguinovaEngine.processSample exp pow x loc.drive loc.stageMult)).2
  ((p.postFilters.get channel).processSample distorted).2

/-! ## Specification-side definition: the peak of a list of samples -/

/-- The maximum of `|x|` over the samples `xs`, 0 for no sample. -/
def peakOf (xs : List α) : α := xs.foldl (fun (m : α) (x : α) => max m |x|) 0

/-! ## Sequences of host calls -/

/-- The calls a host makes on the processor after construction. -/
inductive HostCall (α : Type) where
  | prepareToPlay (sampleRate : α) (samplesPerBlock : Int) : HostCall α
  | releaseResources : HostCall α
  | processBlock (params : Parameters α) (buffer : List (List α)) : HostCall α

/-- The calls `calls` made one after another on `p`: the processor they leave and the
samples written to channel 0 by the `processBlock` calls, in order. -/
def SanguinovaAudioProcessor.hostRun (exp : α → α) (pow : α → α → α) (tan : α → α) (pi : α)
    (decibelsToGain : α → α) :
    SanguinovaAudioProcessor α → List (HostCall α) → SanguinovaAudioProcessor α × List α
  | p, [] => (p, [])
  | p, HostCall.prepareToPlay sampleRate samplesPerBlock :: rest =>
    SanguinovaAudioProcessor.hostRun exp pow tan pi decibelsToGain
      (SanguinovaAudioProcessor.prepareToPlay exp p sampleRate samplesPerBlock) rest
  | p, HostCall.releaseResources :: rest =>
    SanguinovaAudioProcessor.hostRun exp pow tan pi decibelsToGain
      (SanguinovaAudioProcessor.releaseResources p) rest
  | p, HostCall.processBlock params buffer :: rest =>
    ((SanguinovaAudioProcessor.hostRun exp pow tan pi decibelsToGain
        (SanguinovaAudioProcessor.processBlock exp pow tan pi decibelsToGain p params
          buffer).1 rest).1,
     (SanguinovaAudioProcessor.processBlock exp pow tan pi decibelsToGain p params
          buffer).2.headD [] ++
      (SanguinovaAudioProcessor.hostRun exp pow tan pi decibelsToGain
        (SanguinovaAudioProcessor.processBlock exp pow tan pi decibelsToGain p params
          buffer).1 rest).2)

/-- The samples handed to channel 0 by the `processBlock` calls among `calls`, in order. -/
def channel0Samples : List (HostCall α) → List α
  | [] => []
  | HostCall.processBlock _ buffer :: rest => buffer.headD [] ++ channel0Samples rest
  | _ :: rest => channel0Samples rest

/-- Every 8th of the samples `ys`: the samples number 8, 16, 24, ... counting from 1. -/
def everyEighth (ys : List α) : List α :=
  (List.range (ys.length / 8)).map (fun (k : Nat) => ys.getD (8 * k + 7) 0)

/-- The oscilloscope fields of `p` are those reached from `base` after the channel-0
samples `ys`: decimation factor 8, counter `|ys| mod 8`, and buffer and cursor as left by
one store per 8th sample of `ys`. -/
def SanguinovaAudioProcessor.ScopeAfter (base : SanguinovaAudioProcessor α) (ys : List α)
    (p : SanguinovaAudioProcessor α) : Prop :=
  p.scopeDecimationFactor = 8 ∧ p.scopeDecimation = ((ys.length % 8 : Nat) : Int) ∧
    p.scopeBuffer = ((everyEighth ys).foldl SanguinovaAudioProcessor.scopeStore base).scopeBuffer ∧
    p.scopeWritePos =
      ((everyEighth ys).foldl SanguinovaAudioProcessor.scopeStore base).scopeWritePos

/-! ## dsp/AutoGain.h -/

/-- Data members of `class AutoGain`. -/
structure AutoGain (α : Type) where
  inputEnvelope : α
  outputEnvelope : α
  gainReduction : α
  smoothedGR : α
  sampleRate : α
  attackCoeff : α
  releaseCoeff : α
  grSmoothCoeff : α

/-- The library function `std::clamp(v, lo, hi)`:
`(v < lo) ? lo : (hi < v) ? hi : v`. -/
def stdClamp (v lo hi : α) : α := if v < lo then lo else if hi < v then hi else v

namespace AutoGain

/-- Method `AutoGain::calculateCoefficients`. -/
def calculateCoefficients (exp : α → α) (a : AutoGain α) : AutoGain α :=
  let attackTimeMs : α := 1
  let releaseTimeMs : α := 100
  let grSmoothTimeMs : α := 50
  { a with
    attackCoeff := 1 - exp (-1 / (a.sampleRate * attackTimeMs * 0.001))
    releaseCoeff := 1 - exp (-1 / (a.sampleRate * releaseTimeMs * 0.001))
    grSmoothCoeff := 1 - exp (-1 / (a.sampleRate * grSmoothTimeMs * 0.001)) }

/-- Constructor `AutoGain()`: the member initialisers, then `calculateCoefficients()`
(the coefficient members, uninitialised before that call, start at 0 here). -/
def new (exp : α → α) : AutoGain α :=
  calculateCoefficients exp
    { inputEnvelope := 0, outputEnvelope := 0, gainReduction := 1, smoothedGR := 1,
      sampleRate := 44100, attackCoeff := 0, releaseCoeff := 0, grSmoothCoeff := 0 }

/-- Method `AutoGain::reset`. -/
def reset (a : AutoGain α) : AutoGain α :=
  { a with inputEnvelope := 0, outputEnvelope := 0, gainReduction := 1, smoothedGR := 1 }

/-- Method `AutoGain::prepare`. -/
def prepare (exp : α → α) (a : AutoGain α) (newSampleRate : α) : AutoGain α :=
  reset (calculateCoefficients exp { a with sampleRate := newSampleRate })

/-- Method `AutoGain::updateInputEnvelope`. -/
def updateInputEnvelope (a : AutoGain α) (sample : α) : AutoGain α :=
  let absSample := |sample|
  let alpha := if absSample > a.inputEnvelope then a.attackCoeff else a.releaseCoeff
  { a with inputEnvelope := a.inputEnvelope + alpha * (absSample - a.inputEnvelope) }

/-- Method `AutoGain::updateOutputEnvelope`. -/
def updateOutputEnvelope (a : AutoGain α) (sample : α) : AutoGain α :=
  let absSample := |sample|
  let alpha := if absSample > a.outputEnvelope then a.attackCoeff else a.releaseCoeff
  { a with outputEnvelope := a.outputEnvelope + alpha * (absSample - a.outputEnvelope) }

/-- Method `AutoGain::getGainReduction`: the updated object and the returned value. -/
def getGainReduction (a : AutoGain α) : AutoGain α × α :=
  let epsilon : α := 1e-6
  let minGR : α := 0.1
  let maxGR : α := 5
  let gainReduction :=
    if a.outputEnvelope > epsilon then
      stdClamp (a.inputEnvelope / a.outputEnvelope) minGR maxGR
    else 1
  let smoothedGR := a.smoothedGR + a.grSmoothCoeff * (gainReduction - a.smoothedGR)
  ({ a with gainReduction := gainReduction, smoothedGR := smoothedGR }, smoothedGR)

/-- Method `AutoGain::applySample`. -/
def applySample (a : AutoGain α) (sample : α) : α := sample * a.smoothedGR

/-- Method `AutoGain::processEnvelopes` on the first `numSamples` entries of the two
buffers. -/
def processEnvelopes (a : AutoGain α) (inputBuffer outputBuffer : List α) (numSamples : Int) :
    AutoGain α :=
  (List.range numSamples.toNat).foldl
    (fun (a : AutoGain α) (i : Nat) =>
      updateOutputEnvelope (updateInputEnvelope a (readAt inputBuffer (i : Int)))
        (readAt outputBuffer (i : Int)))
    a

/-- The objects reached from construction, or from `prepare` with a positive sample rate
on any object, by any sequence of calls of the public methods. -/
inductive Reachable (exp : α → α) : AutoGain α → Prop
  | constructed : Reachable exp (AutoGain.new exp)
  | prepare (a : AutoGain α) (newSampleRate : α) (h : 0 < newSampleRate) :
      Reachable exp (AutoGain.prepare exp a newSampleRate)
  | reset (a : AutoGain α) : Reachable exp a → Reachable exp (AutoGain.reset a)
  | updateInputEnvelope (a : AutoGain α) (sample : α) :
      Reachable exp a → Reachable exp (AutoGain.updateInputEnvelope a sample)
  | updateOutputEnvelope (a : AutoGain α) (sample : α) :
      Reachable exp a → Reachable exp (AutoGain.updateOutputEnvelope a sample)
  | getGainReduction (a : AutoGain α) :
      Reachable exp a → Reachable exp (AutoGain.getGainReduction a).1
  | processEnvelopes (a : AutoGain α) (inputBuffer outputBuffer : List α) (numSamples : Int) :
      Reachable exp a →
      Reachable exp (AutoGain.processEnvelopes a inputBuffer outputBuffer numSamples)

end AutoGain

/-! ## PresetManager.h -/

/-- The parameters registered with the `juce::AudioProcessorValueTreeState` by
`createParameterLayout` (`PluginProcessor.cpp`), each parameter ID with its default value
(a bool parameter reads as 1 when true, 0 when false; the choice parameter as its index). -/
def createParameterLayout : List (String × α) :=
  [("INPUT_Q", 0.5), ("COLOR", 1000), ("FILTER_MODE", 2), ("DRIVE", 0), ("OUTPUT_LP", 20000),
   ("OUTPUT_GAIN", 0), ("STAGE_2X", 0), ("STAGE_5X", 0), ("STAGE_10X", 0), ("PAD_ENABLED", 1),
   ("MIX", 100)]

/-- A `std::map<juce::String, float>` built from an initialiser list: its entries in key
order, the order in which a range-for visits them. -/
def stdMapOf (entries : List (String × α)) : List (String × α) :=
  List.insertionSort (fun (a b : String × α) => a.1 < b.1) entries

/-- The `struct FactoryPreset`. -/
structure FactoryPreset (α : Type) where
  name : String
  data : List (String × α)

/-- A `juce::File` of `userPresetFiles` as `loadPresetFromFile` sees it: its name without
extension and, when `XmlDocument::parse` returns a document with the tag of the state
tree, the parameter values that `replaceState` installs from it. -/
structure PresetFile (α : Type) where
  fileNameWithoutExtension : String
  parsed : Option (List (String × α))

/-- Data members of `class PresetManager` (`userPresetDir` is left out); `state` is the
parameter tree it refers to: the registered parameter IDs with their current values. -/
structure PresetManager (α : Type) where
  state : List (String × α)
  factoryPresets : List (FactoryPreset α)
  userPresetFiles : List (PresetFile α)
  currentPresetName : String

namespace PresetManager

/-- Method `initFactoryPresets`: the eight presets pushed onto `factoryPresets`. -/
def initFactoryPresets : List (FactoryPreset α) :=
  [ { name := "Init"
      data := stdMapOf
        [("INPUT_Q", 0.5), ("COLOR", 1000), ("FILTER_MODE", 2), ("DRIVE", 20),
         ("OUTPUT_LP", 20000), ("OUTPUT_GAIN", 0), ("STAGE_2X", 0), ("STAGE_5X", 0),
         ("STAGE_10X", 0), ("AUTO_GAIN", 1), ("MIX", 100)] },
    { name := "Warm Saturation"
      data := stdMapOf
        [("INPUT_Q", 0.3), ("COLOR", 800), ("FILTER_MODE", 0), ("DRIVE", 15),
         ("OUTPUT_LP", 12000), ("OUTPUT_GAIN", 0), ("STAGE_2X", 0), ("STAGE_5X", 0),
         ("STAGE_10X", 0), ("AUTO_GAIN", 1), ("MIX", 70)] },
    { name := "Gritty Edge"
      data := stdMapOf
        [("INPUT_Q", 0.6), ("COLOR", 2000), ("FILTER_MODE", 2), ("DRIVE", 28),
         ("OUTPUT_LP", 15000), ("OUTPUT_GAIN", -2), ("STAGE_2X", 1), ("STAGE_5X", 0),
         ("STAGE_10X", 0), ("AUTO_GAIN", 1), ("MIX", 85)] },
    { name := "Heavy Crunch"
      data := stdMapOf
        [("INPUT_Q", 0.5), ("COLOR", 1500), ("FILTER_MODE", 2), ("DRIVE", 35),
         ("OUTPUT_LP", 10000), ("OUTPUT_GAIN", -3), ("STAGE_2X", 1), ("STAGE_5X", 1),
         ("STAGE_10X", 0), ("AUTO_GAIN", 1), ("MIX", 100)] },
    { name := "Extreme Destruction"
      data := stdMapOf
        [("INPUT_Q", 0.7), ("COLOR", 3000), ("FILTER_MODE", 1), ("DRIVE", 40),
         ("OUTPUT_LP", 8000), ("OUTPUT_GAIN", -5), ("STAGE_2X", 1), ("STAGE_5X", 1),
         ("STAGE_10X", 1), ("AUTO_GAIN", 1), ("MIX", 100)] },
    { name := "Subtle Tape"
      data := stdMapOf
        [("INPUT_Q", 0.4), ("COLOR", 500), ("FILTER_MODE", 0), ("DRIVE", 8),
         ("OUTPUT_LP", 18000), ("OUTPUT_GAIN", 1), ("STAGE_2X", 0), ("STAGE_5X", 0),
         ("STAGE_10X", 0), ("AUTO_GAIN", 1), ("MIX", 50)] },
    { name := "Bright Exciter"
      data := stdMapOf
        [("INPUT_Q", 0.8), ("COLOR", 5000), ("FILTER_MODE", 1), ("DRIVE", 18),
         ("OUTPUT_LP", 20000), ("OUTPUT_GAIN", 2), ("STAGE_2X", 0), ("STAGE_5X", 0),
         ("STAGE_10X", 0), ("AUTO_GAIN", 1), ("MIX", 40)] },
    { name := "Bass Thickener"
      data := stdMapOf
        [("INPUT_Q", 0.6), ("COLOR", 200), ("FILTER_MODE", 0), ("DRIVE", 22),
         ("OUTPUT_LP", 6000), ("OUTPUT_GAIN", 0), ("STAGE_2X", 1), ("STAGE_5X", 0),
         ("STAGE_10X", 0), ("AUTO_GAIN", 1), ("MIX", 60)] } ]

/-- Constructor `PresetManager(apvts)`: `state` refers to `apvts`, `initFactoryPresets()`
fills the factory presets, `refreshPresetList()` the user preset files found on disk
(given here as `userPresetFiles`), and `currentPresetName` starts as "Init". -/
def new (apvts : List (String × α)) (userPresetFiles : List (PresetFile α)) :
    PresetManager α :=
  { state := apvts
    factoryPresets := initFactoryPresets
    userPresetFiles := userPresetFiles
    currentPresetName := "Init" }

/-- The library call `state.getParameter(paramId)`: the registered parameter with that
ID, if there is one (its current value stands for the object). -/
def getParameter (state : List (String × α)) (paramId : String) : Option α :=
  List.lookup paramId state

/-- The library call `param->setValueNotifyingHost(param->convertTo0to1(value))` on the
parameter `paramId`: the parameter takes the value `legalValue paramId value`, the value of
its range that JUCE keeps for the request `value`; the other parameters are untouched. -/
def setValueNotifyingHost (legalValue : String → α → α) (state : List (String × α))
    (paramId : String) (value : α) : List (String × α) :=
  state.map (fun (e : String × α) => if e.1 = paramId then (e.1, legalValue paramId value) else e)

/-- Method `applyPresetData`: the parameter tree after the loop over the map. -/
def applyPresetData (legalValue : String → α → α) (state : List (String × α))
    (data : List (String × α)) : List (String × α) :=
  data.foldl
    (fun (st : List (String × α)) (e : String × α) =>
      if (getParameter st e.1).isSome then setValueNotifyingHost legalValue st e.1 e.2 else st)
    state

/-- Method `loadPresetFromFile`: the updated object and the returned flag. -/
def loadPresetFromFile (m : PresetManager α) (file : PresetFile α) : PresetManager α × Bool :=
  match file.parsed with
  | some tree =>
    ({ m with state := tree, currentPresetName := file.fileNameWithoutExtension }, true)
  | none => (m, false)

/-- Method `loadPreset(int index)`: the updated object and the returned flag. -/
def loadPreset (legalValue : String → α → α) (m : PresetManager α) (index : Int) :
    PresetManager α × Bool :=
  if index < 0 then (m, false)
  else if index < (m.factoryPresets.length : Int) then
    let preset := m.factoryPresets.getD index.toNat ⟨"", []⟩
    ({ m with
        state := applyPresetData legalValue m.state preset.data
        currentPresetName := preset.name },
     true)
  else
    let userIndex := index - (m.factoryPresets.length : Int)
    if userIndex < (m.userPresetFiles.length : Int) then
      loadPresetFromFile m (m.userPresetFiles.getD userIndex.toNat ⟨"", none⟩)
    else (m, false)

end PresetManager

/-! ## Definitions for the unity-settings pipeline -/

/-- The sum of the absolute values of the 32 filter taps of the table `h`. -/
def Oversampler.tapSum (h : List α) : α :=
  ((List.range 32).map (fun (t : Nat) => |readAt h (t : Int)|)).sum

/-- Proof-side upper bound of the absolute value of the sinc factor of tap `i`, valid
whenever the constant for pi is at least 3.14: exact at the centre tap and
`1 / (3.14 |i - 15|)` elsewhere. -/
def Oversampler.sincUpperBound (i : Nat) : α :=
  if i = 15 then 0.44 else 1 / (3.14 * |(i : α) - 15|)

/-- Specification-side test signal: `numSamples` samples of a sine of the given amplitude
and frequency at the given sample rate, starting at phase 0. -/
def sineWave (sin : α → α) (pi amplitude frequency sampleRate : α) (numSamples : Nat) :
    List α :=
  (List.range numSamples).map
    (fun (n : Nat) => amplitude * sin (2 * pi * frequency * (n : α) / sampleRate))

/-- Specification-side settings of the unity check: drive 0 dB, all stages off, mix 100 %,
pad disabled, output trim 0 dB, post-filter at its maximum of 20 kHz, and the defaults
(Q 0.5, colour 1 kHz, band-pass) for the input filter. -/
def unityParameters : Parameters α :=
  { INPUT_Q := 0.5
    COLOR := 1000
    FILTER_MODE := 2
    DRIVE := 0
    OUTPUT_LP := 20000
    OUTPUT_GAIN := 0
    MIX := 100
    STAGE_2X := 0
    STAGE_5X := 0
    STAGE_10X := 0
    PAD_ENABLED := 0 }

/-- The processor state kept by a block with the pad disabled: the pad gain is 1, every
oversampler holds the taps `h` and decimation-ring entries of magnitude at most 1, and
every post-filter has a positive sample rate and a state of magnitude at most the tap
sum. -/
def SanguinovaAudioProcessor.UnityBounded (h : List α) (p : SanguinovaAudioProcessor α) :
    Prop :=
  p.smoothedPadGain = 1 ∧
    ∀ channel : Nat,
      ((p.oversamplers.get channel).filterCoeffs = h ∧
        ∀ x ∈ (p.oversamplers.get channel).downsampleBuffer, |x| ≤ 1) ∧
      (|(p.postFilters.get channel).z1| ≤ Oversampler.tapSum h ∧
        0 < (p.postFilters.get channel).fs)

/-! ## Helper lemmas: loops and frame properties -/

namespace SanguinovaAudioProcessor

/-- A property of the loop state kept by every iteration is kept by the sample loop. -/
theorem sampleLoop_preserves (body : LoopState α → α → LoopState α × α)
    (P : LoopState α → Prop) (hbody : ∀ st x, P st → P (body st x).1) :
    ∀ (xs : List α) (st : LoopState α), P st → P (sampleLoop body st xs).1 := by
  intro xs
  induction xs with
  | nil => intro st h; exact h
  | cons x rest ih => intro st h; exact ih _ (hbody st x h)

/-- A property kept by the body for every channel from `first` on is kept by the channel
loop started at a channel from `first` on. -/
theorem channelLoop_preserves (f : Nat → LoopState α → List α → LoopState α × List α)
    (numChannels first : Nat) (P : LoopState α → Prop)
    (hf : ∀ ch st xs, first ≤ ch → P st → P (f ch st xs).1) :
    ∀ (buffer : List (List α)) (channel : Nat) (st : LoopState α),
      first ≤ channel → P st → P (channelLoop f numChannels channel st buffer).1 := by
  intro buffer
  induction buffer with
  | nil => intro channel st _ h; exact h
  | cons xs rest ih =>
    intro channel st hc h
    unfold channelLoop
    split
    · exact ih _ _ (Nat.le_succ_of_le hc) (hf channel st xs hc h)
    · exact h

/-- The channel body does not touch `totalMultiplier`. -/
theorem processChannel_totalMultiplier (exp : α → α) (pow : α → α → α) (tan : α → α) (pi : α)
    (loc : BlockLocals α) (channel : Nat) (st : LoopState α) (xs : List α) (m : α)
    (h : st.proc.totalMultiplier = m) :
    (processChannel exp pow tan pi loc channel st xs).1.proc.totalMultiplier = m := by
  unfold processChannel
  apply sampleLoop_preserves _ (fun s => s.proc.totalMultiplier = m)
  · intro s x hs; exact hs
  · exact h

/-- After `processBlock`, `totalMultiplier` holds the stage multiplier of that block. -/
theorem processBlock_totalMultiplier (exp : α → α) (pow : α → α → α) (tan : α → α) (pi : α)
    (decibelsToGain : α → α) (p : SanguinovaAudioProcessor α) (params : Parameters α)
    (buffer : List (List α)) :
    (processBlock exp pow tan pi decibelsToGain p params buffer).1.totalMultiplier =
      (blockLocals decibelsToGain params).stageMult := by
  unfold processBlock
  exact channelLoop_preserves _ _ 0
    (fun s => s.proc.totalMultiplier = (blockLocals decibelsToGain params).stageMult)
    (fun ch st xs _ h => processChannel_totalMultiplier exp pow tan pi _ ch st xs _ h)
    _ _ _ (le_refl _) rfl

/-- The stage multiplier local, unfolded. -/
theorem blockLocals_stageMult (decibelsToGain : α → α) (params : Parameters α) :
    (blockLocals decibelsToGain params).stageMult =
      (if params.STAGE_2X > 0.5 then 2 else 1) * (if params.STAGE_5X > 0.5 then 5 else 1) *
        (if params.STAGE_10X > 0.5 then 10 else 1) := rfl

/-- The pad members after one pass of the sample loop over channel 0. -/
theorem sampleLoop_pad_channel0 (exp : α → α) (pow : α → α → α) (loc : BlockLocals α) :
    ∀ (xs : List α) (st : LoopState α),
      (sampleLoop (sampleBody exp pow loc 0) st xs).1.proc.smoothedPadGain =
          (padStep loc.targetPadGain st.proc.padAttackCoeff st.proc.padReleaseCoeff)^[xs.length]
            st.proc.smoothedPadGain
        ∧ (sampleLoop (sampleBody exp pow loc 0) st xs).1.proc.padAttackCoeff =
          st.proc.padAttackCoeff
        ∧ (sampleLoop (sampleBody exp pow loc 0) st xs).1.proc.padReleaseCoeff =
          st.proc.padReleaseCoeff := by
  intro xs
  induction xs with
  | nil => intro st; exact ⟨rfl, rfl, rfl⟩
  | cons x rest ih =>
    intro st
    have h := ih (sampleBody exp pow loc 0 st x).1
    refine ⟨?_, h.2.1, h.2.2⟩
    rw [List.length_cons, Function.iterate_succ_apply]
    exact h.1

/-- The pass over a channel other than 0 leaves `smoothedPadGain` alone. -/
theorem processChannel_pad_other (exp : α → α) (pow : α → α → α) (tan : α → α) (pi : α)
    (loc : BlockLocals α) (channel : Nat) (hch : 1 ≤ channel) (st : LoopState α)
    (xs : List α) (s : α) (h : st.proc.smoothedPadGain = s) :
    (processChannel exp pow tan pi loc channel st xs).1.proc.smoothedPadGain = s := by
  unfold processChannel
  apply sampleLoop_preserves _ (fun t => t.proc.smoothedPadGain = s)
  · intro t x ht
    have hne : channel ≠ 0 := by omega
    show padUpdate t.proc loc.targetPadGain channel = s
    simp only [padUpdate, hne, if_false]
    exact ht
  · exact h

/-- The smoothed pad gain after a block whose first channel has `xs.length` samples: that
many pad updates, whatever the other channels hold. -/
theorem processBlock_smoothedPadGain (exp : α → α) (pow : α → α → α) (tan : α → α) (pi : α)
    (decibelsToGain : α → α) (p : SanguinovaAudioProcessor α) (params : Parameters α)
    (xs : List α) (rest : List (List α)) :
    (processBlock exp pow tan pi decibelsToGain p params (xs :: rest)).1.smoothedPadGain =
      (padStep (blockLocals decibelsToGain params).targetPadGain p.padAttackCoeff
        p.padReleaseCoeff)^[xs.length] p.smoothedPadGain := by
  unfold processBlock
  simp only []
  unfold channelLoop
  have hlt : 0 < min (xs :: rest).length 2 := by simp
  rw [if_pos hlt]
  simp only []
  apply channelLoop_preserves _ _ 1 (fun t => t.proc.smoothedPadGain = _)
  · intro ch st ys hch h
    exact processChannel_pad_other exp pow tan pi _ ch hch st ys _ h
  · exact le_refl _
  · exact (sampleLoop_pad_channel0 exp pow _ xs _).1

/-- Closed form of the attack from 1 towards the target 1/2 with a positive coefficient. -/
theorem padStep_iterate_half (a r : α) (ha0 : 0 < a) (n : Nat) :
    (padStep (1 / 2) a r)^[n] 1 = 1 / 2 + 1 / 2 * a ^ n := by
  induction n with
  | zero => norm_num
  | succ n ih =>
    rw [Function.iterate_succ_apply', ih]
    have hlt : (1 / 2 : α) < 1 / 2 + 1 / 2 * a ^ n := by
      have := pow_pos ha0 n
      linarith
    simp only [padStep, if_pos hlt]
    ring

end SanguinovaAudioProcessor

/-! ## Helper lemmas: bounds on the exponential -/

/-- Bound `e^(-4) < 0.02`. -/
theorem exp_neg_four_lt : Real.exp (-4) < 0.02 := by
  have h1 := Real.exp_one_gt_d9
  have h4 : Real.exp 4 = Real.exp 1 ^ 4 := by
    rw [← Real.exp_nat_mul]; norm_num
  have h27 : (2.7 : ℝ) ^ 4 < Real.exp 1 ^ 4 :=
    pow_lt_pow_left₀ (by linarith) (by norm_num) (by norm_num)
  have h50 : (50 : ℝ) < Real.exp 4 := by rw [h4]; norm_num at h27 ⊢; linarith
  rw [Real.exp_neg, inv_lt_comm₀ (Real.exp_pos 4) (by norm_num)]
  norm_num
  linarith

/-- Bound `0.02 < e^(-3)`. -/
theorem exp_neg_three_gt : (0.02 : ℝ) < Real.exp (-3) := by
  have h1 := Real.exp_one_lt_d9
  have h3 : Real.exp 3 = Real.exp 1 ^ 3 := by
    rw [← Real.exp_nat_mul]; norm_num
  have h28 : Real.exp 1 ^ 3 < (2.8 : ℝ) ^ 3 :=
    pow_lt_pow_left₀ (by linarith) (Real.exp_pos 1).le (by norm_num)
  have h50 : Real.exp 3 < 50 := by rw [h3]; norm_num at h28 ⊢; linarith
  rw [Real.exp_neg, lt_inv_comm₀ (by norm_num) (Real.exp_pos 3)]
  norm_num
  linarith

/-- Bound `0.36 < e^(-1)`. -/
theorem exp_neg_one_gt : (0.36 : ℝ) < Real.exp (-1) := by
  have h1 := Real.exp_one_lt_d9
  rw [Real.exp_neg, lt_inv_comm₀ (by norm_num) (Real.exp_pos 1)]
  norm_num
  linarith

/-- The `n`-th power of the attack coefficient computed by `prepareToPlay`. -/
theorem attack_pow (fs : ℝ) (n : ℕ) (hfs : 0 < fs) :
    Real.exp (-1 / (fs * 5 / 1000)) ^ n = Real.exp (-(200 * n / fs)) := by
  rw [← Real.exp_nat_mul]
  congr 1
  field_simp
  ring

/-- The waveshaper on its scaled input `x = input * pow 10 (driveDb / 20) * stageMult`. -/
theorem processSample_scaled (exp : α → α) (pow : α → α → α) (input driveDb stageMult : α) :
    SanguinovaEngine.processSample exp pow input driveDb stageMult =
      (if input * pow 10 (driveDb / 20) * stageMult > 0
        then 1 - exp (-(input * pow 10 (driveDb / 20) * stageMult))
        else input * pow 10 (driveDb / 20) * stageMult /
          (1 + input * pow 10 (driveDb / 20) * stageMult *
            (input * pow 10 (driveDb / 20) * stageMult))) := rfl

open SanguinovaAudioProcessor

/-- The smoothed pad gain after a block of `xs.length` samples on channel 0, from a freshly
prepared object with stage 2x alone active and the pad enabled (target 1/2). -/
theorem smoothedPadGain_attack (pow : ℝ → ℝ → ℝ) (tan : ℝ → ℝ) (pi : ℝ)
    (decibelsToGain : ℝ → ℝ) (p : SanguinovaAudioProcessor ℝ) (sampleRate : ℝ)
    (samplesPerBlock : Int) (params : Parameters ℝ) (xs : List ℝ) (rest : List (List ℝ))
    (hfs : 0 < sampleRate) :
    (processBlock Real.exp pow tan pi decibelsToGain
      (prepareToPlay Real.exp p sampleRate samplesPerBlock)
      { params with STAGE_2X := 1, STAGE_5X := 0, STAGE_10X := 0, PAD_ENABLED := 1 }
      (xs :: rest)).1.smoothedPadGain =
      1 / 2 + 1 / 2 * Real.exp (-(200 * xs.length / sampleRate)) := by
  rw [processBlock_smoothedPadGain]
  have ht : (blockLocals decibelsToGain
      { params with STAGE_2X := 1, STAGE_5X := 0, STAGE_10X := 0,
                    PAD_ENABLED := 1 }).targetPadGain = 1 / 2 := by
    simp only [blockLocals]
    norm_num
  rw [ht]
  show (padStep (1 / 2) (Real.exp (-1 / (sampleRate * 5 / 1000))) _)^[xs.length] 1 = _
  rw [padStep_iterate_half _ _ (Real.exp_pos _), attack_pow _ _ hfs]

/-! ## Helper lemmas: the oversampler on a constant input -/

/-- Reading a list after a write at another or the same position. -/
theorem getD_set (l : List α) (i j : Nat) (v : α) :
    (l.set i v).getD j 0 = if i = j ∧ i < l.length then v else l.getD j 0 := by
  simp only [List.getD_eq_getElem?_getD, List.getElem?_set]
  by_cases hij : i = j
  · subst hij
    by_cases hi : i < l.length
    · simp [hi]
    · simp [hi, List.getElem?_eq_none (not_lt.mp hi)]
  · simp [hij]

/-- A loop that adds `g tap` at every step sums `g` over the range. -/
theorem foldl_add_range (f : α → Nat → α) (g : Nat → α) (n : Nat)
    (hf : ∀ s tap, tap < n → f s tap = s + g tap) (init : α) :
    (List.range n).foldl f init = init + ((List.range n).map g).sum := by
  induction n with
  | zero => simp
  | succ n ih =>
    rw [List.range_succ, List.foldl_append, List.map_append, List.sum_append,
      ih (fun s tap h => hf s tap (Nat.lt_succ_of_lt h))]
    simp only [List.foldl_cons, List.foldl_nil, List.map_cons, List.map_nil, List.sum_cons,
      List.sum_nil, add_zero]
    rw [hf _ n (Nat.lt_succ_self n), add_assoc]

/-- Summing the entries of a list by index gives its sum. -/
theorem sum_map_getD (h : List α) (n : Nat) (hn : h.length = n) :
    ((List.range n).map (fun t => h.getD t 0)).sum = h.sum := by
  subst hn
  congr 1
  apply List.ext_getElem
  · simp
  · intro i h1 h2
    simp [List.getD_eq_getElem?_getD, List.getElem?_eq_getElem h2]

namespace Oversampler

/-- With a history buffer holding `v` in every slot, each phase of `upsample` yields
`v` times the sum of the taps. -/
theorem upsamplePhase_const (os : Oversampler α) (buf : List α) (phase r : Nat) (v : α)
    (hphase : phase < 4) (hr : r < 32) (hidx : os.upsampleIndex = (r : ℤ))
    (hlen : os.filterCoeffs.length = 32)
    (hbuf : ∀ i, i < 32 → buf.getD i 0 = v) :
    upsamplePhase os buf phase = v * os.filterCoeffs.sum := by
  unfold upsamplePhase
  rw [show FilterOrder.toNat = 32 from rfl,
    foldl_add_range _ (fun t => v * os.filterCoeffs.getD t 0) 32 _ 0, zero_add,
    List.sum_map_mul_left, sum_map_getD _ _ hlen]
  intro s tap htap
  have h1 : (tap : ℤ) * Factor + (phase : ℤ) < FilterOrder * Factor := by
    simp only [Factor, FilterOrder]; omega
  simp only [if_pos h1]
  congr 1
  have hb : (Int.tmod (os.upsampleIndex - (tap : ℤ) + FilterOrder) FilterOrder).toNat < 32 := by
    rw [hidx]
    simp only [FilterOrder]
    rw [Int.tmod_eq_emod (by omega) (by norm_num)]
    omega
  have hc : Int.tdiv ((tap : ℤ) * Factor + (phase : ℤ)) Factor = (tap : ℤ) := by
    simp only [Factor]
    rw [Int.tdiv_eq_ediv (by omega) (by norm_num)]
    omega
  simp only [getFilterCoeff, hc, readAt, hbuf _ hb, Int.toNat_ofNat]
  have h2 : (tap : ℤ) < FilterOrder := by simp only [FilterOrder]; omega
  rw [if_pos h2]

/-- With `v` in every slot the decimation filter reads, the `tap` loop of `downsample`
adds `v` times the sum of the taps. -/
theorem downsampleTaps_const (coeffs buf : List α) (r : Nat) (v sum : α) (hr : r < 32)
    (hlen : coeffs.length = 32)
    (hbuf : ∀ tap, tap < 32 → buf.getD (4 * ((r + 32 - tap) % 32) + 3) 0 = v) :
    downsampleTaps coeffs buf ((4 * r + 3 : Nat) : ℤ) sum = sum + v * coeffs.sum := by
  unfold downsampleTaps
  rw [show FilterOrder.toNat = 32 from rfl,
    foldl_add_range _ (fun t => v * coeffs.getD t 0) 32 _ sum,
    List.sum_map_mul_left, sum_map_getD _ _ hlen]
  intro s tap htap
  have hi : (Int.tmod (((4 * r + 3 : Nat) : ℤ) - (tap : ℤ) * Factor + FilterOrder * Factor)
      (FilterOrder * Factor)).toNat = 4 * ((r + 32 - tap) % 32) + 3 := by
    simp only [Factor, FilterOrder]
    rw [Int.tmod_eq_emod (by omega) (by norm_num)]
    omega
  have h1 : Int.tmod (((4 * r + 3 : Nat) : ℤ) - (tap : ℤ) * Factor + FilterOrder * Factor)
      (FilterOrder * Factor) < FilterOrder * Factor := by
    simp only [Factor, FilterOrder]
    rw [Int.tmod_eq_emod (by omega) (by norm_num)]
    omega
  simp only [if_pos h1, readAt, hi, hbuf tap htap, Int.toNat_ofNat]

/-- One `downsample` call from write position `4 * r` unrolled: four consecutive writes, one run of the
tap loop at the last of them, and the write position moved on by four. -/
theorem downsample_unrolled (os : Oversampler α) (i0 i1 i2 i3 : α) (r : Nat) (hr : r < 32)
    (hidx : os.downsampleIndex = ((4 * r : Nat) : ℤ)) :
    downsample os [i0, i1, i2, i3] =
      ({ os with
          downsampleBuffer :=
            (((os.downsampleBuffer.set (4 * r) i0).set (4 * r + 1) i1).set (4 * r + 2) i2).set
              (4 * r + 3) i3
          downsampleIndex := ((4 * ((r + 1) % 32) : Nat) : ℤ) },
       downsampleTaps os.filterCoeffs
        ((((os.downsampleBuffer.set (4 * r) i0).set (4 * r + 1) i1).set (4 * r + 2) i2).set
          (4 * r + 3) i3) ((4 * r + 3 : Nat) : ℤ) 0) := by
  have e1 : Int.tmod (((4 * r : Nat) : ℤ) + 1) (FilterOrder * Factor) = ((4 * r + 1 : Nat) : ℤ) := by
    simp only [Factor, FilterOrder]
    rw [Int.tmod_eq_emod (by omega) (by norm_num)]; omega
  have e2 : Int.tmod (((4 * r + 1 : Nat) : ℤ) + 1) (FilterOrder * Factor) =
      ((4 * r + 2 : Nat) : ℤ) := by
    simp only [Factor, FilterOrder]
    rw [Int.tmod_eq_emod (by omega) (by norm_num)]; omega
  have e3 : Int.tmod (((4 * r + 2 : Nat) : ℤ) + 1) (FilterOrder * Factor) =
      ((4 * r + 3 : Nat) : ℤ) := by
    simp only [Factor, FilterOrder]
    rw [Int.tmod_eq_emod (by omega) (by norm_num)]; omega
  have e4 : Int.tmod (((4 * r + 3 : Nat) : ℤ) + 1) (FilterOrder * Factor) =
      ((4 * ((r + 1) % 32) : Nat) : ℤ) := by
    simp only [Factor, FilterOrder]
    rw [Int.tmod_eq_emod (by omega) (by norm_num)]; omega
  have p0 : ¬ (((0 : Nat) : ℤ) = Factor - 1) := by simp [Factor]
  have p1 : ¬ (((1 : Nat) : ℤ) = Factor - 1) := by simp [Factor]
  have p2 : ¬ (((2 : Nat) : ℤ) = Factor - 1) := by simp [Factor]
  have p3 : ((3 : Nat) : ℤ) = Factor - 1 := by simp [Factor]
  unfold downsample
  rw [show List.range Factor.toNat = [0, 1, 2, 3] from rfl]
  simp only [List.foldl_cons, List.foldl_nil, downsampleStep, hidx, e1, e2, e3, e4, if_neg p0,
    if_neg p1, if_neg p2, if_pos p3, writeAt, Int.toNat_ofNat, List.getD_cons_zero,
    List.getD_cons_succ]

/-- One `upsample` call from write position `r` unrolled. -/
theorem upsample_unrolled (os : Oversampler α) (input : α) (r : Nat) (hr : r < 32)
    (hidx : os.upsampleIndex = (r : ℤ)) :
    upsample os input =
      ({ os with
          upsampleBuffer := os.upsampleBuffer.set r (input * 4)
          upsampleIndex := (((r + 1) % 32 : Nat) : ℤ) },
       [upsamplePhase os (os.upsampleBuffer.set r (input * 4)) 0,
        upsamplePhase os (os.upsampleBuffer.set r (input * 4)) 1,
        upsamplePhase os (os.upsampleBuffer.set r (input * 4)) 2,
        upsamplePhase os (os.upsampleBuffer.set r (input * 4)) 3]) := by
  have e1 : Int.tmod ((r : ℤ) + 1) FilterOrder = (((r + 1) % 32 : Nat) : ℤ) := by
    simp only [FilterOrder]
    rw [Int.tmod_eq_emod (by omega) (by norm_num)]; omega
  have e4 : ((Factor : ℤ) : α) = 4 := by simp [Factor]
  unfold upsample
  rw [show List.range Factor.toNat = [0, 1, 2, 3] from rfl]
  simp only [hidx, e1, e4, writeAt, Int.toNat_ofNat, List.map_cons, List.map_nil]

/-- One `process` call on the constant input keeps the invariant and, from the 63rd call
on, returns four times the input. -/
theorem process_dc_step (h : List α) (c : α) (n : Nat) (os : Oversampler α)
    (hlen : h.length = 32) (hsum : h.sum = 1) (inv : DcInvariant h c n os) :
    DcInvariant h c (n + 1) (os.process c id).1 ∧ (62 ≤ n → (os.process c id).2 = 4 * c) := by
  obtain ⟨hco, hul, hdl, hui, hdi, hup, hdown⟩ := inv
  have hr : n % 32 < 32 := Nat.mod_lt _ (by norm_num)
  -- the history buffer after the write
  have hbuf : ∀ i, i < 32 → i < n + 1 →
      (os.upsampleBuffer.set (n % 32) (c * 4)).getD i 0 = 4 * c := by
    intro i hi hin
    rw [getD_set]
    split
    · ring
    · rename_i hne
      apply hup i hi
      rw [hul] at hne
      omega
  -- the four upsampled values once the history is full
  have hphase : ∀ phase, phase < 4 → 31 ≤ n →
      upsamplePhase os (os.upsampleBuffer.set (n % 32) (c * 4)) phase = 4 * c := by
    intro phase hp hn
    rw [upsamplePhase_const os _ phase (n % 32) (4 * c) hp hr hui (by rw [hco]; exact hlen)
      (fun i hi => hbuf i hi (by omega)), hco, hsum, mul_one]
  have hproc : os.process c id =
      downsample (upsample os c).1 ((upsample os c).2.map id) := rfl
  rw [hproc, upsample_unrolled os c (n % 32) hr hui]
  simp only [List.map_id]
  rw [downsample_unrolled
    { os with
      upsampleBuffer := os.upsampleBuffer.set (n % 32) (c * 4)
      upsampleIndex := (((n % 32 + 1) % 32 : Nat) : ℤ) } _ _ _ _ (n % 32) hr hdi]
  -- the decimation ring after the four writes
  have hring : ∀ m, 32 ≤ m → m ≤ n + 1 → n + 1 < m + 32 →
      ((((os.downsampleBuffer.set (4 * (n % 32))
          (upsamplePhase os (os.upsampleBuffer.set (n % 32) (c * 4)) 0)).set (4 * (n % 32) + 1)
          (upsamplePhase os (os.upsampleBuffer.set (n % 32) (c * 4)) 1)).set (4 * (n % 32) + 2)
          (upsamplePhase os (os.upsampleBuffer.set (n % 32) (c * 4)) 2)).set (4 * (n % 32) + 3)
          (upsamplePhase os (os.upsampleBuffer.set (n % 32) (c * 4)) 3)).getD
        (4 * ((m - 1) % 32) + 3) 0 = 4 * c := by
    intro m hm1 hm2 hm3
    rw [getD_set]
    split
    · exact hphase 3 (by norm_num) (by omega)
    · rename_i hne
      simp only [List.length_set, hdl] at hne
      have hmn : m ≤ n := by
        by_contra hc
        have : m = n + 1 := by omega
        subst this
        apply hne
        constructor <;> omega
      rw [getD_set, if_neg (by omega), getD_set, if_neg (by omega), getD_set, if_neg (by omega)]
      exact hdown m hm1 hmn (by omega)
  refine ⟨⟨hco, ?_, ?_, ?_, ?_, ?_, ?_⟩, ?_⟩
  · simp only [List.length_set]; exact hul
  · simp only [List.length_set]; exact hdl
  · show (((n % 32 + 1) % 32 : Nat) : ℤ) = (((n + 1) % 32 : Nat) : ℤ)
    congr 1; omega
  · show ((4 * ((n % 32 + 1) % 32) : Nat) : ℤ) = ((4 * ((n + 1) % 32) : Nat) : ℤ)
    congr 1; omega
  · exact hbuf
  · exact hring
  · intro hn
    show downsampleTaps os.filterCoeffs _ _ 0 = 4 * c
    rw [downsampleTaps_const _ _ (n % 32) (4 * c) 0 hr (by rw [hco]; exact hlen), hco, hsum]
    · ring
    · intro tap htap
      have h1 := hring (n + 1 - tap) (by omega) (by omega) (by omega)
      have e : (n + 1 - tap - 1) % 32 = (n % 32 + 32 - tap) % 32 := by omega
      rw [e] at h1
      exact h1

/-- The freshly constructed (reset) oversampler satisfies the invariant before any call. -/
theorem dcInvariant_new (h : List α) (c : α) : DcInvariant h c 0 (Oversampler.new h) := by
  refine ⟨rfl, ?_, ?_, rfl, rfl, ?_, ?_⟩
  · simp [Oversampler.new, reset, FilterOrder]
  · simp [Oversampler.new, reset, FilterOrder, Factor]
  · intro i _ hi; omega
  · intro m h1 h2; omega

/-- Along a run on the constant input, every output from the 63rd call on is four times the
input. -/
theorem constantRun_dc (h : List α) (c : α) (hlen : h.length = 32) (hsum : h.sum = 1) :
    ∀ (total n : Nat) (os : Oversampler α), DcInvariant h c n os →
      ∀ i, i < total → 62 ≤ n + i → (constantRun id c total os)[i]? = some (4 * c) := by
  intro total
  induction total with
  | zero => intro n os _ i hi; omega
  | succ total ih =>
    intro n os inv i hi hn
    have hstep := process_dc_step h c n os hlen hsum inv
    cases i with
    | zero =>
      simp only [constantRun, List.getElem?_cons_zero]
      rw [hstep.2 (by omega)]
    | succ j =>
      simp only [constantRun, List.getElem?_cons_succ]
      exact ih (n + 1) _ hstep.1 j (by omega) (by omega)

/-- The history write position after one `process` call. -/
theorem process_upsampleIndex (os : Oversampler α) (x : α) (f : α → α) :
    (os.process x f).1.upsampleIndex = Int.tmod (os.upsampleIndex + 1) 32 := rfl

/-- The decimation write position after one `process` call. -/
theorem process_downsampleIndex (os : Oversampler α) (x : α) (f : α → α) :
    (os.process x f).1.downsampleIndex =
      Int.tmod (Int.tmod (Int.tmod (Int.tmod (os.downsampleIndex + 1) 128 + 1) 128 + 1) 128 + 1)
        128 := rfl

end Oversampler

/-- The value written back by the loop body is the post-filtered sample times the
`smoothedPadGain` the body leaves in the object, times the output gain, blended with the
dry input. -/
theorem sampleBody_output (exp : α → α) (pow : α → α → α) (loc : BlockLocals α)
    (channel : Nat) (st : LoopState α) (input : α) :
    (sampleBody exp pow loc channel st input).2 =
      ((st.proc.postFilters.get channel).processSample
          ((st.proc.oversamplers.get channel).process
            ((st.proc.preFilters.get channel).processSample input loc.filterMode).2
            (fun x => SanguinovaEngine.processSample exp pow x loc.drive loc.stageMult)).2).2 *
        (sampleBody exp pow loc channel st input).1.proc.smoothedPadGain *
        loc.outputGainLinear * loc.wetAmount + input * loc.dryAmount := rfl

/-- Clamping to `[lo, hi]` leaves exactly the values of `[lo, hi]` unchanged. -/
theorem clamp_eq_self_iff (lo hi r : α) (hlh : lo ≤ hi) :
    max lo (min r hi) = r ↔ lo ≤ r ∧ r ≤ hi := by
  constructor
  · intro h
    constructor
    · rw [← h]; exact le_max_left _ _
    · rw [← h]; exact max_le hlh (min_le_right _ _)
  · rintro ⟨h1, h2⟩
    rw [min_eq_left h2, max_eq_right h1]

/-- A snapshot whose resonance, mix and drive are within their ranges is left as it is by
the clamping. -/
theorem clampParameters_of_inRange (params : Parameters α)
    (hQ : 0.1 ≤ params.INPUT_Q ∧ params.INPUT_Q ≤ 1)
    (hMix : 0 ≤ params.MIX ∧ params.MIX ≤ 100)
    (hDrive : 0 ≤ params.DRIVE ∧ params.DRIVE ≤ 40) :
    clampParameters params = params := by
  cases params
  simp only [clampParameters] at *
  have h1 : (1.0 : α) = 1 := by norm_num
  rw [h1, min_eq_left hQ.2, max_eq_right hQ.1, min_eq_left hMix.2, max_eq_right hMix.1,
    min_eq_left hDrive.2, max_eq_right hDrive.1]

/-! ## Helper lemmas: the oscilloscope buffer -/

namespace SanguinovaAudioProcessor

/-- When the decimation counter fires on channel 0, step 8 of the loop body is `scopeStore`
together with the counter reset. -/
theorem scopeWrite_fires (p : SanguinovaAudioProcessor α) (output : α)
    (h : p.scopeDecimation + 1 ≥ p.scopeDecimationFactor) :
    scopeWrite p 0 output =
      ((scopeStore p output).scopeBuffer, (scopeStore p output).scopeWritePos, 0) := by
  simp only [scopeWrite, if_pos h, scopeStore, if_true]

/-- Writing the values `vs` one after the other from cursor `(pos0 + k) % 256`, with room
for all of them before the cursor wraps onto its starting slot: sizes, final cursor, the
written slots and the untouched slots. -/
theorem scopeStore_foldl (pos0 : Nat) :
    ∀ (vs : List α) (p : SanguinovaAudioProcessor α) (k : Nat),
      p.scopeBuffer.length = 256 → p.scopeWritePos = (((pos0 + k) % 256 : Nat) : ℤ) →
      k + vs.length ≤ 256 →
      (vs.foldl scopeStore p).scopeBuffer.length = 256
      ∧ (vs.foldl scopeStore p).scopeWritePos = (((pos0 + k + vs.length) % 256 : Nat) : ℤ)
      ∧ (∀ j, j < vs.length →
          (vs.foldl scopeStore p).scopeBuffer.getD ((pos0 + k + j) % 256) 0 = vs.getD j 0)
      ∧ (∀ s, (∀ j, j < vs.length → s ≠ (pos0 + k + j) % 256) →
          (vs.foldl scopeStore p).scopeBuffer.getD s 0 = p.scopeBuffer.getD s 0) := by
  intro vs
  induction vs with
  | nil =>
    intro p k hlen hpos _
    refine ⟨hlen, ?_, ?_, ?_⟩
    · simpa using hpos
    · intro j hj; simp at hj
    · intro s _; rfl
  | cons v rest ih =>
    intro p k hlen hpos hk
    simp only [List.length_cons] at hk
    have hpos1 : (scopeStore p v).scopeWritePos = (((pos0 + (k + 1)) % 256 : Nat) : ℤ) := by
      simp only [scopeStore, hpos, scopeSize]
      rw [Int.tmod_eq_emod (by omega) (by norm_num)]
      omega
    have hbuf1 : (scopeStore p v).scopeBuffer = p.scopeBuffer.set ((pos0 + k) % 256) v := by
      simp only [scopeStore, hpos, writeAt, Int.toNat_ofNat]
    have hlen1 : (scopeStore p v).scopeBuffer.length = 256 := by
      rw [hbuf1, List.length_set]; exact hlen
    obtain ⟨h1, h2, h3, h4⟩ := ih (scopeStore p v) (k + 1) hlen1 hpos1 (by omega)
    simp only [List.foldl_cons, List.length_cons]
    refine ⟨h1, ?_, ?_, ?_⟩
    · rw [h2]; congr 2; omega
    · intro j hj
      cases j with
      | zero =>
        rw [h4 _ (fun j hj2 => by omega), hbuf1, getD_set,
          if_pos ⟨rfl, by rw [hlen]; exact Nat.mod_lt _ (by norm_num)⟩]
        simp
      | succ i =>
        have h := h3 i (by omega)
        rw [show pos0 + (k + 1) + i = pos0 + k + (i + 1) by omega] at h
        rw [h]; simp
    · intro s hs
      rw [h4 s (fun j hj => by
        have h := hs (j + 1) (by omega)
        rw [show pos0 + k + (j + 1) = pos0 + (k + 1) + j by omega] at h
        exact h), hbuf1, getD_set, if_neg]
      intro hc
      exact hs 0 (by omega) (by simpa using hc.1.symm)

end SanguinovaAudioProcessor

/-! ## Helper lemmas: the phases of `upsample` -/

/-- Reading anywhere in a list of zeros gives zero. -/
theorem getD_replicate_zero (n i : Nat) : (List.replicate n (0 : α)).getD i 0 = 0 := by
  rw [List.getD_eq_getElem?_getD, List.getElem?_replicate]
  split <;> rfl

namespace Oversampler

/-- The `tap` loop of `upsample` for any phase: the 32 products of a history slot and the
tap of the same number, whatever the phase. -/
theorem upsamplePhase_sum (os : Oversampler α) (buf : List α) (phase r : Nat)
    (hphase : phase < 4) (hr : r < 32) (hidx : os.upsampleIndex = (r : ℤ)) :
    upsamplePhase os buf phase =
      ((List.range 32).map
        (fun (tap : Nat) => readAt buf (((r : ℤ) - (tap : ℤ)) % 32) *
          readAt os.filterCoeffs (tap : ℤ))).sum := by
  unfold upsamplePhase
  rw [show FilterOrder.toNat = 32 from rfl, foldl_add_range _ _ 32 _ 0, zero_add]
  intro s tap htap
  have h1 : (tap : ℤ) * Factor + (phase : ℤ) < FilterOrder * Factor := by
    simp only [Factor, FilterOrder]; omega
  have hb : Int.tmod (os.upsampleIndex - (tap : ℤ) + FilterOrder) FilterOrder =
      ((r : ℤ) - (tap : ℤ)) % 32 := by
    rw [hidx]
    simp only [FilterOrder]
    rw [Int.tmod_eq_emod (by omega) (by norm_num)]
    omega
  have hc : Int.tdiv ((tap : ℤ) * Factor + (phase : ℤ)) Factor = (tap : ℤ) := by
    simp only [Factor]
    rw [Int.tdiv_eq_ediv (by omega) (by norm_num)]
    omega
  have h2 : (tap : ℤ) < FilterOrder := by simp only [FilterOrder]; omega
  simp only [if_pos h1, getFilterCoeff, hc, hb, if_pos h2]

/-- The first `upsample` call after construction: every phase is four times the input
times tap 0. -/
theorem upsample_new_first (h : List α) (c : α) :
    ((Oversampler.new h).upsample c).2 =
      [c * 4 * readAt h 0, c * 4 * readAt h 0, c * 4 * readAt h 0, c * 4 * readAt h 0] := by
  have hsum : ∀ phase, phase < 4 →
      upsamplePhase (Oversampler.new h) ((Oversampler.new h).upsampleBuffer.set 0 (c * 4))
        phase = c * 4 * readAt h 0 := by
    intro phase hp
    rw [upsamplePhase_sum _ _ phase 0 hp (by norm_num) rfl, List.range_succ_eq_map,
      List.map_cons, List.sum_cons, List.map_map]
    have hz : ((List.range 31).map
        ((fun (tap : Nat) =>
          readAt ((Oversampler.new h).upsampleBuffer.set 0 (c * 4))
            ((((0 : Nat) : ℤ) - (tap : ℤ)) % 32) *
          readAt (Oversampler.new h).filterCoeffs (tap : ℤ)) ∘ Nat.succ)).sum = 0 := by
      apply List.sum_eq_zero
      intro x hx
      rw [List.mem_map] at hx
      obtain ⟨t, ht, rfl⟩ := hx
      rw [List.mem_range] at ht
      have hidx : ((((0 : Nat) : ℤ) - ((Nat.succ t : Nat) : ℤ)) % 32).toNat = 31 - t := by
        omega
      have hbuf : (Oversampler.new h).upsampleBuffer = List.replicate 32 0 := by
        simp [Oversampler.new, reset, FilterOrder]
      simp only [Function.comp, readAt, hidx, hbuf, getD_set]
      rw [if_neg (by omega), getD_replicate_zero, zero_mul]
    rw [hz, add_zero]
    have hbuf : (Oversampler.new h).upsampleBuffer = List.replicate 32 0 := by
      simp [Oversampler.new, reset, FilterOrder]
    have h0 : ((((0 : Nat) : ℤ) - ((0 : Nat) : ℤ)) % 32).toNat = 0 := by omega
    simp only [readAt, hbuf, getD_set, h0]
    rw [if_pos ⟨trivial, by rw [List.length_replicate]; norm_num⟩]
    rfl
  rw [upsample_unrolled _ c 0 (by norm_num) rfl]
  simp only [hsum 0 (by norm_num), hsum 1 (by norm_num), hsum 2 (by norm_num),
    hsum 3 (by norm_num)]

end Oversampler

/-! ## Helper lemmas: `downsample` from an arbitrary write position -/

namespace Oversampler

/-- The `tap` loop of `downsample` entered with write position `j` in the ring: the running
sum plus the 32 products of a ring slot and a tap. -/
theorem downsampleTaps_sum (coeffs buf : List α) (j : Nat) (sum : α) (hj : j < 128) :
    downsampleTaps coeffs buf (j : ℤ) sum =
      sum + ((List.range 32).map
        (fun (tap : Nat) => readAt coeffs (tap : ℤ) *
          readAt buf (((j : ℤ) - 4 * (tap : ℤ)) % 128))).sum := by
  unfold downsampleTaps
  rw [show FilterOrder.toNat = 32 from rfl]
  apply foldl_add_range
  intro s tap htap
  have hi : Int.tmod ((j : ℤ) - (tap : ℤ) * Factor + FilterOrder * Factor)
      (FilterOrder * Factor) = ((j : ℤ) - 4 * (tap : ℤ)) % 128 := by
    simp only [Factor, FilterOrder]
    rw [Int.tmod_eq_emod (by omega) (by norm_num)]
    omega
  have h1 : ((j : ℤ) - 4 * (tap : ℤ)) % 128 < FilterOrder * Factor := by
    simp only [Factor, FilterOrder]
    omega
  rw [hi, if_pos h1, mul_comm]

/-- One `downsample` call from an arbitrary write position `d` unrolled: four writes at
consecutive slots modulo 128, one run of the tap loop at the last of them, and the write
position moved on by four modulo 128. -/
theorem downsample_unrolled_at (os : Oversampler α) (i0 i1 i2 i3 : α) (d : Nat) (hd : d < 128)
    (hidx : os.downsampleIndex = (d : ℤ)) :
    downsample os [i0, i1, i2, i3] =
      ({ os with
          downsampleBuffer :=
            (((os.downsampleBuffer.set d i0).set ((d + 1) % 128) i1).set ((d + 2) % 128) i2).set
              ((d + 3) % 128) i3
          downsampleIndex := (((d + 4) % 128 : Nat) : ℤ) },
       downsampleTaps os.filterCoeffs
        ((((os.downsampleBuffer.set d i0).set ((d + 1) % 128) i1).set ((d + 2) % 128) i2).set
          ((d + 3) % 128) i3) (((d + 3) % 128 : Nat) : ℤ) 0) := by
  have e1 : Int.tmod ((d : ℤ) + 1) (FilterOrder * Factor) = (((d + 1) % 128 : Nat) : ℤ) := by
    simp only [Factor, FilterOrder]
    rw [Int.tmod_eq_emod (by omega) (by norm_num)]; omega
  have e2 : Int.tmod ((((d + 1) % 128 : Nat) : ℤ) + 1) (FilterOrder * Factor) =
      (((d + 2) % 128 : Nat) : ℤ) := by
    simp only [Factor, FilterOrder]
    rw [Int.tmod_eq_emod (by omega) (by norm_num)]; omega
  have e3 : Int.tmod ((((d + 2) % 128 : Nat) : ℤ) + 1) (FilterOrder * Factor) =
      (((d + 3) % 128 : Nat) : ℤ) := by
    simp only [Factor, FilterOrder]
    rw [Int.tmod_eq_emod (by omega) (by norm_num)]; omega
  have e4 : Int.tmod ((((d + 3) % 128 : Nat) : ℤ) + 1) (FilterOrder * Factor) =
      (((d + 4) % 128 : Nat) : ℤ) := by
    simp only [Factor, FilterOrder]
    rw [Int.tmod_eq_emod (by omega) (by norm_num)]; omega
  have p0 : ¬ (((0 : Nat) : ℤ) = Factor - 1) := by simp [Factor]
  have p1 : ¬ (((1 : Nat) : ℤ) = Factor - 1) := by simp [Factor]
  have p2 : ¬ (((2 : Nat) : ℤ) = Factor - 1) := by simp [Factor]
  have p3 : ((3 : Nat) : ℤ) = Factor - 1 := by simp [Factor]
  unfold downsample
  rw [show List.range Factor.toNat = [0, 1, 2, 3] from rfl]
  simp only [List.foldl_cons, List.foldl_nil, downsampleStep, hidx, e1, e2, e3, e4, if_neg p0,
    if_neg p1, if_neg p2, if_pos p3, writeAt, Int.toNat_ofNat, List.getD_cons_zero,
    List.getD_cons_succ]

end Oversampler

/-! ## Helper lemmas: the oversampler indices -/

namespace Oversampler

/-- The well-formedness kept by every operation: array sizes and both indices in range. -/
theorem upsample_wf (os : Oversampler α) (input : α)
    (h : os.filterCoeffs.length = 32 ∧ os.upsampleBuffer.length = 32 ∧
      os.downsampleBuffer.length = 128 ∧ (0 ≤ os.upsampleIndex ∧ os.upsampleIndex < 32) ∧
      (0 ≤ os.downsampleIndex ∧ os.downsampleIndex < 128)) :
    ((os.upsample input).1.filterCoeffs.length = 32 ∧
      (os.upsample input).1.upsampleBuffer.length = 32 ∧
      (os.upsample input).1.downsampleBuffer.length = 128 ∧
      (0 ≤ (os.upsample input).1.upsampleIndex ∧ (os.upsample input).1.upsampleIndex < 32) ∧
      (0 ≤ (os.upsample input).1.downsampleIndex ∧
        (os.upsample input).1.downsampleIndex < 128))
    ∧ (os.upsample input).1.upsampleIndex = (os.upsampleIndex + 1) % 32
    ∧ (os.upsample input).1.downsampleIndex = os.downsampleIndex := by
  obtain ⟨hc, hu, hd, hui, hdi⟩ := h
  have e : (os.upsample input).1.upsampleIndex = (os.upsampleIndex + 1) % 32 := by
    show Int.tmod (os.upsampleIndex + 1) FilterOrder = _
    simp only [FilterOrder]
    rw [Int.tmod_eq_emod (by omega) (by norm_num)]
  refine ⟨⟨hc, ?_, hd, ?_, hdi⟩, e, rfl⟩
  · show (writeAt os.upsampleBuffer _ _).length = 32
    rw [writeAt, List.length_set]; exact hu
  · rw [e]; omega

/-- The state after `k` iterations of the `phase` loop of `downsample`: the write position
has moved on by `k` modulo 128 and nothing but the ring has changed. -/
theorem downsampleStep_foldl (input : List α) (os : Oversampler α)
    (hd : os.downsampleBuffer.length = 128)
    (hdi : 0 ≤ os.downsampleIndex ∧ os.downsampleIndex < 128) :
    ∀ (k : Nat) (s : α),
      ((List.range k).foldl (downsampleStep input) (os, s)).1.downsampleIndex =
          (os.downsampleIndex + (k : ℤ)) % 128
      ∧ ((List.range k).foldl (downsampleStep input) (os, s)).1.downsampleBuffer.length = 128
      ∧ ((List.range k).foldl (downsampleStep input) (os, s)).1.filterCoeffs = os.filterCoeffs
      ∧ ((List.range k).foldl (downsampleStep input) (os, s)).1.upsampleBuffer =
          os.upsampleBuffer
      ∧ ((List.range k).foldl (downsampleStep input) (os, s)).1.upsampleIndex =
          os.upsampleIndex := by
  intro k
  induction k with
  | zero =>
    intro s
    refine ⟨?_, hd, rfl, rfl, rfl⟩
    show os.downsampleIndex = _
    omega
  | succ k ih =>
    intro s
    obtain ⟨h1, h2, h3, h4, h5⟩ := ih s
    rw [List.range_succ, List.foldl_append]
    simp only [List.foldl_cons, List.foldl_nil]
    refine ⟨?_, ?_, h3, h4, h5⟩
    · show Int.tmod (_ + 1) (FilterOrder * Factor) = _
      rw [h1]
      simp only [FilterOrder, Factor]
      rw [Int.tmod_eq_emod (by omega) (by norm_num)]
      omega
    · show (writeAt _ _ _).length = 128
      rw [writeAt, List.length_set]; exact h2

/-- `downsample` keeps the well-formedness and moves the write position on by four. -/
theorem downsample_wf (os : Oversampler α) (input : List α)
    (h : os.filterCoeffs.length = 32 ∧ os.upsampleBuffer.length = 32 ∧
      os.downsampleBuffer.length = 128 ∧ (0 ≤ os.upsampleIndex ∧ os.upsampleIndex < 32) ∧
      (0 ≤ os.downsampleIndex ∧ os.downsampleIndex < 128)) :
    ((os.downsample input).1.filterCoeffs.length = 32 ∧
      (os.downsample input).1.upsampleBuffer.length = 32 ∧
      (os.downsample input).1.downsampleBuffer.length = 128 ∧
      (0 ≤ (os.downsample input).1.upsampleIndex ∧
        (os.downsample input).1.upsampleIndex < 32) ∧
      (0 ≤ (os.downsample input).1.downsampleIndex ∧
        (os.downsample input).1.downsampleIndex < 128))
    ∧ (os.downsample input).1.downsampleIndex = (os.downsampleIndex + 4) % 128
    ∧ (os.downsample input).1.upsampleIndex = os.upsampleIndex := by
  obtain ⟨hc, hu, hd, hui, hdi⟩ := h
  obtain ⟨h1, h2, h3, h4, h5⟩ := downsampleStep_foldl input os hd hdi 4 0
  have e : os.downsample input = (List.range 4).foldl (downsampleStep input) (os, 0) := rfl
  rw [e]
  refine ⟨⟨by rw [h3]; exact hc, by rw [h4]; exact hu, h2, by rw [h5]; exact hui, ?_⟩, h1, h5⟩
  rw [h1]
  omega

/-- Every reachable state is well formed. -/
theorem Reachable.wf {os : Oversampler α} (h : Reachable os) :
    os.filterCoeffs.length = 32 ∧ os.upsampleBuffer.length = 32 ∧
      os.downsampleBuffer.length = 128 ∧ (0 ≤ os.upsampleIndex ∧ os.upsampleIndex < 32) ∧
      (0 ≤ os.downsampleIndex ∧ os.downsampleIndex < 128) := by
  induction h with
  | reset os hc hu hd =>
    refine ⟨hc, ?_, ?_, ⟨le_refl _, by show (0 : ℤ) < 32; norm_num⟩,
      ⟨le_refl _, by show (0 : ℤ) < 128; norm_num⟩⟩
    · show (os.upsampleBuffer.map _).length = 32
      rw [List.length_map]; exact hu
    · show (os.downsampleBuffer.map _).length = 128
      rw [List.length_map]; exact hd
  | upsample os input _ ih => exact (upsample_wf os input ih).1
  | downsample os input _ ih => exact (downsample_wf os input ih).1
  | process os input processor _ ih =>
    exact (downsample_wf _ _ (upsample_wf os input ih).1).1

end Oversampler

/-! ## Helper lemmas: the one-pole filter -/

namespace OnePole

/-- The accumulator after `n` calls of `processSample` on the constant input `c`. -/
theorem processSample_iterate (f : OnePole α) (c : α) (n : Nat) :
    ((fun o : OnePole α => (o.processSample c).1)^[n] f).z1 = c + (f.z1 - c) * (1 - f.g) ^ n
    ∧ ((fun o : OnePole α => (o.processSample c).1)^[n] f).g = f.g
    ∧ ((fun o : OnePole α => (o.processSample c).1)^[n] f).fs = f.fs := by
  induction n with
  | zero => refine ⟨?_, rfl, rfl⟩; simp
  | succ n ih =>
    rw [Function.iterate_succ_apply']
    obtain ⟨h1, h2, h3⟩ := ih
    refine ⟨?_, h2, h3⟩
    show _ + _ * (c - _) = _
    rw [h1, h2]
    ring

end OnePole

/-! ## Helper lemmas: the pad smoother stays within its bounds -/

namespace SanguinovaAudioProcessor

/-- The target pad gain of a block lies in [1/100, 1]. -/
theorem targetPadGain_bounds (decibelsToGain : α → α) (params : Parameters α) :
    1 / 100 ≤ (blockLocals decibelsToGain params).targetPadGain
      ∧ (blockLocals decibelsToGain params).targetPadGain ≤ 1 := by
  have h : (blockLocals decibelsToGain params).targetPadGain =
      if decide (params.PAD_ENABLED > 0.5) = true then
        1 / ((if params.STAGE_2X > 0.5 then 2 else 1) *
          (if params.STAGE_5X > 0.5 then 5 else 1) *
          (if params.STAGE_10X > 0.5 then 10 else 1))
      else 1 := rfl
  rw [h]
  by_cases hp : params.PAD_ENABLED > 0.5 <;> by_cases h2 : params.STAGE_2X > 0.5 <;>
    by_cases h5 : params.STAGE_5X > 0.5 <;> by_cases h10 : params.STAGE_10X > 0.5 <;>
    simp only [hp, h2, h5, h10, if_true, if_false, decide_True, decide_False] <;>
    norm_num

/-- One pad update moves the smoothed gain towards the target without reaching it. -/
theorem padStep_between (t a r s : α) (ha : 0 < a ∧ a < 1) (hr : 0 < r ∧ r < 1) :
    (s = t ∧ padStep t a r s = t)
      ∨ (t < s ∧ t < padStep t a r s ∧ padStep t a r s < s)
      ∨ (s < t ∧ s < padStep t a r s ∧ padStep t a r s < t) := by
  rcases lt_trichotomy s t with h | h | h
  · right; right
    have hn : ¬ t < s := not_lt.mpr h.le
    simp only [padStep, if_neg hn]
    refine ⟨h, ?_, ?_⟩ <;> nlinarith [hr.1, hr.2]
  · left
    subst h
    refine ⟨rfl, ?_⟩
    simp only [padStep, lt_irrefl, if_false]
    ring
  · right; left
    simp only [padStep, if_pos h]
    refine ⟨h, ?_, ?_⟩ <;> nlinarith [ha.1, ha.2]

/-- The invariant of the pad smoother: both coefficients strictly between 0 and 1 and the
smoothed gain in [1/100, 1]. -/
theorem padStep_bounds (t a r s : α) (ha : 0 < a ∧ a < 1) (hr : 0 < r ∧ r < 1)
    (ht : 1 / 100 ≤ t ∧ t ≤ 1) (hs : 1 / 100 ≤ s ∧ s ≤ 1) :
    1 / 100 ≤ padStep t a r s ∧ padStep t a r s ≤ 1 := by
  rcases padStep_between t a r s ha hr with h | h | h
  · rw [h.2]; exact ht
  · exact ⟨by linarith [h.2.1, ht.1], by linarith [h.2.2, hs.2]⟩
  · exact ⟨by linarith [h.2.1, hs.1], by linarith [h.2.2, ht.2]⟩

/-- The loop body keeps the pad invariant, for every channel. -/
theorem sampleBody_padInvariant (exp : α → α) (pow : α → α → α) (decibelsToGain : α → α)
    (params : Parameters α) (channel : Nat) (st : LoopState α) (input : α)
    (h : (0 < st.proc.padAttackCoeff ∧ st.proc.padAttackCoeff < 1)
      ∧ (0 < st.proc.padReleaseCoeff ∧ st.proc.padReleaseCoeff < 1)
      ∧ (1 / 100 ≤ st.proc.smoothedPadGain ∧ st.proc.smoothedPadGain ≤ 1)) :
    (0 < (sampleBody exp pow (blockLocals decibelsToGain params) channel st
        input).1.proc.padAttackCoeff
      ∧ (sampleBody exp pow (blockLocals decibelsToGain params) channel st
        input).1.proc.padAttackCoeff < 1)
    ∧ (0 < (sampleBody exp pow (blockLocals decibelsToGain params) channel st
        input).1.proc.padReleaseCoeff
      ∧ (sampleBody exp pow (blockLocals decibelsToGain params) channel st
        input).1.proc.padReleaseCoeff < 1)
    ∧ (1 / 100 ≤ (sampleBody exp pow (blockLocals decibelsToGain params) channel st
        input).1.proc.smoothedPadGain
      ∧ (sampleBody exp pow (blockLocals decibelsToGain params) channel st
        input).1.proc.smoothedPadGain ≤ 1) := by
  refine ⟨h.1, h.2.1, ?_⟩
  show 1 / 100 ≤ padUpdate st.proc _ channel ∧ padUpdate st.proc _ channel ≤ 1
  by_cases hc : channel = 0
  · subst hc
    exact padStep_bounds _ _ _ _ h.1 h.2.1 (targetPadGain_bounds decibelsToGain params) h.2.2
  · simp only [padUpdate, if_neg hc]
    exact h.2.2

/-- A whole block keeps the pad invariant. -/
theorem processBlock_padInvariant (exp : α → α) (pow : α → α → α) (tan : α → α) (pi : α)
    (decibelsToGain : α → α) (p : SanguinovaAudioProcessor α) (params : Parameters α)
    (buffer : List (List α))
    (h : (0 < p.padAttackCoeff ∧ p.padAttackCoeff < 1)
      ∧ (0 < p.padReleaseCoeff ∧ p.padReleaseCoeff < 1)
      ∧ (1 / 100 ≤ p.smoothedPadGain ∧ p.smoothedPadGain ≤ 1)) :
    (0 < (processBlock exp pow tan pi decibelsToGain p params buffer).1.padAttackCoeff
      ∧ (processBlock exp pow tan pi decibelsToGain p params buffer).1.padAttackCoeff < 1)
    ∧ (0 < (processBlock exp pow tan pi decibelsToGain p params buffer).1.padReleaseCoeff
      ∧ (processBlock exp pow tan pi decibelsToGain p params buffer).1.padReleaseCoeff < 1)
    ∧ (1 / 100 ≤ (processBlock exp pow tan pi decibelsToGain p params buffer).1.smoothedPadGain
      ∧ (processBlock exp pow tan pi decibelsToGain p params buffer).1.smoothedPadGain ≤ 1) := by
  unfold processBlock
  exact channelLoop_preserves _ _ 0
    (fun s => (0 < s.proc.padAttackCoeff ∧ s.proc.padAttackCoeff < 1)
      ∧ (0 < s.proc.padReleaseCoeff ∧ s.proc.padReleaseCoeff < 1)
      ∧ (1 / 100 ≤ s.proc.smoothedPadGain ∧ s.proc.smoothedPadGain ≤ 1))
    (fun ch st xs _ hst => by
      unfold processChannel
      exact sampleLoop_preserves _ _
        (fun s x hs => sampleBody_padInvariant exp pow decibelsToGain params ch s x hs) xs _ hst)
    _ _ _ (le_refl _) h

/-- The pad invariant holds in every reachable state (with the real exponential). -/
theorem PlayReachable.padInvariant {pow : ℝ → ℝ → ℝ} {tan : ℝ → ℝ} {pi : ℝ}
    {decibelsToGain : ℝ → ℝ} {p : SanguinovaAudioProcessor ℝ}
    (h : PlayReachable Real.exp pow tan pi decibelsToGain p) :
    (0 < p.padAttackCoeff ∧ p.padAttackCoeff < 1)
      ∧ (0 < p.padReleaseCoeff ∧ p.padReleaseCoeff < 1)
      ∧ (1 / 100 ≤ p.smoothedPadGain ∧ p.smoothedPadGain ≤ 1) := by
  induction h with
  | prepared p sampleRate samplesPerBlock hfs =>
    have hneg : ∀ ms : ℝ, 0 < ms → Real.exp (-1 / (sampleRate * ms / 1000)) < 1 := by
      intro ms hms
      have hlt : -1 / (sampleRate * ms / 1000) < 0 := by
        apply div_neg_of_neg_of_pos (by norm_num)
        positivity
      have h := Real.exp_lt_exp.mpr hlt
      rwa [Real.exp_zero] at h
    refine ⟨⟨Real.exp_pos _, hneg 5 (by norm_num)⟩, ⟨Real.exp_pos _, hneg 150 (by norm_num)⟩,
      ?_⟩
    show (1 : ℝ) / 100 ≤ 1 ∧ (1 : ℝ) ≤ 1
    norm_num
  | block p params buffer _ ih =>
    exact processBlock_padInvariant Real.exp pow tan pi decibelsToGain p params buffer ih
  | sample p params channel mi mo input _ ih =>
    exact sampleBody_padInvariant Real.exp pow decibelsToGain params channel _ input ih

end SanguinovaAudioProcessor

/-! ## Helper lemmas: the filter design -/

namespace Oversampler

/-- The Bessel loop on a rational argument gives the same sum over the reals as over the
rationals. -/
theorem besselLoop_cast (q : ℚ) : besselLoop (q : ℝ) = ((besselLoop q : ℚ) : ℝ) := by
  unfold besselLoop
  have key : ∀ (l : List Nat) (a b : ℚ) (c : Bool),
      (l.foldl
        (fun (st : ℝ × ℝ × Bool) (k : Nat) =>
          if st.2.2 then st
          else
            (st.1 + st.2.1 * ((q : ℝ) / ((k : ℝ) * (k : ℝ))),
             st.2.1 * ((q : ℝ) / ((k : ℝ) * (k : ℝ))),
             decide (st.2.1 * ((q : ℝ) / ((k : ℝ) * (k : ℝ))) < 1e-10)))
        ((a : ℝ), (b : ℝ), c)).1 =
      (((l.foldl
        (fun (st : ℚ × ℚ × Bool) (k : Nat) =>
          if st.2.2 then st
          else
            (st.1 + st.2.1 * (q / ((k : ℚ) * (k : ℚ))),
             st.2.1 * (q / ((k : ℚ) * (k : ℚ))),
             decide (st.2.1 * (q / ((k : ℚ) * (k : ℚ))) < 1e-10)))
        (a, b, c)).1 : ℚ) : ℝ) := by
    intro l
    induction l with
    | nil => intro a b c; rfl
    | cons k rest ih =>
      intro a b c
      simp only [List.foldl_cons]
      cases c with
      | true => simpa using ih a b true
      | false =>
        have hd : decide ((b : ℝ) * ((q : ℝ) / ((k : ℝ) * (k : ℝ))) < 1e-10) =
            decide (b * (q / ((k : ℚ) * (k : ℚ))) < 1e-10) := by
          have e : ((b : ℝ) * ((q : ℝ) / ((k : ℝ) * (k : ℝ))) < 1e-10) ↔
              (b * (q / ((k : ℚ) * (k : ℚ))) < 1e-10) := by
            rw [← Rat.cast_lt (K := ℝ)]
            push_cast
            norm_num
          exact decide_eq_decide.mpr e
        have h := ih (a + b * (q / ((k : ℚ) * (k : ℚ)))) (b * (q / ((k : ℚ) * (k : ℚ))))
          (decide (b * (q / ((k : ℚ) * (k : ℚ))) < 1e-10))
        push_cast at h
        simp only [Bool.false_eq_true, if_false, hd]
        exact h
  have h := key (List.range' 1 19) 1 1 false
  push_cast at h
  exact h

end Oversampler

namespace Oversampler

/-- The Kaiser window of tap `i` over the reals is the cast of its rational value. -/
theorem kaiserWindow_cast (i : Nat) :
    (kaiserWindow i : ℝ) = ((kaiserWindow i : ℚ) : ℝ) := by
  unfold kaiserWindow
  have e1 : (49 / 4 * max 0 (1 - (2 * (i : ℝ) / 31 - 1) ^ 2) : ℝ) =
      ((49 / 4 * max 0 (1 - (2 * (i : ℚ) / 31 - 1) ^ 2) : ℚ) : ℝ) := by
    push_cast
    rfl
  have e2 : (49 / 4 : ℝ) = ((49 / 4 : ℚ) : ℝ) := by norm_num
  rw [e1, e2, besselLoop_cast, besselLoop_cast]
  push_cast
  rfl

/-- The window factor computed by `initializeFilter` with the real square root and power is
the Kaiser window written on the squared argument. -/
theorem window_eq_kaiserWindow (i : Nat) :
    bessel_i0 ((7 : ℝ) * Real.sqrt (max 0 (1 - Real.rpow
        (2 * (i : ℝ) / ((FilterOrder - 1 : Int) : ℝ) - 1) 2))) / bessel_i0 (7 : ℝ) =
      kaiserWindow i := by
  have hfo : ((FilterOrder - 1 : Int) : ℝ) = 31 := by simp [FilterOrder]
  have hpow : Real.rpow (2 * (i : ℝ) / 31 - 1) 2 = (2 * (i : ℝ) / 31 - 1) ^ 2 := by
    show (2 * (i : ℝ) / 31 - 1) ^ (2 : ℝ) = _
    exact Real.rpow_two _
  rw [hfo, hpow]
  unfold bessel_i0 kaiserWindow
  have hnn : (0 : ℝ) ≤ max 0 (1 - (2 * (i : ℝ) / 31 - 1) ^ 2) := le_max_left _ _
  have e1 : (7 * Real.sqrt (max 0 (1 - (2 * (i : ℝ) / 31 - 1) ^ 2)) / 2) *
      (7 * Real.sqrt (max 0 (1 - (2 * (i : ℝ) / 31 - 1) ^ 2)) / 2) =
      49 / 4 * max 0 (1 - (2 * (i : ℝ) / 31 - 1) ^ 2) := by
    have hs := Real.mul_self_sqrt hnn
    linear_combination (49 / 4 : ℝ) * hs
  have e2 : ((7 : ℝ) / 2) * (7 / 2) = 49 / 4 := by norm_num
  rw [e1, e2]

/-- Lower bound `0.92 < sin(0.44 pi)` for a constant `pi` in [3.14, 3.15]. -/
theorem sin_044_pi_gt (pi : ℝ) (h1 : 3.14 ≤ pi) (h2 : pi ≤ 3.15) :
    0.92 < Real.sin (2 * pi * 0.22 * 1) := by
  have e : Real.sin (2 * pi * 0.22 * 1) = 2 * Real.sin (0.22 * pi) * Real.cos (0.22 * pi) := by
    rw [← Real.sin_two_mul]
    congr 1
    ring
  rw [e]
  have hy1 : (0.6908 : ℝ) ≤ 0.22 * pi := by norm_num at h1 ⊢; linarith
  have hy2 : 0.22 * pi ≤ (0.693 : ℝ) := by norm_num at h2 ⊢; linarith
  generalize 0.22 * pi = y at hy1 hy2
  have hy0 : (0 : ℝ) < y := by norm_num at hy1; linarith
  have hyle : y ≤ 1 := by norm_num at hy2; linarith
  have hs := Real.sin_gt_sub_cube hy0 hyle
  have hc := Real.one_sub_sq_div_two_le_cos (x := y)
  have hcube : y ^ 3 ≤ (0.693 : ℝ) ^ 3 := pow_le_pow_left₀ hy0.le hy2 3
  have hsq : y ^ 2 ≤ (0.693 : ℝ) ^ 2 := pow_le_pow_left₀ hy0.le hy2 2
  have hs2 : (0.607 : ℝ) < Real.sin y := by
    norm_num at hcube hy1 ⊢
    linarith
  have hc2 : (0.7598 : ℝ) ≤ Real.cos y := by
    norm_num at hsq ⊢
    linarith
  norm_num at hs2 hc2 ⊢
  nlinarith

end Oversampler

namespace Oversampler

/-- The sinc factor of tap `i` is at least `sincLowerBound i` when the constant for pi lies
in [3.14, 3.15]. -/
theorem sincLowerBound_le (pi : ℝ) (h1 : 3.14 ≤ pi) (h2 : pi ≤ 3.15) (i : Nat) :
    (sincLowerBound i : ℝ) ≤
      (if |(i : ℝ) - ((HalfOrder - 1 : Int) : ℝ)| < 1e-6 then 2 * 0.22
        else Real.sin (2 * pi * 0.22 * ((i : ℝ) - ((HalfOrder - 1 : Int) : ℝ))) /
          (pi * ((i : ℝ) - ((HalfOrder - 1 : Int) : ℝ)))) := by
  have hho : ((HalfOrder - 1 : Int) : ℝ) = 15 := by
    have : (HalfOrder - 1 : Int) = 15 := by decide
    rw [this]; norm_num
  have hpi : (0 : ℝ) < pi := by norm_num at h1; linarith
  rw [hho]
  unfold sincLowerBound
  by_cases h15 : i = 15
  · subst h15
    norm_num
  · rw [if_neg h15]
    have hn : (1 : ℝ) ≤ |(i : ℝ) - 15| := by
      have hz : (1 : ℤ) ≤ |(i : ℤ) - 15| := by
        rcases abs_cases ((i : ℤ) - 15) with h | h <;> omega
      have := (Int.cast_le (R := ℝ)).mpr hz
      push_cast at this
      exact this
    have hcond : ¬ (|(i : ℝ) - 15| < 1e-6) := by
      intro hc
      norm_num at hc
      linarith
    rw [if_neg hcond]
    by_cases h1416 : i = 14 ∨ i = 16
    · rw [if_pos h1416]
      have hs := sin_044_pi_gt pi h1 h2
      have hval : Real.sin (2 * pi * 0.22 * ((i : ℝ) - 15)) / (pi * ((i : ℝ) - 15)) =
          Real.sin (2 * pi * 0.22 * 1) / pi := by
        rcases h1416 with h | h
        · subst h
          have e : ((14 : ℕ) : ℝ) - 15 = -1 := by norm_num
          rw [e, mul_neg, Real.sin_neg, mul_neg, neg_div_neg_eq, mul_one, mul_one]
        · subst h
          have e : ((16 : ℕ) : ℝ) - 15 = 1 := by norm_num
          rw [e, mul_one, mul_one]
      rw [hval, le_div_iff₀ hpi]
      norm_num at hs h2 ⊢
      nlinarith
    · rw [if_neg h1416]
      have habs : |Real.sin (2 * pi * 0.22 * ((i : ℝ) - 15)) / (pi * ((i : ℝ) - 15))| ≤
          1 / (3.14 * |(i : ℝ) - 15|) := by
        rw [abs_div, abs_mul, abs_of_pos hpi]
        have hnpos : (0 : ℝ) < |(i : ℝ) - 15| := by linarith
        apply div_le_div₀ (by norm_num) (Real.abs_sin_le_one _) (by positivity)
        exact mul_le_mul_of_nonneg_right h1 hnpos.le
      have := neg_abs_le (Real.sin (2 * pi * 0.22 * ((i : ℝ) - 15)) / (pi * ((i : ℝ) - 15)))
      linarith

/-- The lower bound of the sinc factor over the reals is the cast of its rational value. -/
theorem sincLowerBound_cast (i : Nat) :
    (sincLowerBound i : ℝ) = ((sincLowerBound i : ℚ) : ℝ) := by
  unfold sincLowerBound
  split_ifs <;> push_cast <;> norm_num

/-- The entry of tap `i` before normalization, with the real functions: sinc factor times
Kaiser window. -/
theorem windowedSinc_real (pi : ℝ) (i : Nat) :
    windowedSinc Real.sin Real.sqrt Real.rpow pi i =
      (if |(i : ℝ) - ((HalfOrder - 1 : Int) : ℝ)| < 1e-6 then 2 * 0.22
        else Real.sin (2 * pi * 0.22 * ((i : ℝ) - ((HalfOrder - 1 : Int) : ℝ))) /
          (pi * ((i : ℝ) - ((HalfOrder - 1 : Int) : ℝ)))) * kaiserWindow i := by
  unfold windowedSinc
  simp only []
  rw [window_eq_kaiserWindow]

/-- The sum of the 32 entries before normalization is positive. -/
theorem windowedSinc_sum_pos (pi : ℝ) (h1 : 3.14 ≤ pi) (h2 : pi ≤ 3.15) :
    0 < ((List.range 32).map (windowedSinc Real.sin Real.sqrt Real.rpow pi)).sum := by
  have hq : 0 < ((List.range 32).map
      (fun i => (sincLowerBound i : ℚ) * kaiserWindow i)).sum := by decide!
  have hw : ∀ i, i ∈ List.range 32 → (0 : ℚ) ≤ kaiserWindow i := by decide!
  have hcast : (((List.range 32).map
      (fun i => (sincLowerBound i : ℚ) * kaiserWindow i)).sum : ℝ) =
      ((List.range 32).map (fun i => (sincLowerBound i : ℝ) * kaiserWindow i)).sum := by
    rw [Rat.cast_list_sum, List.map_map]
    congr 1
    apply List.map_congr_left
    intro i _
    simp only [Function.comp]
    rw [Rat.cast_mul, ← sincLowerBound_cast, ← kaiserWindow_cast]
  have hle : ((List.range 32).map (fun i => (sincLowerBound i : ℝ) * kaiserWindow i)).sum ≤
      ((List.range 32).map (windowedSinc Real.sin Real.sqrt Real.rpow pi)).sum := by
    apply List.sum_le_sum
    intro i hi
    rw [windowedSinc_real]
    apply mul_le_mul_of_nonneg_right (sincLowerBound_le pi h1 h2 i)
    rw [kaiserWindow_cast]
    exact_mod_cast hw i hi
  have hpos : (0 : ℝ) < (((List.range 32).map
      (fun i => (sincLowerBound i : ℚ) * kaiserWindow i)).sum : ℝ) := by
    exact_mod_cast hq
  rw [hcast] at hpos
  linarith

end Oversampler

namespace Oversampler

/-- The table left by the constructor: every windowed-sinc entry divided by their sum. -/
theorem construct_filterCoeffs (sin sqrt : α → α) (pow : α → α → α) (pi : α) :
    (construct sin sqrt pow pi).filterCoeffs =
      ((List.range 32).map (windowedSinc sin sqrt pow pi)).map
        (fun c => c / ((List.range 32).map (windowedSinc sin sqrt pow pi)).sum) := by
  show ((List.range FilterOrder.toNat).map (windowedSinc sin sqrt pow pi)).map
    (fun c => c / ((List.range FilterOrder.toNat).map (windowedSinc sin sqrt pow pi)).foldl
      (fun (s c : α) => s + c) 0) = _
  rw [show FilterOrder.toNat = 32 from rfl, List.sum_eq_foldl]

/-- Dividing every entry of a list by `s` divides its sum by `s`. -/
theorem sum_map_div (l : List α) (s : α) : (l.map (fun c => c / s)).sum = l.sum / s := by
  induction l with
  | nil => simp
  | cons x rest ih => rw [List.map_cons, List.sum_cons, List.sum_cons, ih, add_div]

end Oversampler

/-- The constructor in full is `Oversampler.new` on the table that `initializeFilter`
computes. -/
theorem Oversampler.construct_eq_new (sin sqrt : α → α) (pow : α → α → α) (pi : α) :
    Oversampler.construct sin sqrt pow pi =
      Oversampler.new (Oversampler.construct sin sqrt pow pi).filterCoeffs := rfl

/-! ## Helper lemmas: `downsample` reads only the slots congruent to 3 modulo 4 -/

namespace Oversampler

/-- `downsample` reads its argument only through the four elements `input[0..3]`. -/
theorem downsample_quad (os : Oversampler α) (input : List α) :
    os.downsample input =
      os.downsample [input.getD 0 0, input.getD 1 0, input.getD 2 0, input.getD 3 0] := rfl

/-- One `downsample` call on related objects with quadruples that agree on element 3:
equal return values and related objects afterwards. -/
theorem downsample_sameDecimated (a b : Oversampler α) (q q' : List α)
    (h : SameDecimated a b) (hq : q.getD 3 0 = q'.getD 3 0) :
    (a.downsample q).2 = (b.downsample q').2 ∧
      SameDecimated (a.downsample q).1 (b.downsample q').1 := by
  obtain ⟨hc, hla, hlb, ⟨r, hr, hia, hib⟩, hslots⟩ := h
  rw [downsample_quad a q, downsample_quad b q',
    downsample_unrolled_at a _ _ _ _ (4 * r) (by omega) hia,
    downsample_unrolled_at b _ _ _ _ (4 * r) (by omega) hib]
  have hm1 : (4 * r + 1) % 128 = 4 * r + 1 := by omega
  have hm2 : (4 * r + 2) % 128 = 4 * r + 2 := by omega
  have hm3 : (4 * r + 3) % 128 = 4 * r + 3 := by omega
  have key : ∀ s : Nat, s < 32 →
      ((((a.downsampleBuffer.set (4 * r) (q.getD 0 0)).set ((4 * r + 1) % 128)
        (q.getD 1 0)).set ((4 * r + 2) % 128) (q.getD 2 0)).set ((4 * r + 3) % 128)
        (q.getD 3 0)).getD (4 * s + 3) 0 =
      ((((b.downsampleBuffer.set (4 * r) (q'.getD 0 0)).set ((4 * r + 1) % 128)
        (q'.getD 1 0)).set ((4 * r + 2) % 128) (q'.getD 2 0)).set ((4 * r + 3) % 128)
        (q'.getD 3 0)).getD (4 * s + 3) 0 := by
    intro s hs
    simp only [hm1, hm2, hm3, getD_set, List.length_set, hla, hlb]
    split_ifs <;> first | exact hq | exact hslots s hs | (exfalso; omega)
  refine ⟨?_, hc, ?_, ?_, ⟨(r + 1) % 32, Nat.mod_lt _ (by norm_num), ?_, ?_⟩, key⟩
  · show downsampleTaps _ _ _ 0 = downsampleTaps _ _ _ 0
    rw [downsampleTaps_sum _ _ _ _ (Nat.mod_lt _ (by norm_num)),
      downsampleTaps_sum _ _ _ _ (Nat.mod_lt _ (by norm_num)), hc]
    congr 2
    apply List.map_congr_left
    intro tap htap
    rw [List.mem_range] at htap
    have hidx : ((((4 * r + 3) % 128 : Nat) : ℤ) - 4 * (tap : ℤ)) % 128 =
        ((4 * ((r + 32 - tap) % 32) + 3 : Nat) : ℤ) := by omega
    rw [hidx]
    simp only [readAt, Int.toNat_ofNat]
    rw [key _ (Nat.mod_lt _ (by norm_num))]
  · show (List.set _ _ _).length = 128
    simp only [List.length_set]; exact hla
  · show (List.set _ _ _).length = 128
    simp only [List.length_set]; exact hlb
  · show (((4 * r + 4) % 128 : Nat) : ℤ) = _
    omega
  · show (((4 * r + 4) % 128 : Nat) : ℤ) = _
    omega

/-- Between calls the decimation write position of a reachable object is a multiple of 4. -/
theorem Reachable.downsampleIndex_mul4 {os : Oversampler α} (h : Reachable os) :
    ∃ r : Nat, r < 32 ∧ os.downsampleIndex = ((4 * r : Nat) : ℤ) := by
  induction h with
  | reset os hc hu hd => exact ⟨0, by norm_num, rfl⟩
  | upsample os input _ ih => exact ih
  | downsample os input _ ih =>
    obtain ⟨r, hr, hi⟩ := ih
    refine ⟨(r + 1) % 32, Nat.mod_lt _ (by norm_num), ?_⟩
    rw [downsample_quad, downsample_unrolled_at os _ _ _ _ (4 * r) (by omega) hi]
    show (((4 * r + 4) % 128 : Nat) : ℤ) = _
    omega
  | process os input processor _ ih =>
    obtain ⟨r, hr, hi⟩ := ih
    refine ⟨(r + 1) % 32, Nat.mod_lt _ (by norm_num), ?_⟩
    show ((os.upsample input).1.downsample _).1.downsampleIndex = _
    rw [downsample_quad,
      downsample_unrolled_at (os.upsample input).1 _ _ _ _ (4 * r) (by omega) hi]
    show (((4 * r + 4) % 128 : Nat) : ℤ) = _
    omega

/-- Runs of `downsample` calls on related objects with quadruples that agree on element 3
return the same values. -/
theorem downsampleRun_sameDecimated (qs qs' : List (List α))
    (hq : List.Forall₂ (fun (q q' : List α) => q.getD 3 0 = q'.getD 3 0) qs qs') :
    ∀ (a b : Oversampler α), SameDecimated a b → downsampleRun a qs = downsampleRun b qs' := by
  induction hq with
  | nil => intro a b _; rfl
  | cons h _ ih =>
    intro a b hab
    obtain ⟨h1, h2⟩ := downsample_sameDecimated a b _ _ hab h
    simp only [downsampleRun, h1, ih _ _ h2]

end Oversampler

/-! ## Helper lemmas: silence -/

/-- A fold whose step never changes the accumulator returns the initial value. -/
theorem foldl_const_step {β γ : Type} (f : β → γ → β) (h : ∀ s x, f s x = s) :
    ∀ (l : List γ) (init : β), l.foldl f init = init := by
  intro l
  induction l with
  | nil => intro init; rfl
  | cons x rest ih => intro init; rw [List.foldl_cons, h, ih]

/-- A property kept by every step of a fold holds of its result. -/
theorem foldl_invariant {β γ : Type} (f : β → γ → β) (P : β → Prop)
    (h : ∀ s x, P s → P (f s x)) :
    ∀ (l : List γ) (init : β), P init → P (l.foldl f init) := by
  intro l
  induction l with
  | nil => intro init hi; exact hi
  | cons x rest ih => intro init hi; exact ih _ (h _ _ hi)

/-- Reading an all-zero array gives zero at every index. -/
theorem getD_all_zero (buf : List α) (h : ∀ x ∈ buf, x = 0) (i : Nat) : buf.getD i 0 = 0 := by
  rw [List.getD_eq_getElem?_getD]
  cases hi : buf[i]? with
  | none => rfl
  | some v => exact h v (List.getElem?_mem hi)

/-- Writing zero into an all-zero array leaves it all zero. -/
theorem set_all_zero (buf : List α) (h : ∀ x ∈ buf, x = 0) (i : Nat) :
    ∀ x ∈ buf.set i 0, x = 0 := by
  intro x hx
  rcases List.mem_or_eq_of_mem_set hx with hm | he
  · exact h x hm
  · exact he

/-- An element read of an updated `std::array<T, 2>` is the new element or an old one. -/
theorem Array2.get_set_cases {β : Type} (a : Array2 β) (c c' : Nat) (v : β) :
    (a.set c v).get c' = v ∨ (a.set c v).get c' = a.get c' := by
  unfold Array2.set Array2.get
  split_ifs <;> simp

/-- The waveshaper maps 0 to 0 whatever the drive and the stage multiplier. -/
theorem SanguinovaEngine.processSample_zero (exp : α → α) (pow : α → α → α)
    (driveDb stageMult : α) : SanguinovaEngine.processSample exp pow 0 driveDb stageMult = 0 := by
  simp [SanguinovaEngine.processSample]

/-- The filter at rest maps 0 to 0 in every mode and stays at rest. -/
theorem SVFFilter.svf_atRest_step (f : SVFFilter α) (mode : Mode) (h : f.AtRest) :
    (f.processSample 0 mode).2 = 0 ∧ (f.processSample 0 mode).1.AtRest := by
  obtain ⟨h1, h2⟩ := h
  simp [SVFFilter.processSample, SVFFilter.AtRest, h1, h2]

/-- The one-pole filter at rest maps 0 to 0 and stays at rest. -/
theorem OnePole.onePole_atRest_step (f : OnePole α) (h : f.AtRest) :
    (f.processSample 0).2 = 0 ∧ (f.processSample 0).1.AtRest := by
  unfold OnePole.AtRest at h
  simp [OnePole.processSample, OnePole.AtRest, h]

namespace Oversampler

/-- Every phase of `upsample` is zero on an all-zero history. -/
theorem upsamplePhase_all_zero (os : Oversampler α) (buf : List α) (phase : Nat)
    (h : ∀ x ∈ buf, x = 0) : upsamplePhase os buf phase = 0 := by
  unfold upsamplePhase
  apply foldl_const_step
  intro s tap
  simp only [readAt, getD_all_zero buf h, zero_mul, add_zero, ite_self]

/-- The tap loop of `downsample` on an all-zero ring leaves the running sum as it is. -/
theorem downsampleTaps_all_zero (coeffs buf : List α) (idx : Int) (sum : α)
    (h : ∀ x ∈ buf, x = 0) : downsampleTaps coeffs buf idx sum = sum := by
  unfold downsampleTaps
  apply foldl_const_step
  intro s tap
  simp only [readAt, getD_all_zero buf h, zero_mul, add_zero, ite_self]

/-- The oversampler at rest maps 0 to 0 through any processor fixing 0, and stays at
rest. -/
theorem process_atRest (os : Oversampler α) (processor : α → α) (h : os.AtRest)
    (hp : processor 0 = 0) :
    (os.process 0 processor).2 = 0 ∧ (os.process 0 processor).1.AtRest := by
  obtain ⟨hu, hd⟩ := h
  have hbuf : ∀ x ∈ writeAt os.upsampleBuffer os.upsampleIndex (0 * (Factor : α)), x = 0 := by
    rw [zero_mul]
    exact set_all_zero _ hu _
  have hin : ∀ (phase : Nat), (((os.upsample 0).2).map processor).getD phase 0 = 0 := by
    intro phase
    apply getD_all_zero
    intro x hx
    rw [List.mem_map] at hx
    obtain ⟨y, hy, rfl⟩ := hx
    have hy0 : y = 0 := by
      simp only [upsample, List.mem_map] at hy
      obtain ⟨ph, _, rfl⟩ := hy
      exact upsamplePhase_all_zero os _ ph hbuf
    rw [hy0, hp]
  have key : ((os.process 0 processor).2 = 0 ∧
      (∀ x ∈ (os.process 0 processor).1.upsampleBuffer, x = 0) ∧
      (∀ x ∈ (os.process 0 processor).1.downsampleBuffer, x = 0)) := by
    have := foldl_invariant (downsampleStep (((os.upsample 0).2).map processor))
      (fun st => st.2 = 0 ∧ (∀ x ∈ st.1.upsampleBuffer, x = 0) ∧
        (∀ x ∈ st.1.downsampleBuffer, x = 0))
      (by
        intro st phase hst
        obtain ⟨h1, h2, h3⟩ := hst
        have hb : ∀ x ∈ writeAt st.1.downsampleBuffer st.1.downsampleIndex
            ((((os.upsample 0).2).map processor).getD phase 0), x = 0 := by
          rw [hin phase]
          exact set_all_zero _ h3 _
        refine ⟨?_, h2, hb⟩
        show (if (phase : Int) = Factor - 1 then downsampleTaps _ _ _ st.2 else st.2) = 0
        rw [downsampleTaps_all_zero _ _ _ _ hb, ite_self, h1])
      (List.range Factor.toNat) ((os.upsample 0).1, 0) ⟨rfl, hbuf, hd⟩
    exact this
  exact ⟨key.1, key.2.1, key.2.2⟩

end Oversampler

namespace SanguinovaAudioProcessor

/-- The freshly constructed processor is silent. -/
theorem new_silent (filterCoeffs : List α) : Silent (new filterCoeffs) := by
  intro channel
  have hos : (Oversampler.new filterCoeffs).AtRest := by
    constructor <;>
    · intro x hx
      simp only [Oversampler.new, Oversampler.reset, List.mem_map] at hx
      obtain ⟨_, _, rfl⟩ := hx
      rfl
  refine ⟨?_, ?_, ?_⟩
  · unfold Array2.get; split_ifs <;> exact ⟨rfl, rfl⟩
  · unfold Array2.get; split_ifs <;> rfl
  · unfold Array2.get; split_ifs <;> exact hos

/-- The processor after `releaseResources`, which resets every DSP member, is silent. -/
theorem releaseResources_silent (p : SanguinovaAudioProcessor α) :
    Silent (releaseResources p) := by
  intro channel
  have hos : ∀ os : Oversampler α, os.reset.AtRest := by
    intro os
    constructor <;>
    · intro x hx
      simp only [Oversampler.reset, List.mem_map] at hx
      obtain ⟨_, _, rfl⟩ := hx
      rfl
  refine ⟨?_, ?_, ?_⟩
  · simp only [releaseResources]; unfold Array2.get; split_ifs <;> exact ⟨rfl, rfl⟩
  · simp only [releaseResources]; unfold Array2.get; split_ifs <;> rfl
  · simp only [releaseResources]; unfold Array2.get; split_ifs <;> exact hos _

/-- The parameter updates at the head of the channel loop keep the processor silent. -/
theorem channelSetup_silent (exp tan : α → α) (pi : α) (loc : BlockLocals α) (channel : Nat)
    (p : SanguinovaAudioProcessor α) (h : Silent p) :
    Silent (channelSetup exp tan pi loc channel p) := by
  intro c
  refine ⟨?_, ?_, (h c).2.2⟩
  · show ((p.preFilters.set channel _).get c).AtRest
    rcases Array2.get_set_cases p.preFilters channel c
      ((p.preFilters.get channel).setParameters tan pi loc.color loc.inputQ) with e | e
    · rw [e]; exact (h channel).1
    · rw [e]; exact (h c).1
  · show ((p.postFilters.set channel _).get c).AtRest
    rcases Array2.get_set_cases p.postFilters channel c
      ((p.postFilters.get channel).setFrequency exp pi loc.outputLpFreq) with e | e
    · rw [e]; exact (h channel).2.1
    · rw [e]; exact (h c).2.1

/-- One run of the sample loop body on a zero sample from a silent state with zero peaks:
the written sample is 0, the state stays silent and the peaks stay 0. -/
theorem sampleBody_silent (exp : α → α) (pow : α → α → α) (loc : BlockLocals α)
    (channel : Nat) (st : LoopState α)
    (h : Silent st.proc ∧ st.maxInputLevel = 0 ∧ st.maxOutputLevel = 0) :
    (sampleBody exp pow loc channel st 0).2 = 0 ∧
      (Silent (sampleBody exp pow loc channel st 0).1.proc ∧
        (sampleBody exp pow loc channel st 0).1.maxInputLevel = 0 ∧
        (sampleBody exp pow loc channel st 0).1.maxOutputLevel = 0) := by
  obtain ⟨hs, hi, ho⟩ := h
  have hpre := SVFFilter.svf_atRest_step (st.proc.preFilters.get channel) loc.filterMode
    (hs channel).1
  have hos := Oversampler.process_atRest (st.proc.oversamplers.get channel)
    (fun x => SanguinovaEngine.processSample exp pow x loc.drive loc.stageMult)
    (hs channel).2.2 (SanguinovaEngine.processSample_zero exp pow _ _)
  have hpost := OnePole.onePole_atRest_step (st.proc.postFilters.get channel) (hs channel).2.1
  have hout : (sampleBody exp pow loc channel st 0).2 = 0 := by
    rw [sampleBody_output, hpre.1, hos.1, hpost.1]
    simp
  refine ⟨hout, ?_, ?_, ?_⟩
  · intro c
    refine ⟨?_, ?_, ?_⟩
    · show ((st.proc.preFilters.set channel _).get c).AtRest
      rcases Array2.get_set_cases st.proc.preFilters channel c
        ((st.proc.preFilters.get channel).processSample 0 loc.filterMode).1 with e | e
      · rw [e]; exact hpre.2
      · rw [e]; exact (hs c).1
    · show ((st.proc.postFilters.set channel _).get c).AtRest
      have hz : ((st.proc.oversamplers.get channel).process
          ((st.proc.preFilters.get channel).processSample 0 loc.filterMode).2
          (fun x => SanguinovaEngine.processSample exp pow x loc.drive loc.stageMult)).2 = 0 := by
        rw [hpre.1]; exact hos.1
      rw [hz]
      rcases Array2.get_set_cases st.proc.postFilters channel c
        ((st.proc.postFilters.get channel).processSample 0).1 with e | e
      · rw [e]; exact hpost.2
      · rw [e]; exact (hs c).2.1
    · show ((st.proc.oversamplers.set channel _).get c).AtRest
      rw [hpre.1]
      rcases Array2.get_set_cases st.proc.oversamplers channel c
        ((st.proc.oversamplers.get channel).process 0
          (fun x => SanguinovaEngine.processSample exp pow x loc.drive loc.stageMult)).1
        with e | e
      · rw [e]; exact hos.2
      · rw [e]; exact (hs c).2.2
  · show max st.maxInputLevel |(0 : α)| = 0
    rw [hi, abs_zero, max_self]
  · show max st.maxOutputLevel |(sampleBody exp pow loc channel st 0).2| = 0
    rw [hout, ho, abs_zero, max_self]

/-- The sample loop on an all-zero channel from a silent state with zero peaks. -/
theorem sampleLoop_silent (exp : α → α) (pow : α → α → α) (loc : BlockLocals α)
    (channel : Nat) :
    ∀ (xs : List α) (st : LoopState α), (∀ x ∈ xs, x = 0) →
      (Silent st.proc ∧ st.maxInputLevel = 0 ∧ st.maxOutputLevel = 0) →
      (sampleLoop (sampleBody exp pow loc channel) st xs).2 = xs ∧
        (Silent (sampleLoop (sampleBody exp pow loc channel) st xs).1.proc ∧
          (sampleLoop (sampleBody exp pow loc channel) st xs).1.maxInputLevel = 0 ∧
          (sampleLoop (sampleBody exp pow loc channel) st xs).1.maxOutputLevel = 0) := by
  intro xs
  induction xs with
  | nil => intro st _ h; exact ⟨rfl, h⟩
  | cons x rest ih =>
    intro st hx h
    have hx0 : x = 0 := hx x (List.mem_cons_self _ _)
    subst hx0
    obtain ⟨h1, h2⟩ := sampleBody_silent exp pow loc channel st h
    obtain ⟨h3, h4⟩ := ih (sampleBody exp pow loc channel st 0).1
      (fun y hy => hx y (List.mem_cons_of_mem _ hy)) h2
    refine ⟨?_, h4⟩
    show (sampleBody exp pow loc channel st 0).2 ::
      (sampleLoop (sampleBody exp pow loc channel) _ rest).2 = 0 :: rest
    rw [h1, h3]

/-- The channel loop on an all-zero buffer from a silent state with zero peaks. -/
theorem channelLoop_silent (exp : α → α) (pow : α → α → α) (tan : α → α) (pi : α)
    (loc : BlockLocals α) (numChannels : Nat) :
    ∀ (buffer : List (List α)) (channel : Nat) (st : LoopState α),
      (∀ ch ∈ buffer, ∀ x ∈ ch, x = 0) →
      (Silent st.proc ∧ st.maxInputLevel = 0 ∧ st.maxOutputLevel = 0) →
      (channelLoop (processChannel exp pow tan pi loc) numChannels channel st buffer).2 = buffer
      ∧ (Silent (channelLoop (processChannel exp pow tan pi loc) numChannels channel st
            buffer).1.proc ∧
          (channelLoop (processChannel exp pow tan pi loc) numChannels channel st
            buffer).1.maxInputLevel = 0 ∧
          (channelLoop (processChannel exp pow tan pi loc) numChannels channel st
            buffer).1.maxOutputLevel = 0) := by
  intro buffer
  induction buffer with
  | nil => intro channel st _ h; exact ⟨rfl, h⟩
  | cons xs rest ih =>
    intro channel st hb h
    unfold channelLoop
    split
    · have hc := sampleLoop_silent exp pow loc channel xs
        { st with proc := channelSetup exp tan pi loc channel st.proc }
        (hb xs (List.mem_cons_self _ _))
        ⟨channelSetup_silent exp tan pi loc channel st.proc h.1, h.2.1, h.2.2⟩
      have hr := ih (channel + 1) (processChannel exp pow tan pi loc channel st xs).1
        (fun ch hch => hb ch (List.mem_cons_of_mem _ hch)) hc.2
      refine ⟨?_, hr.2⟩
      show (processChannel exp pow tan pi loc channel st xs).2 :: _ = xs :: rest
      rw [hr.1]
      congr 1
      exact hc.1
    · exact ⟨rfl, h⟩

end SanguinovaAudioProcessor

/-! ## Helper lemmas: the sample written at a given position -/

namespace SanguinovaAudioProcessor

/-- The sample loop over a prefix followed by the loop over the rest. -/
theorem sampleLoop_getD (body : LoopState α → α → LoopState α × α) :
    ∀ (xs : List α) (st : LoopState α) (j : Nat), j < xs.length →
      (sampleLoop body st xs).2.getD j 0 =
        (body (sampleLoop body st (xs.take j)).1 (xs.getD j 0)).2 := by
  intro xs
  induction xs with
  | nil => intro st j hj; exact absurd hj (Nat.not_lt_zero _)
  | cons x rest ih =>
    intro st j hj
    cases j with
    | zero => rfl
    | succ k =>
      have hk : k < rest.length := Nat.lt_of_succ_lt_succ hj
      exact ih (body st x).1 k hk

/-- The channel written at position `c` of the buffer by the channel loop. -/
theorem channelLoop_getD (f : Nat → LoopState α → List α → LoopState α × List α)
    (numChannels : Nat) :
    ∀ (buffer : List (List α)) (channel : Nat) (st : LoopState α) (c : Nat),
      c < buffer.length → channel + c < numChannels →
      (channelLoop f numChannels channel st buffer).2.getD c [] =
        (f (channel + c) (channelLoop f numChannels channel st (buffer.take c)).1
          (buffer.getD c [])).2 := by
  intro buffer
  induction buffer with
  | nil => intro channel st c hc _; exact absurd hc (Nat.not_lt_zero _)
  | cons xs rest ih =>
    intro channel st c hc hn
    have hlt : channel < numChannels := by omega
    cases c with
    | zero =>
      simp only [channelLoop, if_pos hlt, List.take_zero, Nat.add_zero]
      rfl
    | succ k =>
      have hk : k < rest.length := Nat.lt_of_succ_lt_succ hc
      have := ih (channel + 1) (f channel st xs).1 k hk (by omega)
      simp only [channelLoop, if_pos hlt, List.take_succ_cons]
      rw [show channel + (k + 1) = channel + 1 + k by omega]
      exact this

/-- The sample written by `processBlock` at position `sample` of channel `channel` is the
value returned by the loop body run from `loopStateAt` on the sample read there. -/
theorem processBlock_getD (exp : α → α) (pow : α → α → α) (tan : α → α) (pi : α)
    (decibelsToGain : α → α) (p : SanguinovaAudioProcessor α) (params : Parameters α)
    (buffer : List (List α)) (channel sample : Nat)
    (hc : channel < min buffer.length 2) (hs : sample < (buffer.getD channel []).length) :
    ((processBlock exp pow tan pi decibelsToGain p params buffer).2.getD channel []).getD
        sample 0 =
      (sampleBody exp pow (blockLocals decibelsToGain params) channel
        (loopStateAt exp pow tan pi decibelsToGain p params buffer channel sample)
        ((buffer.getD channel []).getD sample 0)).2 := by
  have h1 := channelLoop_getD
    (processChannel exp pow tan pi (blockLocals decibelsToGain params))
    (min buffer.length 2) buffer 0
    { proc := { p with totalMultiplier := (blockLocals decibelsToGain params).stageMult }
      maxInputLevel := 0, maxOutputLevel := 0 } channel
    (lt_of_lt_of_le hc (min_le_left _ _)) (by omega)
  rw [Nat.zero_add] at h1
  show ((channelLoop _ _ 0 _ buffer).2.getD channel []).getD sample 0 = _
  rw [h1]
  exact sampleLoop_getD _ _ _ sample hs

end SanguinovaAudioProcessor

/-! ## Helper lemmas: the running peaks of a block -/

namespace SanguinovaAudioProcessor

/-- The running peaks after the sample loop: the running maxima over the samples read and
over the samples written. -/
theorem sampleLoop_peaks (exp : α → α) (pow : α → α → α) (loc : BlockLocals α)
    (channel : Nat) :
    ∀ (xs : List α) (st : LoopState α),
      (sampleLoop (sampleBody exp pow loc channel) st xs).1.maxInputLevel =
          xs.foldl (fun (m : α) (x : α) => max m |x|) st.maxInputLevel
      ∧ (sampleLoop (sampleBody exp pow loc channel) st xs).1.maxOutputLevel =
          (sampleLoop (sampleBody exp pow loc channel) st xs).2.foldl
            (fun (m : α) (x : α) => max m |x|) st.maxOutputLevel := by
  intro xs
  induction xs with
  | nil => intro st; exact ⟨rfl, rfl⟩
  | cons x rest ih =>
    intro st
    obtain ⟨h1, h2⟩ := ih (sampleBody exp pow loc channel st x).1
    exact ⟨h1, h2⟩

/-- The channel loop keeps the number of channels of the buffer. -/
theorem channelLoop_length (f : Nat → LoopState α → List α → LoopState α × List α)
    (numChannels : Nat) :
    ∀ (buffer : List (List α)) (channel : Nat) (st : LoopState α),
      (channelLoop f numChannels channel st buffer).2.length = buffer.length := by
  intro buffer
  induction buffer with
  | nil => intro channel st; rfl
  | cons xs rest ih =>
    intro channel st
    unfold channelLoop
    split
    · simp only [List.length_cons, ih]
    · rfl

/-- The running peaks after the channel loop: the running maxima over the samples of the
processed channels, read and written. -/
theorem channelLoop_peaks (exp : α → α) (pow : α → α → α) (tan : α → α) (pi : α)
    (loc : BlockLocals α) (numChannels : Nat) :
    ∀ (buffer : List (List α)) (channel : Nat) (st : LoopState α),
      (channelLoop (processChannel exp pow tan pi loc) numChannels channel st
          buffer).1.maxInputLevel =
        ((buffer.take (numChannels - channel)).flatten).foldl
          (fun (m : α) (x : α) => max m |x|) st.maxInputLevel
      ∧ (channelLoop (processChannel exp pow tan pi loc) numChannels channel st
          buffer).1.maxOutputLevel =
        (((channelLoop (processChannel exp pow tan pi loc) numChannels channel st
          buffer).2.take (numChannels - channel)).flatten).foldl
          (fun (m : α) (x : α) => max m |x|) st.maxOutputLevel := by
  intro buffer
  induction buffer with
  | nil => intro channel st; simp [channelLoop]
  | cons xs rest ih =>
    intro channel st
    by_cases hlt : channel < numChannels
    · obtain ⟨k, hk⟩ : ∃ k, numChannels - channel = k + 1 := ⟨numChannels - channel - 1, by omega⟩
      have hk2 : numChannels - (channel + 1) = k := by omega
      obtain ⟨h1, h2⟩ := ih (channel + 1) (processChannel exp pow tan pi loc channel st xs).1
      obtain ⟨h3, h4⟩ := sampleLoop_peaks exp pow loc channel xs
        { st with proc := channelSetup exp tan pi loc channel st.proc }
      rw [hk2] at h1 h2
      simp only [channelLoop, if_pos hlt, hk, List.take_succ_cons, List.flatten_cons,
        List.foldl_append]
      refine ⟨?_, ?_⟩
      · rw [h1]
        congr 1
      · rw [h2]
        congr 1
    · have hz : numChannels - channel = 0 := by omega
      simp [channelLoop, if_neg hlt, hz]

/-- On a buffer whose channels hold no sample the channel loop writes no sample. -/
theorem channelLoop_no_samples (exp : α → α) (pow : α → α → α) (tan : α → α) (pi : α)
    (loc : BlockLocals α) (numChannels : Nat) :
    ∀ (buffer : List (List α)) (channel : Nat) (st : LoopState α),
      (∀ ch ∈ buffer, ch = []) →
      ∀ ch ∈ (channelLoop (processChannel exp pow tan pi loc) numChannels channel st
        buffer).2, ch = [] := by
  intro buffer
  induction buffer with
  | nil => intro channel st _ ch hch; exact absurd hch (List.not_mem_nil _)
  | cons xs rest ih =>
    intro channel st hb
    have hxs : xs = [] := hb xs (List.mem_cons_self _ _)
    subst hxs
    unfold channelLoop
    split
    · intro ch hch
      rcases List.mem_cons.mp hch with e | e
      · rw [e]; rfl
      · exact ih _ _ (fun c hc => hb c (List.mem_cons_of_mem _ hc)) ch e
    · exact hb

/-- The first `min n 2` entries of a list of `n` entries are its first two. -/
theorem take_min_length {β : Type} (l : List β) (n : Nat) (h : l.length = n) :
    l.take (min n 2) = l.take 2 := by
  subst h
  rcases l with _ | ⟨a, _ | ⟨b, t⟩⟩ <;> simp

end SanguinovaAudioProcessor

/-! ## Helper lemmas: the decimated oscilloscope writes -/

/-- One more sample: a new entry exactly when the count reaches a multiple of 8. -/
theorem everyEighth_concat (ys : List α) (y : α) :
    everyEighth (ys ++ [y]) =
      if (ys.length + 1) % 8 = 0 then everyEighth ys ++ [y] else everyEighth ys := by
  have hold : ∀ k, k < ys.length / 8 → (ys ++ [y]).getD (8 * k + 7) 0 = ys.getD (8 * k + 7) 0 := by
    intro k hk
    exact List.getD_append _ _ _ _ (by omega)
  unfold everyEighth
  rw [List.length_append, List.length_singleton]
  split_ifs with h
  · have hdiv : (ys.length + 1) / 8 = ys.length / 8 + 1 := by omega
    rw [hdiv, List.range_succ, List.map_append, List.map_singleton]
    congr 1
    · apply List.map_congr_left
      intro k hk
      exact hold k (List.mem_range.mp hk)
    · have hidx : 8 * (ys.length / 8) + 7 = ys.length := by omega
      rw [hidx, List.getD_append_right _ _ _ _ (le_refl _)]
      simp
  · have hdiv : (ys.length + 1) / 8 = ys.length / 8 := by omega
    rw [hdiv]
    apply List.map_congr_left
    intro k hk
    exact hold k (List.mem_range.mp hk)

/-- No sample, no entry. -/
theorem everyEighth_nil : everyEighth ([] : List α) = [] := by
  simp [everyEighth]

namespace SanguinovaAudioProcessor

/-- Before any sample the oscilloscope fields are those of the base object. -/
theorem scopeAfter_nil (base : SanguinovaAudioProcessor α)
    (h : base.scopeDecimationFactor = 8) (hd : base.scopeDecimation = 0) :
    ScopeAfter base [] base := by
  unfold ScopeAfter
  rw [everyEighth_nil]
  exact ⟨h, hd, rfl, rfl⟩

/-- The oscilloscope write of one channel-0 sample. -/
theorem scopeAfter_step (base p p2 : SanguinovaAudioProcessor α) (ys : List α) (y : α)
    (h : ScopeAfter base ys p)
    (hf : p2.scopeDecimationFactor = p.scopeDecimationFactor)
    (hb : p2.scopeBuffer = (scopeWrite p 0 y).1)
    (hp : p2.scopeWritePos = (scopeWrite p 0 y).2.1)
    (hd : p2.scopeDecimation = (scopeWrite p 0 y).2.2) :
    ScopeAfter base (ys ++ [y]) p2 := by
  obtain ⟨h1, h2, h3, h4⟩ := h
  unfold ScopeAfter
  rw [everyEighth_concat, List.length_append, List.length_singleton]
  by_cases hm : (ys.length + 1) % 8 = 0
  · have hfire : p.scopeDecimation + 1 ≥ p.scopeDecimationFactor := by rw [h1, h2]; omega
    rw [scopeWrite_fires p y hfire] at hb hp hd
    rw [if_pos hm, List.foldl_append]
    refine ⟨hf.trans h1, ?_, ?_, ?_⟩
    · rw [hd]; show (0 : ℤ) = _; omega
    · rw [hb]
      show writeAt p.scopeBuffer p.scopeWritePos y = writeAt _ _ y
      rw [h3, h4]
    · rw [hp]
      show Int.tmod (p.scopeWritePos + 1) scopeSize = Int.tmod (_ + 1) scopeSize
      rw [h4]
  · have hno : ¬ (p.scopeDecimation + 1 ≥ p.scopeDecimationFactor) := by rw [h1, h2]; omega
    simp only [scopeWrite, if_true, if_neg hno] at hb hp hd
    rw [if_neg hm]
    refine ⟨hf.trans h1, ?_, hb.trans h3, hp.trans h4⟩
    rw [hd, h2]; omega

/-- The sample loop of channel 0 performs the oscilloscope writes of its samples. -/
theorem sampleLoop_scopeAfter (exp : α → α) (pow : α → α → α) (loc : BlockLocals α)
    (base : SanguinovaAudioProcessor α) :
    ∀ (xs : List α) (st : LoopState α) (ys : List α), ScopeAfter base ys st.proc →
      ScopeAfter base (ys ++ (sampleLoop (sampleBody exp pow loc 0) st xs).2)
        (sampleLoop (sampleBody exp pow loc 0) st xs).1.proc := by
  intro xs
  induction xs with
  | nil =>
    intro st ys h
    show ScopeAfter base (ys ++ []) st.proc
    rw [List.append_nil]; exact h
  | cons x rest ih =>
    intro st ys h
    have h1 := scopeAfter_step base st.proc (sampleBody exp pow loc 0 st x).1.proc ys
      (sampleBody exp pow loc 0 st x).2 h rfl rfl rfl rfl
    have h2 := ih (sampleBody exp pow loc 0 st x).1 _ h1
    rw [List.append_assoc] at h2
    exact h2

/-- The loop body of a channel other than 0 leaves the oscilloscope fields alone. -/
theorem sampleBody_scope_other (exp : α → α) (pow : α → α → α) (loc : BlockLocals α)
    (channel : Nat) (hch : channel ≠ 0) (st : LoopState α) (input : α) :
    (sampleBody exp pow loc channel st input).1.proc.scopeBuffer = st.proc.scopeBuffer
    ∧ (sampleBody exp pow loc channel st input).1.proc.scopeWritePos = st.proc.scopeWritePos
    ∧ (sampleBody exp pow loc channel st input).1.proc.scopeDecimation =
        st.proc.scopeDecimation
    ∧ (sampleBody exp pow loc channel st input).1.proc.scopeDecimationFactor =
        st.proc.scopeDecimationFactor := by
  refine ⟨?_, ?_, ?_, rfl⟩
  · show (scopeWrite st.proc channel _).1 = _
    simp only [scopeWrite, if_neg hch]
  · show (scopeWrite st.proc channel _).2.1 = _
    simp only [scopeWrite, if_neg hch]
  · show (scopeWrite st.proc channel _).2.2 = _
    simp only [scopeWrite, if_neg hch]

/-- The channel body of a channel other than 0 keeps the oscilloscope state. -/
theorem processChannel_scopeAfter_other (exp : α → α) (pow : α → α → α) (tan : α → α) (pi : α)
    (loc : BlockLocals α) (base : SanguinovaAudioProcessor α) (ys : List α) (channel : Nat)
    (hch : 1 ≤ channel) (st : LoopState α) (xs : List α) (h : ScopeAfter base ys st.proc) :
    ScopeAfter base ys (processChannel exp pow tan pi loc channel st xs).1.proc := by
  unfold processChannel
  apply sampleLoop_preserves _ (fun s => ScopeAfter base ys s.proc)
  · intro s x hs
    obtain ⟨e1, e2, e3, e4⟩ := sampleBody_scope_other exp pow loc channel (by omega) s x
    obtain ⟨h1, h2, h3, h4⟩ := hs
    exact ⟨e4.trans h1, e3.trans h2, e1.trans h3, e2.trans h4⟩
  · exact h

/-- One block performs the oscilloscope writes of the samples it writes to channel 0. -/
theorem processBlock_scopeAfter (exp : α → α) (pow : α → α → α) (tan : α → α) (pi : α)
    (decibelsToGain : α → α) (base p : SanguinovaAudioProcessor α) (params : Parameters α)
    (buffer : List (List α)) (ys : List α) (h : ScopeAfter base ys p) :
    ScopeAfter base
      (ys ++ (processBlock exp pow tan pi decibelsToGain p params buffer).2.headD [])
      (processBlock exp pow tan pi decibelsToGain p params buffer).1 := by
  cases buffer with
  | nil =>
    show ScopeAfter base (ys ++ []) _
    rw [List.append_nil]
    exact h
  | cons xs rest =>
    have hlt : 0 < min (xs :: rest).length 2 := by
      rw [List.length_cons]; omega
    have h0 := sampleLoop_scopeAfter exp pow (blockLocals decibelsToGain params) base xs
      { proc := channelSetup exp tan pi (blockLocals decibelsToGain params) 0
          { p with totalMultiplier := (blockLocals decibelsToGain params).stageMult }
        maxInputLevel := 0, maxOutputLevel := 0 } ys h
    have h1 := channelLoop_preserves
      (processChannel exp pow tan pi (blockLocals decibelsToGain params))
      (min (xs :: rest).length 2) 1
      (fun s => ScopeAfter base
        (ys ++ (processChannel exp pow tan pi (blockLocals decibelsToGain params) 0
          { proc := { p with totalMultiplier := (blockLocals decibelsToGain params).stageMult }
            maxInputLevel := 0, maxOutputLevel := 0 } xs).2) s.proc)
      (fun ch st zs hch hst =>
        processChannel_scopeAfter_other exp pow tan pi _ base _ ch hch st zs hst)
      rest 1
      (processChannel exp pow tan pi (blockLocals decibelsToGain params) 0
          { proc := { p with totalMultiplier := (blockLocals decibelsToGain params).stageMult }
            maxInputLevel := 0, maxOutputLevel := 0 } xs).1 (le_refl _) h0
    simp only [processBlock, channelLoop, if_pos hlt, List.headD_cons]
    exact h1

/-- The sample loop writes as many samples as it reads. -/
theorem sampleLoop_length (body : LoopState α → α → LoopState α × α) :
    ∀ (xs : List α) (st : LoopState α), (sampleLoop body st xs).2.length = xs.length := by
  intro xs
  induction xs with
  | nil => intro st; rfl
  | cons x rest ih =>
    intro st
    show ((body st x).2 :: (sampleLoop body (body st x).1 rest).2).length = _
    rw [List.length_cons, List.length_cons, ih]

/-- A block writes to channel 0 as many samples as it was handed there. -/
theorem processBlock_head_length (exp : α → α) (pow : α → α → α) (tan : α → α) (pi : α)
    (decibelsToGain : α → α) (p : SanguinovaAudioProcessor α) (params : Parameters α)
    (buffer : List (List α)) :
    ((processBlock exp pow tan pi decibelsToGain p params buffer).2.headD []).length =
      (buffer.headD []).length := by
  cases buffer with
  | nil => rfl
  | cons xs rest =>
    have hlt : 0 < min (xs :: rest).length 2 := by
      rw [List.length_cons]; omega
    simp only [processBlock, channelLoop, if_pos hlt, List.headD_cons]
    exact sampleLoop_length _ _ _

/-- A run of host calls performs the oscilloscope writes of the channel-0 samples of its
blocks, which are as many as the blocks were handed. -/
theorem hostRun_scopeAfter (exp : α → α) (pow : α → α → α) (tan : α → α) (pi : α)
    (decibelsToGain : α → α) (base : SanguinovaAudioProcessor α) :
    ∀ (calls : List (HostCall α)) (p : SanguinovaAudioProcessor α) (ys : List α),
      ScopeAfter base ys p →
      ScopeAfter base (ys ++ (hostRun exp pow tan pi decibelsToGain p calls).2)
        (hostRun exp pow tan pi decibelsToGain p calls).1
      ∧ (hostRun exp pow tan pi decibelsToGain p calls).2.length =
        (channel0Samples calls).length := by
  intro calls
  induction calls with
  | nil =>
    intro p ys h
    refine ⟨?_, rfl⟩
    show ScopeAfter base (ys ++ []) p
    rw [List.append_nil]; exact h
  | cons c rest ih =>
    intro p ys h
    cases c with
    | prepareToPlay sampleRate samplesPerBlock =>
      exact ih (prepareToPlay exp p sampleRate samplesPerBlock) ys h
    | releaseResources => exact ih (releaseResources p) ys h
    | processBlock params buffer =>
      have h1 := processBlock_scopeAfter exp pow tan pi decibelsToGain base p params buffer ys h
      obtain ⟨h2, h3⟩ := ih _ _ h1
      rw [List.append_assoc] at h2
      refine ⟨h2, ?_⟩
      simp only [hostRun, channel0Samples, List.length_append, h3, processBlock_head_length]

/-- Stores of the values `vs` from cursor 0 into a 256-entry buffer: the cursor ends at
`|vs| mod 256` and each of the last 256 values sits in the slot of its number modulo 256. -/
theorem scopeStore_run (base : SanguinovaAudioProcessor α)
    (hlen : base.scopeBuffer.length = 256) (hpos : base.scopeWritePos = 0) (vs : List α) :
    (vs.foldl scopeStore base).scopeBuffer.length = 256
    ∧ (vs.foldl scopeStore base).scopeWritePos = ((vs.length % 256 : Nat) : Int)
    ∧ ∀ k, k < vs.length → vs.length ≤ k + 256 →
        (vs.foldl scopeStore base).scopeBuffer.getD (k % 256) 0 = vs.getD k 0 := by
  induction vs using List.reverseRecOn with
  | nil =>
    refine ⟨hlen, hpos, ?_⟩
    intro k hk
    exact absurd hk (Nat.not_lt_zero _)
  | append_singleton vs v ih =>
    obtain ⟨h1, h2, h3⟩ := ih
    rw [List.foldl_append, List.length_append, List.length_singleton]
    simp only [List.foldl_cons, List.foldl_nil]
    refine ⟨?_, ?_, ?_⟩
    · show (writeAt _ _ v).length = 256
      unfold writeAt
      rw [List.length_set]; exact h1
    · show Int.tmod (_ + 1) scopeSize = _
      rw [h2, Int.tmod_eq_emod (by omega) (by unfold scopeSize; norm_num)]
      unfold scopeSize
      omega
    · intro k hk hk2
      show (writeAt (vs.foldl scopeStore base).scopeBuffer
        (vs.foldl scopeStore base).scopeWritePos v).getD (k % 256) 0 = _
      unfold writeAt
      rw [h2, Int.toNat_ofNat, getD_set, h1]
      by_cases hkv : k = vs.length
      · subst hkv
        rw [if_pos ⟨rfl, Nat.mod_lt _ (by norm_num)⟩,
          List.getD_append_right _ _ _ _ (le_refl _)]
        simp
      · have hk3 : k < vs.length := by omega
        rw [if_neg (by omega), h3 k hk3 (by omega), List.getD_append _ _ _ _ hk3]

end SanguinovaAudioProcessor

/-! ## Helper lemmas: the gain-reduction smoother -/

/-- With `lo <= hi`, `std::clamp` is `max lo (min v hi)` and lies in `[lo, hi]`. -/
theorem stdClamp_eq (v lo hi : α) (h : lo ≤ hi) :
    stdClamp v lo hi = max lo (min v hi) ∧ lo ≤ stdClamp v lo hi ∧ stdClamp v lo hi ≤ hi := by
  unfold stdClamp
  split_ifs with h1 h2
  · refine ⟨?_, le_refl _, h⟩
    rw [min_eq_left (le_of_lt (lt_of_lt_of_le h1 h)), max_eq_left (le_of_lt h1)]
  · refine ⟨?_, h, le_refl _⟩
    rw [min_eq_right (le_of_lt h2), max_eq_right h]
  · push_neg at h1 h2
    refine ⟨?_, h1, h2⟩
    rw [min_eq_left h2, max_eq_right h1]

namespace AutoGain

/-- The smoothing coefficient computed for a positive sample rate lies strictly between
0 and 1. -/
theorem grSmoothCoeff_bounds (a : AutoGain ℝ) (h : 0 < a.sampleRate) :
    0 < (calculateCoefficients Real.exp a).grSmoothCoeff ∧
      (calculateCoefficients Real.exp a).grSmoothCoeff < 1 := by
  show 0 < 1 - Real.exp (-1 / (a.sampleRate * 50 * 0.001)) ∧
    1 - Real.exp (-1 / (a.sampleRate * 50 * 0.001)) < 1
  have hneg : -1 / (a.sampleRate * 50 * 0.001) < 0 := by
    apply div_neg_of_neg_of_pos (by norm_num)
    positivity
  have h1 : Real.exp (-1 / (a.sampleRate * 50 * 0.001)) < 1 := by
    have := Real.exp_lt_exp.mpr hneg
    rwa [Real.exp_zero] at this
  have h2 := Real.exp_pos (-1 / (a.sampleRate * 50 * 0.001))
  constructor <;> linarith

/-- The raw ratio computed by `getGainReduction` lies in `[0.1, 5]`. -/
theorem raw_bounds (a : AutoGain α) :
    0.1 ≤ (a.getGainReduction).1.gainReduction ∧ (a.getGainReduction).1.gainReduction ≤ 5 := by
  show (0.1 : α) ≤ (if a.outputEnvelope > 1e-6 then
      stdClamp (a.inputEnvelope / a.outputEnvelope) 0.1 5 else 1) ∧
    (if a.outputEnvelope > 1e-6 then
      stdClamp (a.inputEnvelope / a.outputEnvelope) 0.1 5 else 1) ≤ (5 : α)
  split_ifs
  · exact (stdClamp_eq _ _ _ (by norm_num)).2
  · constructor <;> norm_num

/-- One call of `getGainReduction` keeps the smoothed value within `[0.1, 5]`. -/
theorem smoothed_step (a : AutoGain α) (hc : 0 < a.grSmoothCoeff ∧ a.grSmoothCoeff < 1)
    (hs : 0.1 ≤ a.smoothedGR ∧ a.smoothedGR ≤ 5) :
    0.1 ≤ (a.getGainReduction).2 ∧ (a.getGainReduction).2 ≤ 5 := by
  obtain ⟨r1, r2⟩ := raw_bounds a
  show (0.1 : α) ≤ a.smoothedGR +
      a.grSmoothCoeff * ((a.getGainReduction).1.gainReduction - a.smoothedGR) ∧
    a.smoothedGR + a.grSmoothCoeff * ((a.getGainReduction).1.gainReduction - a.smoothedGR) ≤ 5
  generalize (a.getGainReduction).1.gainReduction = r at r1 r2
  obtain ⟨c1, c2⟩ := hc
  obtain ⟨s1, s2⟩ := hs
  constructor
  · nlinarith [mul_nonneg (le_of_lt c1) (sub_nonneg.mpr r1),
      mul_nonneg (sub_nonneg.mpr (le_of_lt c2)) (sub_nonneg.mpr s1)]
  · nlinarith [mul_nonneg (le_of_lt c1) (sub_nonneg.mpr r2),
      mul_nonneg (sub_nonneg.mpr (le_of_lt c2)) (sub_nonneg.mpr s2)]

/-- In every reachable object the smoothing coefficient lies strictly between 0 and 1 and
the smoothed gain reduction lies in `[0.1, 5]`. -/
theorem Reachable.smoothed_bounds {a : AutoGain ℝ} (h : Reachable Real.exp a) :
    (0 < a.grSmoothCoeff ∧ a.grSmoothCoeff < 1) ∧ (0.1 ≤ a.smoothedGR ∧ a.smoothedGR ≤ 5) := by
  induction h with
  | constructed =>
    exact ⟨grSmoothCoeff_bounds _ (by show (0 : ℝ) < 44100; norm_num),
      by show (0.1 : ℝ) ≤ 1 ∧ (1 : ℝ) ≤ 5; constructor <;> norm_num⟩
  | prepare a fs hfs =>
    exact ⟨grSmoothCoeff_bounds { a with sampleRate := fs } hfs,
      by show (0.1 : ℝ) ≤ 1 ∧ (1 : ℝ) ≤ 5; constructor <;> norm_num⟩
  | reset a _ ih =>
    exact ⟨ih.1, by show (0.1 : ℝ) ≤ 1 ∧ (1 : ℝ) ≤ 5; constructor <;> norm_num⟩
  | updateInputEnvelope a sample _ ih => exact ih
  | updateOutputEnvelope a sample _ ih => exact ih
  | getGainReduction a _ ih => exact ⟨ih.1, smoothed_step a ih.1 ih.2⟩
  | processEnvelopes a inputBuffer outputBuffer numSamples _ ih =>
    unfold AutoGain.processEnvelopes
    exact foldl_invariant
      (fun (a : AutoGain ℝ) (i : Nat) =>
        AutoGain.updateOutputEnvelope
          (AutoGain.updateInputEnvelope a (readAt inputBuffer (i : Int)))
          (readAt outputBuffer (i : Int)))
      (fun (b : AutoGain ℝ) => (0 < b.grSmoothCoeff ∧ b.grSmoothCoeff < 1) ∧
        (0.1 ≤ b.smoothedGR ∧ b.smoothedGR ≤ 5))
      (fun s x hs => hs) _ a ih

end AutoGain

/-! ## Helper lemmas: presets -/

/-- A `std::map` built from an initialiser list has the keys of the list. -/
theorem mem_keys_stdMapOf (entries : List (String × α)) (k : String) :
    k ∈ (stdMapOf entries).map Prod.fst ↔ k ∈ entries.map Prod.fst := by
  unfold stdMapOf
  exact ((List.perm_insertionSort _ entries).map Prod.fst).mem_iff

namespace PresetManager

/-- A parameter ID that is not registered is not found. -/
theorem getParameter_none (state : List (String × α)) (k : String)
    (h : k ∉ state.map Prod.fst) : getParameter state k = none := by
  unfold getParameter
  induction state with
  | nil => rfl
  | cons e rest ih =>
    rw [List.map_cons, List.mem_cons, not_or] at h
    obtain ⟨k', v⟩ := e
    have hne : (k == k') = false := by
      rw [beq_eq_false_iff_ne]; exact h.1
    simp only [List.lookup, hne]
    exact ih h.2

/-- Setting one parameter keeps the registered IDs. -/
theorem setValueNotifyingHost_keys (legalValue : String → α → α) (state : List (String × α))
    (paramId : String) (value : α) :
    (setValueNotifyingHost legalValue state paramId value).map Prod.fst =
      state.map Prod.fst := by
  unfold setValueNotifyingHost
  rw [List.map_map]
  apply List.map_congr_left
  intro e _
  simp only [Function.comp]
  split_ifs <;> rfl

/-- Setting one parameter leaves the value of every other parameter. -/
theorem setValueNotifyingHost_other (legalValue : String → α → α) (state : List (String × α))
    (paramId k : String) (value : α) (h : k ≠ paramId) :
    getParameter (setValueNotifyingHost legalValue state paramId value) k =
      getParameter state k := by
  unfold getParameter setValueNotifyingHost
  induction state with
  | nil => rfl
  | cons e rest ih =>
    obtain ⟨k', v⟩ := e
    rw [List.map_cons]
    by_cases hk : k' = paramId
    · have hne : (k == k') = false := by
        rw [beq_eq_false_iff_ne, hk]; exact h
      rw [if_pos (show ((k', v) : String × α).1 = paramId from hk)]
      simp only [List.lookup, hne]
      exact ih
    · rw [if_neg (show ¬ ((k', v) : String × α).1 = paramId from hk)]
      simp only [List.lookup]
      rw [ih]

/-- `applyPresetData` keeps the registered IDs and leaves the value of every parameter
that the map does not name. -/
theorem applyPresetData_frame (legalValue : String → α → α) (k : String) :
    ∀ (data state : List (String × α)),
      (applyPresetData legalValue state data).map Prod.fst = state.map Prod.fst
      ∧ (k ∉ data.map Prod.fst →
        getParameter (applyPresetData legalValue state data) k = getParameter state k) := by
  intro data
  induction data with
  | nil => intro state; exact ⟨rfl, fun _ => rfl⟩
  | cons e rest ih =>
    intro state
    unfold applyPresetData
    rw [List.foldl_cons]
    split_ifs with hsome
    · obtain ⟨h1, h2⟩ := ih (setValueNotifyingHost legalValue state e.1 e.2)
      refine ⟨h1.trans (setValueNotifyingHost_keys legalValue state e.1 e.2), ?_⟩
      intro hk
      rw [List.map_cons, List.mem_cons, not_or] at hk
      exact (h2 hk.2).trans (setValueNotifyingHost_other legalValue state e.1 k e.2 hk.1)
    · obtain ⟨h1, h2⟩ := ih state
      refine ⟨h1, ?_⟩
      intro hk
      rw [List.map_cons, List.mem_cons, not_or] at hk
      exact h2 hk.2

/-- An entry whose ID is not registered is skipped. -/
theorem applyPresetData_unregistered (legalValue : String → α → α) (state : List (String × α))
    (k : String) (v : α) (h : k ∉ state.map Prod.fst) :
    applyPresetData legalValue state [(k, v)] = state := by
  unfold applyPresetData
  rw [List.foldl_cons, List.foldl_nil, getParameter_none state k h]
  rfl

/-- Every factory preset names `AUTO_GAIN` and none names `PAD_ENABLED`. -/
theorem factoryPreset_keys (preset : FactoryPreset α)
    (h : preset ∈ (initFactoryPresets : List (FactoryPreset α))) :
    "AUTO_GAIN" ∈ preset.data.map Prod.fst ∧ "PAD_ENABLED" ∉ preset.data.map Prod.fst := by
  simp only [initFactoryPresets, List.mem_cons, List.mem_singleton, List.not_mem_nil,
    or_false] at h
  rcases h with rfl | rfl | rfl | rfl | rfl | rfl | rfl | rfl <;>
  · simp only [mem_keys_stdMapOf, List.map_cons, List.map_nil]
    constructor <;> decide

end PresetManager

/-! ## Helper lemmas: the pipeline output is bounded by the tap sum -/

/-- The waveshaper output has magnitude at most 1, whatever the drive. -/
theorem SanguinovaEngine.processSample_abs_le_one (pow : ℝ → ℝ → ℝ)
    (input driveDb stageMult : ℝ) :
    |SanguinovaEngine.processSample Real.exp pow input driveDb stageMult| ≤ 1 := by
  rw [processSample_scaled]
  generalize input * pow 10 (driveDb / 20) * stageMult = x
  split_ifs with hx
  · have h1 := Real.exp_pos (-x)
    have h2 : Real.exp (-x) < 1 := by
      have := Real.exp_lt_exp.mpr (show -x < 0 by linarith)
      rwa [Real.exp_zero] at this
    rw [abs_le]
    constructor <;> linarith
  · have hpos : 0 < 1 + x * x := by nlinarith [mul_self_nonneg x]
    rw [abs_le]
    constructor
    · rw [le_div_iff₀ hpos]
      nlinarith [mul_self_nonneg (x + 1), mul_self_nonneg x]
    · rw [div_le_iff₀ hpos]
      nlinarith [mul_self_nonneg (x - 1), mul_self_nonneg x]

/-- A fold whose steps each add at most `c t` in magnitude. -/
theorem foldl_abs_le (f : α → Nat → α) (c : Nat → α)
    (hf : ∀ s t, |f s t| ≤ |s| + c t) :
    ∀ (l : List Nat) (init : α), |l.foldl f init| ≤ |init| + (l.map c).sum := by
  intro l
  induction l with
  | nil => intro init; simp
  | cons t rest ih =>
    intro init
    rw [List.foldl_cons, List.map_cons, List.sum_cons]
    have h1 := ih (f init t)
    have h2 := hf init t
    linarith

/-- An element read of an array whose entries have magnitude at most 1. -/
theorem getD_abs_le_one (buf : List α) (h : ∀ x ∈ buf, |x| ≤ 1) (i : Nat) :
    |buf.getD i 0| ≤ 1 := by
  rw [List.getD_eq_getElem?_getD]
  cases hi : buf[i]? with
  | none => simp
  | some v => exact h v (List.getElem?_mem hi)

/-- Writing a value of magnitude at most 1 keeps the entries within magnitude 1. -/
theorem set_abs_le_one (buf : List α) (h : ∀ x ∈ buf, |x| ≤ 1) (i : Nat) (v : α)
    (hv : |v| ≤ 1) : ∀ x ∈ buf.set i v, |x| ≤ 1 := by
  intro x hx
  rcases List.mem_or_eq_of_mem_set hx with hm | he
  · exact h x hm
  · rw [he]; exact hv

namespace Oversampler

/-- The tap loop of `downsample` on a ring of magnitude at most 1 adds at most the tap
sum to the running sum. -/
theorem downsampleTaps_abs_le (coeffs buf : List α) (idx : Int) (sum : α)
    (h : ∀ x ∈ buf, |x| ≤ 1) :
    |downsampleTaps coeffs buf idx sum| ≤ |sum| + tapSum coeffs := by
  unfold downsampleTaps tapSum
  apply foldl_abs_le
  intro s t
  have hb := getD_abs_le_one buf h
    (Int.tmod (idx - (t : Int) * Factor + FilterOrder * Factor) (FilterOrder * Factor)).toNat
  have hprod : |readAt buf (Int.tmod (idx - (t : Int) * Factor + FilterOrder * Factor)
      (FilterOrder * Factor)) * readAt coeffs (t : Int)| ≤ |readAt coeffs (t : Int)| := by
    rw [abs_mul]
    exact mul_le_of_le_one_left (abs_nonneg _) hb
  simp only []
  split_ifs
  · exact (abs_add _ _).trans (by linarith)
  · linarith [abs_nonneg (readAt coeffs (t : Int))]

/-- One iteration of the phase loop of `downsample` with an input of magnitude at most 1:
taps and ring bound are kept; the running sum is untouched before the last phase and
grows by at most the tap sum in it. -/
theorem downsampleStep_bounded (input : List α) (st : Oversampler α × α) (phase : Nat)
    (hin : |input.getD phase 0| ≤ 1) (hring : ∀ x ∈ st.1.downsampleBuffer, |x| ≤ 1) :
    (downsampleStep input st phase).1.filterCoeffs = st.1.filterCoeffs
    ∧ (∀ x ∈ (downsampleStep input st phase).1.downsampleBuffer, |x| ≤ 1)
    ∧ ((phase : Int) ≠ Factor - 1 → (downsampleStep input st phase).2 = st.2)
    ∧ |(downsampleStep input st phase).2| ≤ |st.2| + tapSum st.1.filterCoeffs := by
  have hb : ∀ x ∈ writeAt st.1.downsampleBuffer st.1.downsampleIndex (input.getD phase 0),
      |x| ≤ 1 := set_abs_le_one _ hring _ _ hin
  refine ⟨rfl, hb, ?_, ?_⟩
  · intro hne
    show (if (phase : Int) = Factor - 1 then _ else st.2) = st.2
    rw [if_neg hne]
  · show |if (phase : Int) = Factor - 1 then downsampleTaps _ _ _ st.2 else st.2| ≤ _
    have hts : (0 : α) ≤ tapSum st.1.filterCoeffs := by
      unfold tapSum
      apply List.sum_nonneg
      intro x hx
      rw [List.mem_map] at hx
      obtain ⟨t, _, rfl⟩ := hx
      exact abs_nonneg _
    split_ifs
    · exact downsampleTaps_abs_le _ _ _ _ hb
    · linarith

/-- `downsample` of a quadruple of magnitude at most 1 into a ring of magnitude at most
1: the returned sample is at most the tap sum in magnitude. -/
theorem downsample_bounded (os : Oversampler α) (input : List α)
    (hin : ∀ phase, |input.getD phase 0| ≤ 1) (hring : ∀ x ∈ os.downsampleBuffer, |x| ≤ 1) :
    (os.downsample input).1.filterCoeffs = os.filterCoeffs
    ∧ (∀ x ∈ (os.downsample input).1.downsampleBuffer, |x| ≤ 1)
    ∧ |(os.downsample input).2| ≤ tapSum os.filterCoeffs := by
  have e : os.downsample input =
      downsampleStep input (downsampleStep input (downsampleStep input
        (downsampleStep input (os, 0) 0) 1) 2) 3 := rfl
  obtain ⟨a1, a2, a3, _⟩ := downsampleStep_bounded input (os, 0) 0 (hin 0) hring
  obtain ⟨b1, b2, b3, _⟩ := downsampleStep_bounded input _ 1 (hin 1) a2
  obtain ⟨c1, c2, c3, _⟩ := downsampleStep_bounded input _ 2 (hin 2) b2
  obtain ⟨d1, d2, _, d4⟩ := downsampleStep_bounded input _ 3 (hin 3) c2
  have hz : (downsampleStep input (downsampleStep input
      (downsampleStep input (os, 0) 0) 1) 2).2 = 0 := by
    rw [c3 (by unfold Factor; norm_num), b3 (by unfold Factor; norm_num),
      a3 (by unfold Factor; norm_num)]
  rw [e]
  refine ⟨d1.trans (c1.trans (b1.trans a1)), d2, ?_⟩
  rw [hz, abs_zero, zero_add, c1, b1, a1] at d4
  exact d4

/-- `process` with a processor of magnitude at most 1 on a decimation ring of magnitude at
most 1: the returned sample is at most the tap sum in magnitude. -/
theorem process_bounded (os : Oversampler α) (x : α) (f : α → α) (hf : ∀ y, |f y| ≤ 1)
    (hring : ∀ y ∈ os.downsampleBuffer, |y| ≤ 1) :
    (os.process x f).1.filterCoeffs = os.filterCoeffs
    ∧ (∀ y ∈ (os.process x f).1.downsampleBuffer, |y| ≤ 1)
    ∧ |(os.process x f).2| ≤ tapSum os.filterCoeffs := by
  have hin : ∀ phase, |((os.upsample x).2.map f).getD phase 0| ≤ 1 := by
    intro phase
    apply getD_abs_le_one
    intro y hy
    rw [List.mem_map] at hy
    obtain ⟨z, _, rfl⟩ := hy
    exact hf z
  exact downsample_bounded (os.upsample x).1 _ hin hring

end Oversampler

/-- The one-pole update with a coefficient in `[0, 1]` stays within a bound that holds of
its state and its input. -/
theorem OnePole.processSample_abs_le (f : OnePole α) (x B : α) (hg : 0 ≤ f.g ∧ f.g ≤ 1)
    (hz : |f.z1| ≤ B) (hx : |x| ≤ B) :
    |(f.processSample x).2| ≤ B ∧ (f.processSample x).1.z1 = (f.processSample x).2
    ∧ (f.processSample x).1.g = f.g ∧ (f.processSample x).1.fs = f.fs := by
  refine ⟨?_, rfl, rfl, rfl⟩
  show |f.z1 + f.g * (x - f.z1)| ≤ B
  rw [abs_le] at hz hx ⊢
  obtain ⟨g0, g1⟩ := hg
  constructor
  · nlinarith [mul_nonneg g0 (by linarith : (0 : α) ≤ x + B),
      mul_nonneg (by linarith : (0 : α) ≤ 1 - f.g) (by linarith : (0 : α) ≤ f.z1 + B)]
  · nlinarith [mul_nonneg g0 (by linarith : (0 : α) ≤ B - x),
      mul_nonneg (by linarith : (0 : α) ≤ 1 - f.g) (by linarith : (0 : α) ≤ B - f.z1)]

/-- `setFrequency` with the real exponential, a positive pi and a positive sample rate
gives a coefficient strictly between 0 and 1. -/
theorem OnePole.setFrequency_g (pi : ℝ) (hpi : 0 < pi) (f : OnePole ℝ) (frequency : ℝ)
    (hfs : 0 < f.fs) :
    0 ≤ (f.setFrequency Real.exp pi frequency).g ∧ (f.setFrequency Real.exp pi frequency).g ≤ 1
    ∧ (f.setFrequency Real.exp pi frequency).z1 = f.z1
    ∧ (f.setFrequency Real.exp pi frequency).fs = f.fs := by
  refine ⟨?_, ?_, rfl, rfl⟩
  · show 0 ≤ 1 - Real.exp (-(2 * pi * max 20 (min frequency (f.fs * 0.49)) / f.fs))
    have hw : 0 < 2 * pi * max 20 (min frequency (f.fs * 0.49)) / f.fs := by
      have : (0 : ℝ) < max 20 (min frequency (f.fs * 0.49)) :=
        lt_of_lt_of_le (by norm_num) (le_max_left _ _)
      positivity
    have := Real.exp_lt_exp.mpr (show -(2 * pi * max 20 (min frequency (f.fs * 0.49)) / f.fs) < 0
      by linarith)
    rw [Real.exp_zero] at this
    linarith
  · show 1 - Real.exp (-(2 * pi * max 20 (min frequency (f.fs * 0.49)) / f.fs)) ≤ 1
    have := Real.exp_pos (-(2 * pi * max 20 (min frequency (f.fs * 0.49)) / f.fs))
    linarith
/-- The tap sum is not negative. -/
theorem Oversampler.tapSum_nonneg (h : List α) : 0 ≤ Oversampler.tapSum h := by
  unfold Oversampler.tapSum
  apply List.sum_nonneg
  intro x hx
  rw [List.mem_map] at hx
  obtain ⟨t, _, rfl⟩ := hx
  exact abs_nonneg _

/-- Reading back the element just written. -/
theorem Array2.get_set_self {β : Type} (a : Array2 β) (c : Nat) (v : β) :
    (a.set c v).get c = v := by
  unfold Array2.set Array2.get
  split_ifs <;> rfl

namespace SanguinovaAudioProcessor

/-- The block locals under mix 100 %, pad disabled and output trim 0 dB: wet 1, dry 0,
pad target 1 and output gain 1. -/
theorem blockLocals_unity (params : Parameters ℝ) (hmix : params.MIX = 100)
    (hpad : ¬ params.PAD_ENABLED > 0.5) (hgain : params.OUTPUT_GAIN = 0) :
    (blockLocals (juceDecibelsToGain Real.rpow) params).wetAmount = 1
    ∧ (blockLocals (juceDecibelsToGain Real.rpow) params).dryAmount = 0
    ∧ (blockLocals (juceDecibelsToGain Real.rpow) params).targetPadGain = 1
    ∧ (blockLocals (juceDecibelsToGain Real.rpow) params).outputGainLinear = 1 := by
  refine ⟨?_, ?_, ?_, ?_⟩
  · show params.MIX / 100 = 1
    rw [hmix]; norm_num
  · show 1 - params.MIX / 100 = 0
    rw [hmix]; norm_num
  · show (if decide (params.PAD_ENABLED > 0.5) = true then 1 / _ else (1 : ℝ)) = 1
    rw [if_neg (by simpa using hpad)]
  · show juceDecibelsToGain Real.rpow params.OUTPUT_GAIN = 1
    rw [hgain]
    unfold juceDecibelsToGain
    rw [if_pos (by norm_num), zero_mul]
    exact Real.rpow_zero 10

/-- One run of the loop body under the unity settings: the written sample is the
post-filtered sample, at most the tap sum in magnitude, and the bounds are kept. -/
theorem sampleBody_unity (pow : ℝ → ℝ → ℝ) (loc : BlockLocals ℝ) (h : List ℝ) (channel : Nat)
    (st : LoopState ℝ) (input : ℝ)
    (hloc : loc.wetAmount = 1 ∧ loc.dryAmount = 0 ∧ loc.targetPadGain = 1 ∧
      loc.outputGainLinear = 1)
    (hI : UnityBounded h st.proc ∧
      (0 ≤ (st.proc.postFilters.get channel).g ∧ (st.proc.postFilters.get channel).g ≤ 1)) :
    ((sampleBody Real.exp pow loc channel st input).2 =
        postFiltered Real.exp pow loc channel st.proc input
      ∧ |(sampleBody Real.exp pow loc channel st input).2| ≤ Oversampler.tapSum h)
    ∧ (UnityBounded h (sampleBody Real.exp pow loc channel st input).1.proc ∧
      (0 ≤ ((sampleBody Real.exp pow loc channel st input).1.proc.postFilters.get channel).g ∧
        ((sampleBody Real.exp pow loc channel st input).1.proc.postFilters.get channel).g
          ≤ 1)) := by
  obtain ⟨⟨hpad, hch⟩, hg⟩ := hI
  obtain ⟨hwet, hdry, htarget, hgain⟩ := hloc
  obtain ⟨o1, o2, o3⟩ := Oversampler.process_bounded (st.proc.oversamplers.get channel)
    ((st.proc.preFilters.get channel).processSample input loc.filterMode).2
    (fun x => SanguinovaEngine.processSample Real.exp pow x loc.drive loc.stageMult)
    (fun y => SanguinovaEngine.processSample_abs_le_one pow y _ _) (hch channel).1.2
  rw [(hch channel).1.1] at o3
  obtain ⟨q1, q2, q3, q4⟩ := OnePole.processSample_abs_le (st.proc.postFilters.get channel)
    ((st.proc.oversamplers.get channel).process
      ((st.proc.preFilters.get channel).processSample input loc.filterMode).2
      (fun x => SanguinovaEngine.processSample Real.exp pow x loc.drive loc.stageMult)).2
    (Oversampler.tapSum h) hg (hch channel).2.1 o3
  have hpad2 : (sampleBody Real.exp pow loc channel st input).1.proc.smoothedPadGain = 1 := by
    show padUpdate st.proc loc.targetPadGain channel = 1
    unfold padUpdate
    rw [htarget, hpad]
    split_ifs <;> ring
  have hout : (sampleBody Real.exp pow loc channel st input).2 =
      postFiltered Real.exp pow loc channel st.proc input := by
    rw [sampleBody_output, hpad2, hgain, hwet, hdry]
    unfold postFiltered
    ring
  refine ⟨⟨hout, ?_⟩, ⟨hpad2, ?_⟩, ?_⟩
  · rw [hout]
    exact q1
  · intro c
    refine ⟨?_, ?_⟩
    · show ((st.proc.oversamplers.set channel _).get c).filterCoeffs = h ∧
        ∀ x ∈ ((st.proc.oversamplers.set channel _).get c).downsampleBuffer, |x| ≤ 1
      rcases Array2.get_set_cases st.proc.oversamplers channel c
        ((st.proc.oversamplers.get channel).process
          ((st.proc.preFilters.get channel).processSample input loc.filterMode).2
          (fun x => SanguinovaEngine.processSample Real.exp pow x loc.drive
            loc.stageMult)).1 with e | e
      · rw [e]; exact ⟨o1.trans (hch channel).1.1, o2⟩
      · rw [e]; exact (hch c).1
    · show |((st.proc.postFilters.set channel _).get c).z1| ≤ Oversampler.tapSum h ∧
        0 < ((st.proc.postFilters.set channel _).get c).fs
      rcases Array2.get_set_cases st.proc.postFilters channel c
        ((st.proc.postFilters.get channel).processSample
          ((st.proc.oversamplers.get channel).process
            ((st.proc.preFilters.get channel).processSample input loc.filterMode).2
            (fun x => SanguinovaEngine.processSample Real.exp pow x loc.drive
              loc.stageMult)).2).1 with e | e
      · rw [e, q2, q4]; exact ⟨q1, (hch channel).2.2⟩
      · rw [e]; exact (hch c).2
  · show 0 ≤ ((st.proc.postFilters.set channel _).get channel).g ∧
      ((st.proc.postFilters.set channel _).get channel).g ≤ 1
    rw [Array2.get_set_self, q3]
    exact hg

/-- The parameter updates at the head of the channel loop keep the bounds and leave the
post-filter of the channel with a coefficient in `[0, 1]`. -/
theorem channelSetup_unity (tan : ℝ → ℝ) (pi : ℝ) (hpi : 0 < pi) (loc : BlockLocals ℝ)
    (h : List ℝ) (channel : Nat) (p : SanguinovaAudioProcessor ℝ) (hI : UnityBounded h p) :
    UnityBounded h (channelSetup Real.exp tan pi loc channel p) ∧
      (0 ≤ ((channelSetup Real.exp tan pi loc channel p).postFilters.get channel).g ∧
        ((channelSetup Real.exp tan pi loc channel p).postFilters.get channel).g ≤ 1) := by
  obtain ⟨hpad, hch⟩ := hI
  obtain ⟨g0, g1, gz, gf⟩ := OnePole.setFrequency_g pi hpi (p.postFilters.get channel)
    loc.outputLpFreq (hch channel).2.2
  refine ⟨⟨hpad, ?_⟩, ?_⟩
  · intro c
    refine ⟨(hch c).1, ?_⟩
    show |((p.postFilters.set channel _).get c).z1| ≤ Oversampler.tapSum h ∧
      0 < ((p.postFilters.set channel _).get c).fs
    rcases Array2.get_set_cases p.postFilters channel c
      ((p.postFilters.get channel).setFrequency Real.exp pi loc.outputLpFreq) with e | e
    · rw [e, gz, gf]; exact (hch channel).2
    · rw [e]; exact (hch c).2
  · show 0 ≤ ((p.postFilters.set channel _).get channel).g ∧
      ((p.postFilters.set channel _).get channel).g ≤ 1
    rw [Array2.get_set_self]
    exact ⟨g0, g1⟩

/-- The channel body under the unity settings keeps the bounds. -/
theorem processChannel_unity (pow : ℝ → ℝ → ℝ) (tan : ℝ → ℝ) (pi : ℝ) (hpi : 0 < pi)
    (loc : BlockLocals ℝ) (h : List ℝ)
    (hloc : loc.wetAmount = 1 ∧ loc.dryAmount = 0 ∧ loc.targetPadGain = 1 ∧
      loc.outputGainLinear = 1)
    (channel : Nat) (st : LoopState ℝ) (xs : List ℝ) (hI : UnityBounded h st.proc) :
    UnityBounded h (processChannel Real.exp pow tan pi loc channel st xs).1.proc := by
  unfold processChannel
  exact (sampleLoop_preserves _
    (fun s => UnityBounded h s.proc ∧
      (0 ≤ (s.proc.postFilters.get channel).g ∧ (s.proc.postFilters.get channel).g ≤ 1))
    (fun s x hs => (sampleBody_unity pow loc h channel s x hloc hs).2) xs _
    (channelSetup_unity tan pi hpi loc h channel st.proc hI)).1

/-- The state after `prepareToPlay` of the freshly constructed processor satisfies the
bounds. -/
theorem prepareToPlay_unity (h : List ℝ) (sampleRate : ℝ) (samplesPerBlock : Int)
    (hfs : 0 < sampleRate) :
    UnityBounded h
      (prepareToPlay Real.exp (SanguinovaAudioProcessor.new h) sampleRate samplesPerBlock) := by
  refine ⟨rfl, ?_⟩
  intro c
  have hos : (Oversampler.new h).filterCoeffs = h ∧
      ∀ x ∈ (Oversampler.new h).downsampleBuffer, |x| ≤ 1 := by
    refine ⟨rfl, ?_⟩
    intro x hx
    simp only [Oversampler.new, Oversampler.reset, List.mem_map] at hx
    obtain ⟨_, _, rfl⟩ := hx
    simp
  refine ⟨?_, ?_⟩
  · show ((Array2.mk (Oversampler.new h) (Oversampler.new h)).get c).filterCoeffs = h ∧ _
    unfold Array2.get
    split_ifs <;> exact hos
  · show |((Array2.mk _ _ : Array2 (OnePole ℝ)).get c).z1| ≤ _ ∧ _
    unfold Array2.get
    split_ifs <;>
    · refine ⟨?_, hfs⟩
      show |(0 : ℝ)| ≤ _
      rw [abs_zero]
      exact Oversampler.tapSum_nonneg h

/-- A block under mix 100 %, pad disabled and output trim 0 dB, from a state within the
bounds: every written sample is the post-filtered sample and is at most the tap sum in
magnitude. -/
theorem processBlock_unity (pow : ℝ → ℝ → ℝ) (tan : ℝ → ℝ) (pi : ℝ) (hpi : 0 < pi)
    (h : List ℝ) (p : SanguinovaAudioProcessor ℝ) (hp : UnityBounded h p)
    (params : Parameters ℝ) (hmix : params.MIX = 100) (hpad : ¬ params.PAD_ENABLED > 0.5)
    (hgain : params.OUTPUT_GAIN = 0) (buffer : List (List ℝ)) (channel sample : Nat)
    (hc : channel < min buffer.length 2) (hs : sample < (buffer.getD channel []).length) :
    ((processBlock Real.exp pow tan pi (juceDecibelsToGain Real.rpow) p params
        buffer).2.getD channel []).getD sample 0 =
      postFiltered Real.exp pow (blockLocals (juceDecibelsToGain Real.rpow) params) channel
        (loopStateAt Real.exp pow tan pi (juceDecibelsToGain Real.rpow) p params buffer channel
          sample).proc ((buffer.getD channel []).getD sample 0)
    ∧ |((processBlock Real.exp pow tan pi (juceDecibelsToGain Real.rpow) p params
        buffer).2.getD channel []).getD sample 0| ≤ Oversampler.tapSum h := by
  have hloc := blockLocals_unity params hmix hpad hgain
  have h1 : UnityBounded h
      (channelLoop (processChannel Real.exp pow tan pi
          (blockLocals (juceDecibelsToGain Real.rpow) params)) (min buffer.length 2) 0
        { proc := { p with
            totalMultiplier := (blockLocals (juceDecibelsToGain Real.rpow) params).stageMult }
          maxInputLevel := 0, maxOutputLevel := 0 } (buffer.take channel)).1.proc :=
    channelLoop_preserves _ _ 0 (fun s => UnityBounded h s.proc)
      (fun ch st xs _ hst => processChannel_unity pow tan pi hpi _ h hloc ch st xs hst)
      _ 0 _ (le_refl _) hp
  have h2 : UnityBounded h (loopStateAt Real.exp pow tan pi (juceDecibelsToGain Real.rpow) p
        params buffer channel sample).proc ∧
      (0 ≤ ((loopStateAt Real.exp pow tan pi (juceDecibelsToGain Real.rpow) p params buffer
          channel sample).proc.postFilters.get channel).g ∧
        ((loopStateAt Real.exp pow tan pi (juceDecibelsToGain Real.rpow) p params buffer
          channel sample).proc.postFilters.get channel).g ≤ 1) :=
    sampleLoop_preserves
      (sampleBody Real.exp pow (blockLocals (juceDecibelsToGain Real.rpow) params) channel)
      (fun s => UnityBounded h s.proc ∧
        (0 ≤ (s.proc.postFilters.get channel).g ∧ (s.proc.postFilters.get channel).g ≤ 1))
      (fun s x hs => (sampleBody_unity pow _ h channel s x hloc hs).2)
      ((buffer.getD channel []).take sample)
      (LoopState.mk
        (channelSetup Real.exp tan pi (blockLocals (juceDecibelsToGain Real.rpow) params) channel
          (channelLoop (processChannel Real.exp pow tan pi
              (blockLocals (juceDecibelsToGain Real.rpow) params)) (min buffer.length 2) 0
            { proc := { p with
                totalMultiplier :=
                  (blockLocals (juceDecibelsToGain Real.rpow) params).stageMult }
              maxInputLevel := 0, maxOutputLevel := 0 } (buffer.take channel)).1.proc)
        _ _)
      (channelSetup_unity tan pi hpi (blockLocals (juceDecibelsToGain Real.rpow) params) h
        channel _ h1)
  have h3 := (sampleBody_unity pow (blockLocals (juceDecibelsToGain Real.rpow) params) h channel
    (loopStateAt Real.exp pow tan pi (juceDecibelsToGain Real.rpow) p params buffer channel
      sample) ((buffer.getD channel []).getD sample 0) hloc h2).1
  rw [processBlock_getD Real.exp pow tan pi (juceDecibelsToGain Real.rpow) p params buffer
    channel sample hc hs]
  exact h3

end SanguinovaAudioProcessor
/-! ## Helper lemmas: the tap sum of the constructed filter -/

namespace Oversampler

/-- The upper bound of the sinc factor over the reals is the cast of its rational value. -/
theorem sincUpperBound_cast (i : Nat) :
    (sincUpperBound i : ℝ) = ((sincUpperBound i : ℚ) : ℝ) := by
  unfold sincUpperBound
  split_ifs <;> push_cast <;> norm_num

/-- The sinc factor of tap `i` is at most `sincUpperBound i` in magnitude. -/
theorem sinc_abs_le (pi : ℝ) (h1 : 3.14 ≤ pi) (i : Nat) :
    |(if |(i : ℝ) - ((HalfOrder - 1 : Int) : ℝ)| < 1e-6 then 2 * 0.22
        else Real.sin (2 * pi * 0.22 * ((i : ℝ) - ((HalfOrder - 1 : Int) : ℝ))) /
          (pi * ((i : ℝ) - ((HalfOrder - 1 : Int) : ℝ))))| ≤ (sincUpperBound i : ℝ) := by
  have hho : ((HalfOrder - 1 : Int) : ℝ) = 15 := by
    have : (HalfOrder - 1 : Int) = 15 := by decide
    rw [this]; norm_num
  have hpi : (0 : ℝ) < pi := by norm_num at h1; linarith
  rw [hho]
  unfold sincUpperBound
  by_cases h15 : i = 15
  · subst h15
    norm_num
    rw [abs_of_pos (by norm_num)]
  · rw [if_neg h15]
    have hn : (1 : ℝ) ≤ |(i : ℝ) - 15| := by
      have hz : (1 : ℤ) ≤ |(i : ℤ) - 15| := by
        rcases abs_cases ((i : ℤ) - 15) with h | h <;> omega
      have := (Int.cast_le (R := ℝ)).mpr hz
      push_cast at this
      exact this
    have hcond : ¬ (|(i : ℝ) - 15| < 1e-6) := by
      intro hc
      norm_num at hc
      linarith
    rw [if_neg hcond, abs_div, abs_mul, abs_of_pos hpi]
    have hnpos : (0 : ℝ) < |(i : ℝ) - 15| := by linarith
    apply div_le_div₀ (by norm_num) (Real.abs_sin_le_one _) (by positivity)
    exact mul_le_mul_of_nonneg_right h1 hnpos.le

/-- The sum of the 32 entries before normalization is at least 1/10, and the sum of their
absolute values is at most 2. -/
theorem windowedSinc_sum_bounds (pi : ℝ) (h1 : 3.14 ≤ pi) (h2 : pi ≤ 3.15) :
    1 / 10 ≤ ((List.range 32).map (windowedSinc Real.sin Real.sqrt Real.rpow pi)).sum
    ∧ ((List.range 32).map
        (fun (i : Nat) => |windowedSinc Real.sin Real.sqrt Real.rpow pi i|)).sum ≤ 2 := by
  have hw : ∀ i, i ∈ List.range 32 → (0 : ℚ) ≤ kaiserWindow i := by decide!
  have hwr : ∀ i, i ∈ List.range 32 → (0 : ℝ) ≤ kaiserWindow i := by
    intro i hi
    rw [kaiserWindow_cast]
    exact_mod_cast hw i hi
  constructor
  · have hq : (1 / 10 : ℚ) ≤ ((List.range 32).map
        (fun i => (sincLowerBound i : ℚ) * kaiserWindow i)).sum := by decide!
    have hcast : (((List.range 32).map
        (fun i => (sincLowerBound i : ℚ) * kaiserWindow i)).sum : ℝ) =
        ((List.range 32).map (fun i => (sincLowerBound i : ℝ) * kaiserWindow i)).sum := by
      rw [Rat.cast_list_sum, List.map_map]
      congr 1
      apply List.map_congr_left
      intro i _
      simp only [Function.comp]
      rw [Rat.cast_mul, ← sincLowerBound_cast, ← kaiserWindow_cast]
    have hle : ((List.range 32).map (fun i => (sincLowerBound i : ℝ) * kaiserWindow i)).sum ≤
        ((List.range 32).map (windowedSinc Real.sin Real.sqrt Real.rpow pi)).sum := by
      apply List.sum_le_sum
      intro i hi
      rw [windowedSinc_real]
      exact mul_le_mul_of_nonneg_right (sincLowerBound_le pi h1 h2 i) (hwr i hi)
    have hqr : ((1 / 10 : ℚ) : ℝ) ≤ (((List.range 32).map
        (fun i => (sincLowerBound i : ℚ) * kaiserWindow i)).sum : ℝ) := by
      exact_mod_cast hq
    rw [hcast] at hqr
    have e : ((1 / 10 : ℚ) : ℝ) = 1 / 10 := by norm_num
    rw [e] at hqr
    linarith
  · have hq : ((List.range 32).map
        (fun i => (sincUpperBound i : ℚ) * kaiserWindow i)).sum ≤ 2 := by decide!
    have hcast : (((List.range 32).map
        (fun i => (sincUpperBound i : ℚ) * kaiserWindow i)).sum : ℝ) =
        ((List.range 32).map (fun i => (sincUpperBound i : ℝ) * kaiserWindow i)).sum := by
      rw [Rat.cast_list_sum, List.map_map]
      congr 1
      apply List.map_congr_left
      intro i _
      simp only [Function.comp]
      rw [Rat.cast_mul, ← sincUpperBound_cast, ← kaiserWindow_cast]
    have hle : ((List.range 32).map
        (fun (i : Nat) => |windowedSinc Real.sin Real.sqrt Real.rpow pi i|)).sum ≤
        ((List.range 32).map (fun i => (sincUpperBound i : ℝ) * kaiserWindow i)).sum := by
      apply List.sum_le_sum
      intro i hi
      rw [windowedSinc_real, abs_mul, abs_of_nonneg (hwr i hi)]
      exact mul_le_mul_of_nonneg_right (sinc_abs_le pi h1 i) (hwr i hi)
    have hqr : (((List.range 32).map
        (fun i => (sincUpperBound i : ℚ) * kaiserWindow i)).sum : ℝ) ≤ ((2 : ℚ) : ℝ) := by
      exact_mod_cast hq
    rw [hcast] at hqr
    have e : ((2 : ℚ) : ℝ) = 2 := by norm_num
    rw [e] at hqr
    linarith

/-- Dividing the value of every entry of a list by `s` divides the sum by `s`. -/
theorem sum_map_div_general (l : List Nat) (g : Nat → α) (s : α) :
    (l.map (fun t => g t / s)).sum = (l.map g).sum / s := by
  induction l with
  | nil => simp
  | cons x rest ih => rw [List.map_cons, List.sum_cons, List.map_cons, List.sum_cons, ih, add_div]

/-- The tap sum of the constructed filter is at most 20. -/
theorem construct_tapSum_le (pi : ℝ) (h1 : 3.14 ≤ pi) (h2 : pi ≤ 3.15) :
    tapSum (construct Real.sin Real.sqrt Real.rpow pi).filterCoeffs ≤ 20 := by
  obtain ⟨hS, hA⟩ := windowedSinc_sum_bounds pi h1 h2
  have hSpos : (0 : ℝ) <
      ((List.range 32).map (windowedSinc Real.sin Real.sqrt Real.rpow pi)).sum := by linarith
  have hterm : ∀ t, t ∈ List.range 32 →
      |readAt (construct Real.sin Real.sqrt Real.rpow pi).filterCoeffs (t : Int)| =
      |windowedSinc Real.sin Real.sqrt Real.rpow pi t| /
        ((List.range 32).map (windowedSinc Real.sin Real.sqrt Real.rpow pi)).sum := by
    intro t ht
    rw [List.mem_range] at ht
    rw [construct_filterCoeffs]
    unfold readAt
    rw [Int.toNat_ofNat, List.getD_eq_getElem?_getD, List.getElem?_map, List.getElem?_map,
      List.getElem?_range ht]
    show |windowedSinc Real.sin Real.sqrt Real.rpow pi t / _| = _
    rw [abs_div, abs_of_pos hSpos]
  unfold tapSum
  rw [List.map_congr_left hterm, sum_map_div_general]
  rw [div_le_iff₀ hSpos]
  linarith

end Oversampler

/-! ## The claims -/

/-- Claim C1, evaluated on the code: after `prepareToPlay` at 44.1 kHz, with stage 2x alone
active and the pad enabled, on a stereo block of two samples the smoothed pad gain
multiplied into channel 0 is `(1 + a) / 2` for sample 0 and `(1 + a^2) / 2` for sample 1
(`a` the attack coefficient: one smoother update per sample), but channel 1 is multiplied
by `(1 + a^2) / 2` at both samples, the value left at the end of the pass over channel 0;
the two values differ, so at sample 0 the channels do not read the same smoothed gain. -/
theorem C1_pad_gain_differs_between_channels (pow : ℝ → ℝ → ℝ) (tan : ℝ → ℝ) (pi : ℝ)
    (decibelsToGain : ℝ → ℝ) (p : SanguinovaAudioProcessor ℝ) (samplesPerBlock : Int)
    (params : Parameters ℝ) (x0 x1 y0 y1 : ℝ) :
    processBlockPadGains Real.exp pow tan pi decibelsToGain
        (prepareToPlay Real.exp p 44100 samplesPerBlock)
        { params with STAGE_2X := 1, STAGE_5X := 0, STAGE_10X := 0, PAD_ENABLED := 1 }
        [[x0, x1], [y0, y1]] =
      [[(1 + Real.exp (-1 / (44100 * 5 / 1000))) / 2,
        (1 + Real.exp (-1 / (44100 * 5 / 1000)) ^ 2) / 2],
       [(1 + Real.exp (-1 / (44100 * 5 / 1000)) ^ 2) / 2,
        (1 + Real.exp (-1 / (44100 * 5 / 1000)) ^ 2) / 2]]
    ∧ (1 + Real.exp (-1 / (44100 * 5 / 1000)) ^ 2) / 2 ≠
        (1 + Real.exp (-1 / (44100 * 5 / 1000))) / 2 := by
  have ht : (blockLocals decibelsToGain
      { params with STAGE_2X := 1, STAGE_5X := 0, STAGE_10X := 0,
                    PAD_ENABLED := 1 }).targetPadGain = 1 / 2 := by
    simp only [blockLocals]
    norm_num
  have hpos := Real.exp_pos (-1 / (44100 * 5 / 1000))
  have hlt1 : Real.exp (-1 / (44100 * 5 / 1000)) < 1 := by
    have h := Real.exp_lt_exp.mpr (show (-1 / (44100 * 5 / 1000) : ℝ) < 0 by norm_num)
    rwa [Real.exp_zero] at h
  constructor
  · have h : processBlockPadGains Real.exp pow tan pi decibelsToGain
        (prepareToPlay Real.exp p 44100 samplesPerBlock)
        { params with STAGE_2X := 1, STAGE_5X := 0, STAGE_10X := 0, PAD_ENABLED := 1 }
        [[x0, x1], [y0, y1]] =
        [[(padStep (blockLocals decibelsToGain
            { params with STAGE_2X := 1, STAGE_5X := 0, STAGE_10X := 0,
                          PAD_ENABLED := 1 }).targetPadGain
            (Real.exp (-1 / (44100 * 5 / 1000))) (Real.exp (-1 / (44100 * 150 / 1000))))^[1] 1,
          (padStep (blockLocals decibelsToGain
            { params with STAGE_2X := 1, STAGE_5X := 0, STAGE_10X := 0,
                          PAD_ENABLED := 1 }).targetPadGain
            (Real.exp (-1 / (44100 * 5 / 1000))) (Real.exp (-1 / (44100 * 150 / 1000))))^[2] 1],
         [(padStep (blockLocals decibelsToGain
            { params with STAGE_2X := 1, STAGE_5X := 0, STAGE_10X := 0,
                          PAD_ENABLED := 1 }).targetPadGain
            (Real.exp (-1 / (44100 * 5 / 1000))) (Real.exp (-1 / (44100 * 150 / 1000))))^[2] 1,
          (padStep (blockLocals decibelsToGain
            { params with STAGE_2X := 1, STAGE_5X := 0, STAGE_10X := 0,
                          PAD_ENABLED := 1 }).targetPadGain
            (Real.exp (-1 / (44100 * 5 / 1000))) (Real.exp (-1 / (44100 * 150 / 1000))))^[2] 1]] :=
      rfl
    rw [h, ht, padStep_iterate_half _ _ hpos, padStep_iterate_half _ _ hpos]
    norm_num
    constructor <;> ring
  · intro h
    have h0 : Real.exp (-1 / (44100 * 5 / 1000)) *
        (1 - Real.exp (-1 / (44100 * 5 / 1000))) = 0 := by
      linarith
    rcases mul_eq_zero.mp h0 with h1 | h1
    · linarith
    · linarith

/-- Claim C2, evaluated on the code: for every tap table of 32 entries summing to 1 and
every constant `c`, feeding `c` repeatedly into `Oversampler::process` with the identity
from the reset state yields, from the 63rd call on (index 62 of the run), the output
`4 * c`: the steady-state gain is 4, not 1. -/
theorem C2_dc_round_trip_gain_is_four (h : List α) (c : α) (total i : Nat)
    (hlen : h.length = 32) (hsum : h.sum = 1) (hi : 62 ≤ i) (hit : i < total) :
    (constantRun id c total (Oversampler.new h))[i]? = some (4 * c) :=
  Oversampler.constantRun_dc h c hlen hsum total 0 _ (Oversampler.dcInvariant_new h c) i hit
    (by omega)

/-- Witness for C2: 32 equal taps of 1/32 and the constant input 1 over the rationals; the
63rd output is 4. -/
theorem C2_dc_round_trip_gain_is_four_witness :
    (constantRun id (1 : ℚ) 63 (Oversampler.new (List.replicate 32 (1 / 32))))[62]? =
      some (4 * 1) :=
  C2_dc_round_trip_gain_is_four (List.replicate 32 (1 / 32)) 1 63 62 (by simp)
    (by rw [List.sum_replicate]; norm_num) (by decide) (by decide)

/-- Claim C3 as stated fails: at 44.1 kHz, from a freshly prepared object with stage 2x active
and the pad enabled, there is no block of at most `0.005 * 44100` samples (one attack time
constant) after which the smoothed pad gain is below 0.51. -/
theorem C3_counterexample_not_below_within_time_constant :
    ¬ ∃ xs : List ℝ, (xs.length : ℝ) ≤ 0.005 * 44100 ∧
      (processBlock Real.exp Real.rpow Real.tan Real.pi (juceDecibelsToGain Real.rpow)
        (prepareToPlay Real.exp (SanguinovaAudioProcessor.new (List.replicate 32 (1 / 32)))
          44100 512)
        { defaultParameters with STAGE_2X := 1 } [xs]).1.smoothedPadGain < 0.51 := by
  rintro ⟨xs, hlen, hlt⟩
  have e : ({ defaultParameters with STAGE_2X := 1 } : Parameters ℝ) =
      { defaultParameters with STAGE_2X := 1, STAGE_5X := 0, STAGE_10X := 0,
                               PAD_ENABLED := 1 } := rfl
  rw [e, smoothedPadGain_attack _ _ _ _ _ _ _ _ _ _ (by norm_num)] at hlt
  have h : Real.exp (-1) ≤ Real.exp (-(200 * (xs.length : ℝ) / 44100)) := by
    apply Real.exp_le_exp.mpr
    rw [neg_le_neg_iff, div_le_iff₀ (by norm_num)]
    linarith
  have h1 := exp_neg_one_gt
  norm_num at h1 hlt
  linarith

/-- Claim C3, amended: after `prepareToPlay(sampleRate)` with a sample rate of at least
200 Hz, with stage 2x alone active and the pad enabled (target 0.5), the smoothed pad gain
is below 0.51 after every block of at least `0.02 * sampleRate` samples (four attack time
constants), is still at or above 0.51 after a block of at most 3 samples, and is still above
0.68 after every block of at most `0.005 * sampleRate` samples (one time constant). -/
theorem C3_pad_attack_crosses_within_four_time_constants (pow : ℝ → ℝ → ℝ) (tan : ℝ → ℝ)
    (pi : ℝ) (decibelsToGain : ℝ → ℝ) (p : SanguinovaAudioProcessor ℝ) (sampleRate : ℝ)
    (samplesPerBlock : Int) (params : Parameters ℝ) (long short within : List ℝ)
    (rest : List (List ℝ))
    (hfs : 200 ≤ sampleRate)
    (hlong : 0.02 * sampleRate ≤ (long.length : ℝ))
    (hshort : short.length ≤ 3)
    (hwithin : (within.length : ℝ) ≤ 0.005 * sampleRate) :
    (processBlock Real.exp pow tan pi decibelsToGain
        (prepareToPlay Real.exp p sampleRate samplesPerBlock)
        { params with STAGE_2X := 1, STAGE_5X := 0, STAGE_10X := 0, PAD_ENABLED := 1 }
        (long :: rest)).1.smoothedPadGain < 0.51
      ∧ 0.51 ≤ (processBlock Real.exp pow tan pi decibelsToGain
        (prepareToPlay Real.exp p sampleRate samplesPerBlock)
        { params with STAGE_2X := 1, STAGE_5X := 0, STAGE_10X := 0, PAD_ENABLED := 1 }
        (short :: rest)).1.smoothedPadGain
      ∧ 0.68 < (processBlock Real.exp pow tan pi decibelsToGain
        (prepareToPlay Real.exp p sampleRate samplesPerBlock)
        { params with STAGE_2X := 1, STAGE_5X := 0, STAGE_10X := 0, PAD_ENABLED := 1 }
        (within :: rest)).1.smoothedPadGain := by
  have hpos : 0 < sampleRate := by linarith
  rw [smoothedPadGain_attack _ _ _ _ _ _ _ _ _ _ hpos,
    smoothedPadGain_attack _ _ _ _ _ _ _ _ _ _ hpos,
    smoothedPadGain_attack _ _ _ _ _ _ _ _ _ _ hpos]
  refine ⟨?_, ?_, ?_⟩
  · have h : Real.exp (-(200 * (long.length : ℝ) / sampleRate)) ≤ Real.exp (-4) := by
      apply Real.exp_le_exp.mpr
      rw [neg_le_neg_iff, le_div_iff₀ hpos]
      linarith
    have h4 := exp_neg_four_lt
    norm_num at h4 ⊢
    linarith
  · have hn : ((short.length : ℕ) : ℝ) ≤ 3 := by exact_mod_cast hshort
    have h : Real.exp (-3) ≤ Real.exp (-(200 * (short.length : ℝ) / sampleRate)) := by
      apply Real.exp_le_exp.mpr
      rw [neg_le_neg_iff, div_le_iff₀ hpos]
      nlinarith
    have h3 := exp_neg_three_gt
    norm_num at h3 ⊢
    linarith
  · have h : Real.exp (-1) ≤ Real.exp (-(200 * (within.length : ℝ) / sampleRate)) := by
      apply Real.exp_le_exp.mpr
      rw [neg_le_neg_iff, div_le_iff₀ hpos]
      linarith
    have h1 := exp_neg_one_gt
    norm_num at h1 ⊢
    linarith

/-- Witness for C3: a sample rate of 1 kHz, blocks of 20, 3 and 5 samples of silence on one channel. -/
theorem C3_pad_attack_crosses_within_four_time_constants_witness :
    (processBlock Real.exp Real.rpow Real.tan Real.pi (juceDecibelsToGain Real.rpow)
        (prepareToPlay Real.exp (SanguinovaAudioProcessor.new (List.replicate 32 (1 / 32)))
          1000 512)
        { defaultParameters with STAGE_2X := 1, STAGE_5X := 0, STAGE_10X := 0,
                                 PAD_ENABLED := 1 }
        (List.replicate 20 0 :: [])).1.smoothedPadGain < 0.51
      ∧ 0.51 ≤ (processBlock Real.exp Real.rpow Real.tan Real.pi
        (juceDecibelsToGain Real.rpow)
        (prepareToPlay Real.exp (SanguinovaAudioProcessor.new (List.replicate 32 (1 / 32)))
          1000 512)
        { defaultParameters with STAGE_2X := 1, STAGE_5X := 0, STAGE_10X := 0,
                                 PAD_ENABLED := 1 }
        ([0, 0, 0] :: [])).1.smoothedPadGain
      ∧ 0.68 < (processBlock Real.exp Real.rpow Real.tan Real.pi
        (juceDecibelsToGain Real.rpow)
        (prepareToPlay Real.exp (SanguinovaAudioProcessor.new (List.replicate 32 (1 / 32)))
          1000 512)
        { defaultParameters with STAGE_2X := 1, STAGE_5X := 0, STAGE_10X := 0,
                                 PAD_ENABLED := 1 }
        (List.replicate 5 0 :: [])).1.smoothedPadGain := by
  dsimp only
  exact C3_pad_attack_crosses_within_four_time_constants Real.rpow Real.tan Real.pi
    (juceDecibelsToGain Real.rpow) (SanguinovaAudioProcessor.new (List.replicate 32 (1 / 32)))
    1000 512 defaultParameters (List.replicate 20 0) [0, 0, 0] (List.replicate 5 0) []
    (by norm_num) (by rw [List.length_replicate]; norm_num) (by decide)
    (by rw [List.length_replicate]; norm_num)


/-- Claim C4, evaluated on the code: `prepareToPlay` never touches the oversamplers (they are
reset by `releaseResources` only).  From any object, after `releaseResources`, one stereo
block of one sample and then `prepareToPlay`, the write positions of channel 0's oversampler
are 1 and 4, not 0; the filter accumulators and the smoothed pad gain are reset as the
claim says. -/
theorem C4_prepareToPlay_leaves_oversamplers (exp : α → α) (pow : α → α → α) (tan : α → α)
    (pi : α) (decibelsToGain : α → α) (p q : SanguinovaAudioProcessor α)
    (params : Parameters α) (x y sampleRate : α) (samplesPerBlock : Int) :
    (prepareToPlay exp q sampleRate samplesPerBlock).oversamplers = q.oversamplers
    ∧ ((prepareToPlay exp
        (processBlock exp pow tan pi decibelsToGain (releaseResources p) params [[x], [y]]).1
        sampleRate samplesPerBlock).oversamplers.get 0).upsampleIndex = 1
    ∧ ((prepareToPlay exp
        (processBlock exp pow tan pi decibelsToGain (releaseResources p) params [[x], [y]]).1
        sampleRate samplesPerBlock).oversamplers.get 0).downsampleIndex = 4
    ∧ (∀ ch, ((prepareToPlay exp q sampleRate samplesPerBlock).preFilters.get ch).ic1eq = 0
        ∧ ((prepareToPlay exp q sampleRate samplesPerBlock).preFilters.get ch).ic2eq = 0
        ∧ ((prepareToPlay exp q sampleRate samplesPerBlock).postFilters.get ch).z1 = 0)
    ∧ (prepareToPlay exp q sampleRate samplesPerBlock).smoothedPadGain = 1 := by
  refine ⟨rfl, rfl, rfl, ?_, rfl⟩
  intro ch
  by_cases h : ch = 0
  · subst h
    exact ⟨rfl, rfl, rfl⟩
  · simp only [Array2.get, if_neg h]
    exact ⟨rfl, rfl, rfl⟩

/-- Claim C5 as stated fails: with resonance 2 the coefficient `k` left in the pre-filter by
`processBlock` differs from the one for the clamped snapshot (resonance 1), with mix 200 the
wet amount differs from the clamped one, and with drive 60 dB the waveshaper output for
input 1 differs from the one at 40 dB. -/
theorem C5_counterexample_values_not_clamped :
    ((processBlock Real.exp Real.rpow Real.tan Real.pi (juceDecibelsToGain Real.rpow)
        (SanguinovaAudioProcessor.new (List.replicate 32 (1 / 32)))
        { defaultParameters with INPUT_Q := 2 } [[0], [0]]).1.preFilters.get 0).k ≠
      ((processBlock Real.exp Real.rpow Real.tan Real.pi (juceDecibelsToGain Real.rpow)
        (SanguinovaAudioProcessor.new (List.replicate 32 (1 / 32)))
        (clampParameters { defaultParameters with INPUT_Q := 2 }) [[0], [0]]).1.preFilters.get
          0).k
    ∧ (blockLocals (juceDecibelsToGain Real.rpow)
        { defaultParameters with MIX := 200 }).wetAmount ≠
      (blockLocals (juceDecibelsToGain Real.rpow)
        (clampParameters { defaultParameters with MIX := 200 })).wetAmount
    ∧ SanguinovaEngine.processSample Real.exp Real.rpow 1 60 1 ≠
      SanguinovaEngine.processSample Real.exp Real.rpow 1 (max 0 (min 60 40)) 1 := by
  have hq : max (0.1 : ℝ) (min 2 1.0) = 1 := by norm_num
  have hm : max (0 : ℝ) (min 200 100) = 100 := by norm_num
  have hd : max (0 : ℝ) (min 60 40) = 40 := by norm_num
  refine ⟨?_, ?_, ?_⟩
  · show (1 : ℝ) / (0.5 + 2 * 9.5) ≠ 1 / (0.5 + max 0.1 (min 2 1.0) * 9.5)
    rw [hq]; norm_num
  · show (200 : ℝ) / 100 ≠ max 0 (min 200 100) / 100
    rw [hm]; norm_num
  · rw [hd, processSample_scaled, processSample_scaled]
    simp only [Real.rpow_eq_pow]
    have e60 : (10 : ℝ) ^ ((60 : ℝ) / 20) = 1000 := by
      rw [show (60 : ℝ) / 20 = ((3 : ℕ) : ℝ) by norm_num, Real.rpow_natCast]; norm_num
    have e40 : (10 : ℝ) ^ ((40 : ℝ) / 20) = 100 := by
      rw [show (40 : ℝ) / 20 = ((2 : ℕ) : ℝ) by norm_num, Real.rpow_natCast]; norm_num
    rw [e60, e40]
    norm_num

/-- Claim C5, amended: the code clamps none of resonance, mix and drive.  For a snapshot whose
resonance is in [0.1, 1.0], mix in [0, 100] and drive in [0, 40] (where the clamped snapshot
is the snapshot itself), `processBlock`, `SVFFilter::setParameters` and
`SanguinovaEngine::processSample` give the same result as for the clamped snapshot; for an
arbitrary resonance `r` and mix `m`, `setParameters` yields `k = 1 / (0.5 + 9.5 r)`, which
agrees with the value for the clamped resonance exactly when `r` is in [0.1, 1.0], and the
wet amount `m / 100` agrees with the clamped one exactly when `m` is in [0, 100]. -/
theorem C5_in_range_values_used_unclamped (exp : α → α) (pow : α → α → α) (tan : α → α)
    (pi : α) (decibelsToGain : α → α) (p : SanguinovaAudioProcessor α)
    (params : Parameters α) (buffer : List (List α)) (f : SVFFilter α)
    (x stageMult r m : α)
    (hQ : 0.1 ≤ params.INPUT_Q ∧ params.INPUT_Q ≤ 1)
    (hMix : 0 ≤ params.MIX ∧ params.MIX ≤ 100)
    (hDrive : 0 ≤ params.DRIVE ∧ params.DRIVE ≤ 40) :
    processBlock exp pow tan pi decibelsToGain p params buffer =
        processBlock exp pow tan pi decibelsToGain p (clampParameters params) buffer
    ∧ f.setParameters tan pi params.COLOR params.INPUT_Q =
        f.setParameters tan pi (clampParameters params).COLOR (clampParameters params).INPUT_Q
    ∧ SanguinovaEngine.processSample exp pow x params.DRIVE stageMult =
        SanguinovaEngine.processSample exp pow x (clampParameters params).DRIVE stageMult
    ∧ (f.setParameters tan pi params.COLOR r).k = 1 / (0.5 + r * 9.5)
    ∧ ((f.setParameters tan pi params.COLOR r).k =
          (f.setParameters tan pi params.COLOR
            (clampParameters { params with INPUT_Q := r }).INPUT_Q).k ↔
        0.1 ≤ r ∧ r ≤ 1)
    ∧ ((blockLocals decibelsToGain { params with MIX := m }).wetAmount =
          (blockLocals decibelsToGain
            (clampParameters { params with MIX := m })).wetAmount ↔
        0 ≤ m ∧ m ≤ 100) := by
  rw [clampParameters_of_inRange params hQ hMix hDrive]
  refine ⟨rfl, rfl, rfl, rfl, ?_, ?_⟩
  · show (1 : α) / (0.5 + r * 9.5) = 1 / (0.5 + max 0.1 (min r 1.0) * 9.5) ↔ _
    rw [show (1.0 : α) = 1 by norm_num, ← clamp_eq_self_iff (0.1 : α) 1 r (by norm_num)]
    constructor
    · intro h
      rw [one_div, one_div] at h
      have h2 := inv_injective h
      have h3 : r * 9.5 = max 0.1 (min r 1) * 9.5 := by linarith
      exact (mul_right_cancel₀ (by norm_num) h3).symm
    · intro h; rw [h]
  · show m / 100 = max 0 (min m 100) / 100 ↔ _
    rw [← clamp_eq_self_iff (0 : α) 100 m (by norm_num)]
    constructor
    · intro h
      have h2 : m = max 0 (min m 100) := by
        field_simp at h
        exact h
      exact h2.symm
    · intro h; rw [h]

/-- Witness for C5: the default parameter values on a stereo block of silence. -/
theorem C5_in_range_values_used_unclamped_witness :
    processBlock Real.exp Real.rpow Real.tan Real.pi (juceDecibelsToGain Real.rpow)
        (SanguinovaAudioProcessor.new (List.replicate 32 (1 / 32)))
        defaultParameters [[0], [0]] =
      processBlock Real.exp Real.rpow Real.tan Real.pi (juceDecibelsToGain Real.rpow)
        (SanguinovaAudioProcessor.new (List.replicate 32 (1 / 32)))
        (clampParameters defaultParameters) [[0], [0]] :=
  (C5_in_range_values_used_unclamped Real.exp Real.rpow Real.tan Real.pi
    (juceDecibelsToGain Real.rpow) (SanguinovaAudioProcessor.new (List.replicate 32 (1 / 32)))
    defaultParameters [[0], [0]] SVFFilter.new 0 1 (1 / 2) 50
    (by norm_num [defaultParameters]) (by norm_num [defaultParameters])
    (by norm_num [defaultParameters])).1

/-- Claim C6: for every input, drive and stage multiplier, `processSample` returns the
specification's transfer function at `x = input * 10^(driveDb/20) * stageMult`
(`1 - e^(-x)` for `x >= 0`, `x / (1 + x^2)` for `x < 0`; the code's strict test `x > 0`
makes no difference at `x = 0`); the scaled input 1 gives `1 - 1/e` and -1 gives -0.5. -/
theorem C6_processSample_is_spec_transfer (input driveDb stageMult : ℝ) :
    SanguinovaEngine.processSample Real.exp Real.rpow input driveDb stageMult =
        specTransfer Real.exp (input * (10 : ℝ) ^ (driveDb / 20) * stageMult)
      ∧ SanguinovaEngine.processSample Real.exp Real.rpow 1 0 1 = 1 - 1 / Real.exp 1
      ∧ SanguinovaEngine.processSample Real.exp Real.rpow (-1) 0 1 = -0.5 := by
  refine ⟨?_, ?_, ?_⟩
  · rw [processSample_scaled]
    simp only [Real.rpow_eq_pow, specTransfer]
    generalize input * (10 : ℝ) ^ (driveDb / 20) * stageMult = x
    rcases lt_trichotomy x 0 with h | h | h
    · rw [if_neg (not_lt.mpr h.le), if_neg (not_le.mpr h)]
      ring
    · subst h
      simp
    · rw [if_pos h, if_pos h.le]
  · rw [processSample_scaled]
    simp [Real.exp_neg]
  · rw [processSample_scaled]
    norm_num

/-- Claim C7: for two inputs whose scaled values satisfy `0 < x1 < x2` (same drive and stage
multiplier), the waveshaper outputs satisfy `0 < f(x1) < f(x2) <= 1`. -/
theorem C7_positive_branch_increasing_bounded (in1 in2 driveDb stageMult : ℝ)
    (h1 : 0 < in1 * (10 : ℝ) ^ (driveDb / 20) * stageMult)
    (h12 : in1 * (10 : ℝ) ^ (driveDb / 20) * stageMult <
      in2 * (10 : ℝ) ^ (driveDb / 20) * stageMult) :
    0 < SanguinovaEngine.processSample Real.exp Real.rpow in1 driveDb stageMult
      ∧ SanguinovaEngine.processSample Real.exp Real.rpow in1 driveDb stageMult <
        SanguinovaEngine.processSample Real.exp Real.rpow in2 driveDb stageMult
      ∧ SanguinovaEngine.processSample Real.exp Real.rpow in2 driveDb stageMult ≤ 1 := by
  rw [processSample_scaled, processSample_scaled]
  simp only [Real.rpow_eq_pow]
  rw [if_pos h1, if_pos (h1.trans h12)]
  have e1 : Real.exp (-(in1 * (10 : ℝ) ^ (driveDb / 20) * stageMult)) < 1 := by
    have h := Real.exp_lt_exp.mpr
      (show -(in1 * (10 : ℝ) ^ (driveDb / 20) * stageMult) < 0 by linarith)
    rwa [Real.exp_zero] at h
  have e2 : Real.exp (-(in2 * (10 : ℝ) ^ (driveDb / 20) * stageMult)) <
      Real.exp (-(in1 * (10 : ℝ) ^ (driveDb / 20) * stageMult)) := by
    rw [Real.exp_lt_exp]; linarith
  have e3 := Real.exp_pos (-(in2 * (10 : ℝ) ^ (driveDb / 20) * stageMult))
  refine ⟨by linarith, by linarith, by linarith⟩

/-- Witness for C7: inputs 1 and 2 at drive 0 dB and stage multiplier 1. -/
theorem C7_positive_branch_increasing_bounded_witness :
    0 < SanguinovaEngine.processSample Real.exp Real.rpow 1 0 1
      ∧ SanguinovaEngine.processSample Real.exp Real.rpow 1 0 1 <
        SanguinovaEngine.processSample Real.exp Real.rpow 2 0 1
      ∧ SanguinovaEngine.processSample Real.exp Real.rpow 2 0 1 ≤ 1 :=
  C7_positive_branch_increasing_bounded 1 2 0 1 (by norm_num) (by norm_num)

/-- Claim C8: for every input whose scaled value `x` is negative the waveshaper output lies
in `[-0.5, 0)` and equals -0.5 exactly when `x = -1`; the branch is not monotonic: the
output at `x = -1` is below the outputs at `x = -2` and at `x = -0.5`. -/
theorem C8_negative_branch_range (input driveDb stageMult : ℝ)
    (hx : input * (10 : ℝ) ^ (driveDb / 20) * stageMult < 0) :
    (-0.5 ≤ SanguinovaEngine.processSample Real.exp Real.rpow input driveDb stageMult
      ∧ SanguinovaEngine.processSample Real.exp Real.rpow input driveDb stageMult < 0
      ∧ (SanguinovaEngine.processSample Real.exp Real.rpow input driveDb stageMult = -0.5 ↔
          input * (10 : ℝ) ^ (driveDb / 20) * stageMult = -1))
      ∧ SanguinovaEngine.processSample Real.exp Real.rpow (-1) 0 1 <
          SanguinovaEngine.processSample Real.exp Real.rpow (-2) 0 1
      ∧ SanguinovaEngine.processSample Real.exp Real.rpow (-1) 0 1 <
          SanguinovaEngine.processSample Real.exp Real.rpow (-0.5) 0 1 := by
  refine ⟨?_, ?_, ?_⟩
  · rw [processSample_scaled]
    simp only [Real.rpow_eq_pow]
    generalize input * (10 : ℝ) ^ (driveDb / 20) * stageMult = x at hx
    rw [if_neg (not_lt.mpr hx.le)]
    have hpos : 0 < 1 + x * x := by nlinarith [mul_self_nonneg x]
    refine ⟨?_, ?_, ?_⟩
    · rw [le_div_iff₀ hpos]; nlinarith [mul_self_nonneg (x + 1)]
    · exact div_neg_of_neg_of_pos hx hpos
    · rw [div_eq_iff hpos.ne.symm]
      constructor
      · intro h
        have h0 : (x + 1) * (x + 1) = 0 := by nlinarith
        have h1 := mul_self_eq_zero.mp h0
        linarith
      · intro h; subst h; norm_num
  · rw [processSample_scaled, processSample_scaled]; norm_num
  · rw [processSample_scaled, processSample_scaled]; norm_num

/-- Witness for C8: input -1 at drive 0 dB and stage multiplier 1 (scaled value -1). -/
theorem C8_negative_branch_range_witness :
    (-0.5 ≤ SanguinovaEngine.processSample Real.exp Real.rpow (-1) 0 1
      ∧ SanguinovaEngine.processSample Real.exp Real.rpow (-1) 0 1 < 0
      ∧ (SanguinovaEngine.processSample Real.exp Real.rpow (-1) 0 1 = -0.5 ↔
          (-1 : ℝ) * (10 : ℝ) ^ ((0 : ℝ) / 20) * 1 = -1))
      ∧ SanguinovaEngine.processSample Real.exp Real.rpow (-1) 0 1 <
          SanguinovaEngine.processSample Real.exp Real.rpow (-2) 0 1
      ∧ SanguinovaEngine.processSample Real.exp Real.rpow (-1) 0 1 <
          SanguinovaEngine.processSample Real.exp Real.rpow (-0.5) 0 1 :=
  C8_negative_branch_range (-1) 0 1 (by norm_num)

/-- Claim C9: for every drive and stage multiplier (and whatever `exp` and `pow` compute),
`processSample(0, driveDb, stageMult)` is exactly 0. -/
theorem C9_zero_in_zero_out (exp : α → α) (pow : α → α → α) (driveDb stageMult : α) :
    SanguinovaEngine.processSample exp pow 0 driveDb stageMult = 0 := by
  rw [processSample_scaled]
  have hx : (0 : α) * pow 10 (driveDb / 20) * stageMult = 0 := by ring
  rw [hx, if_neg (lt_irrefl (0 : α))]
  norm_num

/-- Claim C10: for every value of the three stage toggles the multiplier that `processBlock`
stores in `totalMultiplier` is the product of the factors (2, 5, 10) of the active stages,
it is the multiplier used for that block, it is one of 1, 2, 5, 10, 20, 50, 100, and it is
exactly 10 for (2x on, 5x on, 10x off). -/
theorem C10_stage_multiplier_product (exp : α → α) (pow : α → α → α) (tan : α → α) (pi : α)
    (decibelsToGain : α → α) (p : SanguinovaAudioProcessor α) (params : Parameters α)
    (buffer : List (List α)) :
    (processBlock exp pow tan pi decibelsToGain p params buffer).1.totalMultiplier =
        ((specStageMultiplier (decide (params.STAGE_2X > 0.5))
          (decide (params.STAGE_5X > 0.5)) (decide (params.STAGE_10X > 0.5)) : Nat) : α)
      ∧ (processBlock exp pow tan pi decibelsToGain p params buffer).1.totalMultiplier =
        (blockLocals decibelsToGain params).stageMult
      ∧ (processBlock exp pow tan pi decibelsToGain p params buffer).1.totalMultiplier ∈
        [(1 : α), 2, 5, 10, 20, 50, 100]
      ∧ (processBlock exp pow tan pi decibelsToGain p
          { params with STAGE_2X := 1, STAGE_5X := 1, STAGE_10X := 0 }
          buffer).1.totalMultiplier = 10 := by
  refine ⟨?_, processBlock_totalMultiplier .., ?_, ?_⟩
  · rw [processBlock_totalMultiplier, blockLocals_stageMult]
    by_cases h2 : params.STAGE_2X > 0.5 <;> by_cases h5 : params.STAGE_5X > 0.5 <;>
      by_cases h10 : params.STAGE_10X > 0.5 <;>
      simp [h2, h5, h10, specStageMultiplier] <;> norm_num
  · rw [processBlock_totalMultiplier, blockLocals_stageMult]
    by_cases h2 : params.STAGE_2X > 0.5 <;> by_cases h5 : params.STAGE_5X > 0.5 <;>
      by_cases h10 : params.STAGE_10X > 0.5 <;>
      simp [h2, h5, h10] <;> norm_num
  · rw [processBlock_totalMultiplier, blockLocals_stageMult]
    norm_num

/-- Claim C11: for every starting cursor position (0 to 255), after 256 consecutive scope
writes of the values `vs` (each one stores at the cursor and advances it by 1 modulo 256),
`getScopeData` returns exactly `vs`, in write order, oldest first. -/
theorem C11_scope_round_trip (p : SanguinovaAudioProcessor α) (vs : List α)
    (hvs : vs.length = 256) (hbuf : p.scopeBuffer.length = 256)
    (hlo : 0 ≤ p.scopeWritePos) (hhi : p.scopeWritePos < 256) :
    getScopeData (vs.foldl scopeStore p) = vs := by
  have hpos : p.scopeWritePos = (((p.scopeWritePos.toNat + 0) % 256 : Nat) : ℤ) := by omega
  obtain ⟨_, h2, h3, _⟩ :=
    scopeStore_foldl p.scopeWritePos.toNat vs p 0 hbuf hpos (by omega)
  apply List.ext_getElem
  · simp [getScopeData, scopeSize, hvs]
  · intro i hi1 hi2
    have hi : i < 256 := by rw [hvs] at hi2; exact hi2
    simp only [getScopeData, List.getElem_map, List.getElem_range, h2, readAt, scopeSize]
    have e : (Int.tmod ((((p.scopeWritePos.toNat + 0 + vs.length) % 256 : Nat) : ℤ) + (i : ℤ))
        256).toNat = (p.scopeWritePos.toNat + 0 + i) % 256 := by
      rw [Int.tmod_eq_emod (by omega) (by norm_num), hvs]
      omega
    rw [e, h3 i (by omega), List.getD_eq_getElem?_getD, List.getElem?_eq_getElem hi2]
    rfl

/-- Witness for C11: the freshly constructed object (cursor 0) and the 256 distinct values
0, 1, ..., 255 over the rationals. -/
theorem C11_scope_round_trip_witness :
    getScopeData ((List.map (fun i : ℕ => (i : ℚ)) (List.range 256)).foldl scopeStore
      (SanguinovaAudioProcessor.new [])) = List.map (fun i : ℕ => (i : ℚ)) (List.range 256) :=
  C11_scope_round_trip (SanguinovaAudioProcessor.new []) (List.map (fun i : ℕ => (i : ℚ)) (List.range 256))
    (by rw [List.length_map, List.length_range])
    (by
      rw [show (SanguinovaAudioProcessor.new ([] : List ℚ)).scopeBuffer = List.replicate 256 0
        from rfl, List.length_replicate])
    (by show (0 : ℤ) ≤ 0; exact le_refl _)
    (by show (0 : ℤ) < 256; norm_num)

/-- Claim C12, evaluated on the code: for every tap table `h` and input `c`, the first
`upsample(c)` after construction returns `4 c h[0]` for every one of the four phases
(the loop pairs history slot `tap` with `getFilterCoeff(tap * 4 + phase) = h[tap]` whatever
the phase), while the phase-decimated convolution of the same history is `4 c h[phase]`.
With the 32 distinct taps `(i + 1) / 528` and `c = 1` the code gives `1/132` four times
where the decimated subsets give `1/132, 1/66, 1/44, 1/33`. -/
theorem C12_phases_share_all_taps (h : List α) (c : α) :
    ((Oversampler.new h).upsample c).2 =
      [c * 4 * readAt h 0, c * 4 * readAt h 0, c * 4 * readAt h 0, c * 4 * readAt h 0]
    ∧ List.map (specPolyphasePhase h ((Oversampler.new h).upsample c).1.upsampleBuffer 0)
        [0, 1, 2, 3] =
      [c * 4 * readAt h 0, c * 4 * readAt h 1, c * 4 * readAt h 2, c * 4 * readAt h 3]
    ∧ ((Oversampler.new
        (List.map (fun (i : Nat) => ((i : ℚ) + 1) / 528) (List.range 32))).upsample 1).2 =
      [1 / 132, 1 / 132, 1 / 132, 1 / 132]
    ∧ List.map
        (specPolyphasePhase (List.map (fun (i : Nat) => ((i : ℚ) + 1) / 528) (List.range 32))
          ((Oversampler.new
            (List.map (fun (i : Nat) => ((i : ℚ) + 1) / 528)
              (List.range 32))).upsample 1).1.upsampleBuffer 0)
        [0, 1, 2, 3] = [1 / 132, 1 / 66, 1 / 44, 1 / 33] := by
  refine ⟨Oversampler.upsample_new_first h c, ?_, by decide!, by decide!⟩
  have hbuf : ((Oversampler.new h).upsample c).1.upsampleBuffer =
      (List.replicate 32 (0 : α)).set 0 (c * 4) := by
    rw [Oversampler.upsample_unrolled _ c 0 (by norm_num) rfl]
    simp [Oversampler.new, Oversampler.reset, Oversampler.FilterOrder]
  have hphase : ∀ (phase : Nat),
      specPolyphasePhase h ((List.replicate 32 (0 : α)).set 0 (c * 4)) 0 phase =
        c * 4 * readAt h (phase : ℤ) := by
    intro phase
    unfold specPolyphasePhase
    rw [List.range_succ_eq_map, List.map_cons, List.sum_cons, List.map_map]
    have hz : ((List.range 7).map
        ((fun (k : Nat) =>
          readAt ((List.replicate 32 (0 : α)).set 0 (c * 4)) (((0 : ℤ) - (k : ℤ)) % 32) *
          readAt h (4 * (k : ℤ) + (phase : ℤ))) ∘ Nat.succ)).sum = 0 := by
      apply List.sum_eq_zero
      intro x hx
      rw [List.mem_map] at hx
      obtain ⟨t, ht, rfl⟩ := hx
      rw [List.mem_range] at ht
      have hidx : (((0 : ℤ) - ((Nat.succ t : Nat) : ℤ)) % 32).toNat = 31 - t := by omega
      simp only [Function.comp, readAt, hidx, getD_set]
      rw [if_neg (by omega), getD_replicate_zero, zero_mul]
    rw [hz, add_zero]
    have h0 : (((0 : ℤ) - ((0 : Nat) : ℤ)) % 32).toNat = 0 := by omega
    simp only [readAt, getD_set, h0]
    rw [if_pos ⟨trivial, by rw [List.length_replicate]; norm_num⟩]
    simp
  rw [hbuf]
  simp only [List.map_cons, List.map_nil]
  have e0 := hphase 0
  have e1 := hphase 1
  have e2 := hphase 2
  have e3 := hphase 3
  simp only [Nat.cast_zero, Nat.cast_one, Nat.cast_ofNat] at e0 e1 e2 e3
  rw [e0, e1, e2, e3]

/-- Claim C13: from a write position `d` in the ring (0 to 127), `downsample(in)` writes
`in[0..3]` into the four consecutive slots `d, d+1, d+2, d+3` modulo 128, moves the write
position on by four, leaves the other members alone, and returns the single sum over
`tap = 0..31` of `h[tap] * ring[(j - 4 tap) mod 128]`, where `ring` is the buffer after the
four writes and `j = (d + 3) mod 128` is the slot that received `in[3]`. -/
theorem C13_downsample_decimation_sum (os : Oversampler α) (in0 in1 in2 in3 : α) (d : Nat)
    (hd : d < 128) (hidx : os.downsampleIndex = (d : ℤ)) :
    (os.downsample [in0, in1, in2, in3]).1.downsampleBuffer =
        (((os.downsampleBuffer.set d in0).set ((d + 1) % 128) in1).set ((d + 2) % 128) in2).set
          ((d + 3) % 128) in3
    ∧ (os.downsample [in0, in1, in2, in3]).1.downsampleIndex = (((d + 4) % 128 : Nat) : ℤ)
    ∧ (os.downsample [in0, in1, in2, in3]).1.filterCoeffs = os.filterCoeffs
    ∧ (os.downsample [in0, in1, in2, in3]).1.upsampleBuffer = os.upsampleBuffer
    ∧ (os.downsample [in0, in1, in2, in3]).1.upsampleIndex = os.upsampleIndex
    ∧ (os.downsample [in0, in1, in2, in3]).2 =
        ((List.range 32).map
          (fun (tap : Nat) => readAt os.filterCoeffs (tap : ℤ) *
            readAt (os.downsample [in0, in1, in2, in3]).1.downsampleBuffer
              (((((d + 3) % 128 : Nat) : ℤ) - 4 * (tap : ℤ)) % 128))).sum := by
  rw [Oversampler.downsample_unrolled_at os in0 in1 in2 in3 d hd hidx]
  refine ⟨rfl, rfl, rfl, rfl, rfl, ?_⟩
  show Oversampler.downsampleTaps _ _ _ 0 = _
  rw [Oversampler.downsampleTaps_sum _ _ _ _ (Nat.mod_lt _ (by norm_num)), zero_add]

/-- Witness for C13: the reset oversampler with 32 taps of 1/32 over the rationals (write
position 0) and the quadruple 1, 2, 3, 4. -/
theorem C13_downsample_decimation_sum_witness :
    ((Oversampler.new (List.replicate 32 ((1 : ℚ) / 32))).downsample
      [1, 2, 3, 4]).1.downsampleIndex = (((0 + 4) % 128 : Nat) : ℤ) :=
  (C13_downsample_decimation_sum (Oversampler.new (List.replicate 32 ((1 : ℚ) / 32)))
    1 2 3 4 0 (by norm_num) rfl).2.1

/-- Claim C14: after construction (real sine, square root and power, and a constant for pi
within [3.14, 3.15], such as the source's literal 3.14159265359), the table computed by
`initializeFilter` has 32 coefficients that sum to 1; the sum of the entries before
normalization is positive, and for any library functions the normalized table sums to 1
exactly when that sum is non-zero. -/
theorem C14_filter_coefficients_sum_to_one (pi : ℝ) (sin sqrt : ℝ → ℝ) (pow : ℝ → ℝ → ℝ)
    (pi2 : ℝ) (h1 : 3.14 ≤ pi) (h2 : pi ≤ 3.15) :
    (Oversampler.construct Real.sin Real.sqrt Real.rpow pi).filterCoeffs.sum = 1
    ∧ (Oversampler.construct Real.sin Real.sqrt Real.rpow pi).filterCoeffs.length = 32
    ∧ 0 < ((List.range 32).map (Oversampler.windowedSinc Real.sin Real.sqrt Real.rpow pi)).sum
    ∧ ((Oversampler.construct sin sqrt pow pi2).filterCoeffs.sum = 1 ↔
        ((List.range 32).map (Oversampler.windowedSinc sin sqrt pow pi2)).sum ≠ 0) := by
  have hpos := Oversampler.windowedSinc_sum_pos pi h1 h2
  refine ⟨?_, ?_, hpos, ?_⟩
  · rw [Oversampler.construct_filterCoeffs, Oversampler.sum_map_div, div_self hpos.ne.symm]
  · rw [Oversampler.construct_filterCoeffs, List.length_map, List.length_map,
      List.length_range]
  · rw [Oversampler.construct_filterCoeffs, Oversampler.sum_map_div]
    constructor
    · intro h hz
      rw [hz, div_zero] at h
      exact zero_ne_one h
    · intro h
      exact div_self h

/-- Witness for C14: the literal 3.14159265359 that the source uses for pi. -/
theorem C14_filter_coefficients_sum_to_one_witness :
    (Oversampler.construct Real.sin Real.sqrt Real.rpow 3.14159265359).filterCoeffs.sum = 1 :=
  (C14_filter_coefficients_sum_to_one 3.14159265359 Real.sin Real.sqrt Real.rpow 3.14159265359
    (by norm_num) (by norm_num)).1

/-- Claim C15: in every state reachable from `reset()` by `upsample`, `downsample` and
`process` calls, `0 <= upsampleIndex < 32` and `0 <= downsampleIndex < 128`; an `upsample`
call advances `upsampleIndex` by 1 modulo 32 and a `downsample` call advances
`downsampleIndex` by 4 modulo 128; and every index computed inside either call lies within
the array it indexes: in `upsample` the write position, the history index of every tap and
the coefficient index `(tap * 4 + phase) / 4`; in `downsample`, at every phase, the write
position, the input index, and at the decimation point the ring index and tap index of
every tap. -/
theorem C15_oversampler_indices_in_bounds (os : Oversampler α) (h : Oversampler.Reachable os) :
    (0 ≤ os.upsampleIndex ∧ os.upsampleIndex < 32
      ∧ 0 ≤ os.downsampleIndex ∧ os.downsampleIndex < 128)
    ∧ (∀ input : α, (os.upsample input).1.upsampleIndex = (os.upsampleIndex + 1) % 32)
    ∧ (∀ input : List α,
        (os.downsample input).1.downsampleIndex = (os.downsampleIndex + 4) % 128)
    ∧ (0 ≤ os.upsampleIndex ∧ os.upsampleIndex < (os.upsampleBuffer.length : ℤ))
    ∧ (∀ tap phase : Nat, tap < 32 → phase < 4 →
        (0 ≤ Int.tmod (os.upsampleIndex - (tap : ℤ) + Oversampler.FilterOrder)
            Oversampler.FilterOrder
          ∧ Int.tmod (os.upsampleIndex - (tap : ℤ) + Oversampler.FilterOrder)
            Oversampler.FilterOrder < (os.upsampleBuffer.length : ℤ))
        ∧ (0 ≤ Int.tdiv ((tap : ℤ) * Oversampler.Factor + (phase : ℤ)) Oversampler.Factor
          ∧ Int.tdiv ((tap : ℤ) * Oversampler.Factor + (phase : ℤ)) Oversampler.Factor <
            (os.filterCoeffs.length : ℤ)))
    ∧ (∀ (input : List α) (phase tap : Nat), input.length = 4 → phase < 4 → tap < 32 →
        (0 ≤ ((List.range phase).foldl (Oversampler.downsampleStep input)
              (os, 0)).1.downsampleIndex
          ∧ ((List.range phase).foldl (Oversampler.downsampleStep input)
              (os, 0)).1.downsampleIndex <
            (((List.range phase).foldl (Oversampler.downsampleStep input)
              (os, 0)).1.downsampleBuffer.length : ℤ))
        ∧ phase < input.length
        ∧ (0 ≤ Int.tmod (((List.range phase).foldl (Oversampler.downsampleStep input)
              (os, 0)).1.downsampleIndex - (tap : ℤ) * Oversampler.Factor +
                Oversampler.FilterOrder * Oversampler.Factor)
              (Oversampler.FilterOrder * Oversampler.Factor)
          ∧ Int.tmod (((List.range phase).foldl (Oversampler.downsampleStep input)
              (os, 0)).1.downsampleIndex - (tap : ℤ) * Oversampler.Factor +
                Oversampler.FilterOrder * Oversampler.Factor)
              (Oversampler.FilterOrder * Oversampler.Factor) <
            (((List.range phase).foldl (Oversampler.downsampleStep input)
              (os, 0)).1.downsampleBuffer.length : ℤ))
        ∧ tap < ((List.range phase).foldl (Oversampler.downsampleStep input)
              (os, 0)).1.filterCoeffs.length) := by
  have hwf := h.wf
  obtain ⟨hc, hu, hd, hui, hdi⟩ := hwf
  refine ⟨⟨hui.1, hui.2, hdi.1, hdi.2⟩,
    fun input => (Oversampler.upsample_wf os input ⟨hc, hu, hd, hui, hdi⟩).2.1,
    fun input => (Oversampler.downsample_wf os input ⟨hc, hu, hd, hui, hdi⟩).2.1,
    ⟨hui.1, by rw [hu]; exact hui.2⟩, ?_, ?_⟩
  · intro tap phase htap hphase
    rw [hu, hc]
    simp only [Oversampler.FilterOrder, Oversampler.Factor]
    rw [Int.tmod_eq_emod (by omega) (by norm_num), Int.tdiv_eq_ediv (by omega) (by norm_num)]
    omega
  · intro input phase tap hin hphase htap
    obtain ⟨h1, h2, h3, _, _⟩ := Oversampler.downsampleStep_foldl input os hd hdi phase 0
    rw [h1, h2, h3, hc, hin]
    simp only [Oversampler.FilterOrder, Oversampler.Factor]
    rw [Int.tmod_eq_emod (by omega) (by norm_num)]
    omega

/-- Witness for C15: the reset state of a freshly constructed oversampler with 32 taps. -/
theorem C15_oversampler_indices_in_bounds_witness :
    0 ≤ (Oversampler.new (List.replicate 32 (0 : ℚ))).reset.upsampleIndex
      ∧ (Oversampler.new (List.replicate 32 (0 : ℚ))).reset.upsampleIndex < 32
      ∧ 0 ≤ (Oversampler.new (List.replicate 32 (0 : ℚ))).reset.downsampleIndex
      ∧ (Oversampler.new (List.replicate 32 (0 : ℚ))).reset.downsampleIndex < 128 :=
  (C15_oversampler_indices_in_bounds _
    (Oversampler.Reachable.reset (Oversampler.new (List.replicate 32 (0 : ℚ)))
      (by simp [Oversampler.new, Oversampler.reset])
      (by simp [Oversampler.new, Oversampler.reset, Oversampler.FilterOrder])
      (by simp [Oversampler.new, Oversampler.reset, Oversampler.FilterOrder,
        Oversampler.Factor]))).1

/-- Claim C16 as stated fails: with resonance 0.1 the quality factor is `0.5 + 0.95 = 1.45`,
so `k = 1 / 1.45`, not `1 / 0.5`. -/
theorem C16_counterexample_resonance_floor :
    (SVFFilter.setParameters Real.tan Real.pi SVFFilter.new 1000 0.1).k = 1 / 1.45
    ∧ (SVFFilter.setParameters Real.tan Real.pi SVFFilter.new 1000 0.1).k ≠ 1 / 0.5 := by
  have h : (SVFFilter.setParameters Real.tan Real.pi SVFFilter.new 1000 0.1).k =
      1 / (0.5 + 0.1 * 9.5) := rfl
  rw [h]
  constructor <;> norm_num

/-- Claim C16, amended: `setParameters` sets `k = 1 / Q` with `Q = 0.5 + 9.5 r` for every
resonance `r`; the image of the control range [0.1, 1.0] is exactly [1.45, 10.0] (a value
`q` is the quality factor of some `r` in [0.1, 1.0] exactly when `1.45 <= q <= 10`), with
resonance 0.1 giving `Q = 1.45` and resonance 1.0 giving `Q = 10`. -/
theorem C16_resonance_maps_onto_1_45_to_10 (tan : α → α) (pi : α) (f : SVFFilter α)
    (frequency q : α) :
    ((1.45 ≤ q ∧ q ≤ 10) ↔
        ∃ r, (0.1 ≤ r ∧ r ≤ 1) ∧ (f.setParameters tan pi frequency r).k = 1 / q)
    ∧ (∀ r, (f.setParameters tan pi frequency r).k = 1 / (0.5 + r * 9.5))
    ∧ (f.setParameters tan pi frequency 0.1).k = 1 / 1.45
    ∧ (f.setParameters tan pi frequency 1.0).k = 1 / 10 := by
  have hk : ∀ r, (f.setParameters tan pi frequency r).k = 1 / (0.5 + r * 9.5) := fun _ => rfl
  refine ⟨?_, hk, ?_, ?_⟩
  · constructor
    · rintro ⟨h1, h2⟩
      refine ⟨(q - 0.5) / 9.5, ⟨?_, ?_⟩, ?_⟩
      · rw [le_div_iff₀ (by norm_num)]; norm_num at h1 ⊢; linarith
      · rw [div_le_iff₀ (by norm_num)]; norm_num at h2 ⊢; linarith
      · rw [hk]; congr 1; field_simp
    · rintro ⟨r, ⟨h1, h2⟩, h⟩
      rw [hk, one_div, one_div] at h
      have hq := inv_injective h
      rw [← hq]
      constructor
      · norm_num at h1 ⊢; linarith
      · norm_num at h2 ⊢; linarith
  · rw [hk]; norm_num
  · rw [hk]; norm_num

/-- Claim C17: for a sample rate `fs` with `0.49 fs >= 20` and every requested frequency,
`setParameters` uses `fc = min(max(f, 20), 0.49 fs)`, which lies in `[20, 0.49 fs]` and
equals `f` exactly when `f` is in that range, and sets `g = tan(pi fc / fs)`, `k = 1 / Q`,
`a1 = 1 / (1 + g (g + k))`, `a2 = g a1`, `a3 = g a2`, leaving the accumulators (and the
sample rate) unchanged. -/
theorem C17_setParameters_coefficients (tan : α → α) (pi : α) (f : SVFFilter α)
    (frequency resonance : α) (hfs : 20 ≤ 0.49 * f.sampleRate) :
    (20 ≤ min (max frequency 20) (0.49 * f.sampleRate)
      ∧ min (max frequency 20) (0.49 * f.sampleRate) ≤ 0.49 * f.sampleRate
      ∧ (min (max frequency 20) (0.49 * f.sampleRate) = frequency ↔
          20 ≤ frequency ∧ frequency ≤ 0.49 * f.sampleRate))
    ∧ (f.setParameters tan pi frequency resonance).g =
        tan (pi * min (max frequency 20) (0.49 * f.sampleRate) / f.sampleRate)
    ∧ (f.setParameters tan pi frequency resonance).k = 1 / (0.5 + resonance * 9.5)
    ∧ (f.setParameters tan pi frequency resonance).a1 =
        1 / (1 + (f.setParameters tan pi frequency resonance).g *
          ((f.setParameters tan pi frequency resonance).g +
            (f.setParameters tan pi frequency resonance).k))
    ∧ (f.setParameters tan pi frequency resonance).a2 =
        (f.setParameters tan pi frequency resonance).g *
          (f.setParameters tan pi frequency resonance).a1
    ∧ (f.setParameters tan pi frequency resonance).a3 =
        (f.setParameters tan pi frequency resonance).g *
          (f.setParameters tan pi frequency resonance).a2
    ∧ (f.setParameters tan pi frequency resonance).ic1eq = f.ic1eq
    ∧ (f.setParameters tan pi frequency resonance).ic2eq = f.ic2eq
    ∧ (f.setParameters tan pi frequency resonance).sampleRate = f.sampleRate := by
  have hclamp : max 20 (min frequency (f.sampleRate * 0.49)) =
      min (max frequency 20) (0.49 * f.sampleRate) := by
    rw [mul_comm f.sampleRate, max_comm frequency]
    rcases le_total frequency (0.49 * f.sampleRate) with h | h
    · rw [min_eq_left h, min_eq_left (max_le hfs h)]
    · rw [min_eq_right h, max_eq_right hfs, min_eq_right (le_trans h (le_max_right _ _))]
  refine ⟨⟨?_, min_le_right _ _, ?_⟩, ?_, rfl, rfl, rfl, rfl, rfl, rfl, rfl⟩
  · exact le_min (le_max_right _ _) hfs
  · rw [← hclamp, mul_comm f.sampleRate, clamp_eq_self_iff _ _ _ hfs]
  · show tan (pi * max 20 (min frequency (f.sampleRate * 0.49)) / f.sampleRate) = _
    rw [hclamp]

/-- Witness for C17: the default-constructed filter (44.1 kHz), cutoff 1 kHz and
resonance 0.5. -/
theorem C17_setParameters_coefficients_witness :
    ((SVFFilter.new : SVFFilter ℝ).setParameters Real.tan Real.pi 1000 (1 / 2)).g =
      Real.tan (Real.pi * min (max 1000 20) (0.49 * (SVFFilter.new : SVFFilter ℝ).sampleRate) /
        (SVFFilter.new : SVFFilter ℝ).sampleRate) :=
  (C17_setParameters_coefficients Real.tan Real.pi (SVFFilter.new : SVFFilter ℝ) 1000 (1 / 2)
    (by norm_num [SVFFilter.new])).2.1

/-- Claim C18: for every state, coefficients, input and mode, `processSample` computes
`v3 = input - ic2eq`, `v1 = a1 ic1eq + a2 v3`, `v2 = ic2eq + a2 ic1eq + a3 v3`, sets
`ic1eq` to `2 v1 - ic1eq` and `ic2eq` to `2 v2 - ic2eq` whatever the mode (nothing else
changes), returns `v2` for LowPass, `input - k v1 - v2` for HighPass and `v1` for BandPass,
and the three outputs satisfy `LowPass + k BandPass + HighPass = input`. -/
theorem C18_processSample_tpt (f : SVFFilter α) (input : α) (mode : Mode) :
    (f.processSample input mode).1 =
        { f with
          ic1eq := 2 * (f.a1 * f.ic1eq + f.a2 * (input - f.ic2eq)) - f.ic1eq
          ic2eq := 2 * (f.ic2eq + f.a2 * f.ic1eq + f.a3 * (input - f.ic2eq)) - f.ic2eq }
    ∧ (f.processSample input Mode.LowPass).2 =
        f.ic2eq + f.a2 * f.ic1eq + f.a3 * (input - f.ic2eq)
    ∧ (f.processSample input Mode.HighPass).2 =
        input - f.k * (f.a1 * f.ic1eq + f.a2 * (input - f.ic2eq)) -
          (f.ic2eq + f.a2 * f.ic1eq + f.a3 * (input - f.ic2eq))
    ∧ (f.processSample input Mode.BandPass).2 = f.a1 * f.ic1eq + f.a2 * (input - f.ic2eq)
    ∧ (f.processSample input Mode.LowPass).2 + f.k * (f.processSample input Mode.BandPass).2 +
        (f.processSample input Mode.HighPass).2 = input := by
  have hLP : (f.processSample input Mode.LowPass).2 =
      f.ic2eq + f.a2 * f.ic1eq + f.a3 * (input - f.ic2eq) := rfl
  have hHP : (f.processSample input Mode.HighPass).2 =
      input - f.k * (f.a1 * f.ic1eq + f.a2 * (input - f.ic2eq)) -
        (f.ic2eq + f.a2 * f.ic1eq + f.a3 * (input - f.ic2eq)) := rfl
  have hBP : (f.processSample input Mode.BandPass).2 =
      f.a1 * f.ic1eq + f.a2 * (input - f.ic2eq) := rfl
  refine ⟨rfl, hLP, hHP, hBP, ?_⟩
  rw [hLP, hHP, hBP]
  ring

/-- Claim C19: for a sample rate `fs` with `0.49 fs >= 20` and every `f`, `setFrequency(f)`
sets `g = 1 - e^(-2 pi fc / fs)` with `fc` the frequency clamped to `[20, 0.49 fs]` (and
changes nothing else), so `0 < g < 1`; every later `processSample(x)` sets `z1` to
`z1 + g (x - z1)` and returns the new `z1`, which lies between the old `z1` and `x`; and
after `n` calls with the constant input `c` the accumulator (the value returned by the last
call) is `c + (z0 - c) (1 - g)^n`. -/
theorem C19_onePole_smoothing (pi : ℝ) (f : OnePole ℝ) (frequency x c : ℝ) (n : Nat)
    (hpi : 0 < pi) (hfs : 20 ≤ 0.49 * f.fs) :
    (20 ≤ max 20 (min frequency (f.fs * 0.49)) ∧ max 20 (min frequency (f.fs * 0.49)) ≤ f.fs * 0.49)
    ∧ (f.setFrequency Real.exp pi frequency).g =
        1 - Real.exp (-(2 * pi * max 20 (min frequency (f.fs * 0.49)) / f.fs))
    ∧ (f.setFrequency Real.exp pi frequency).z1 = f.z1
    ∧ (f.setFrequency Real.exp pi frequency).fs = f.fs
    ∧ (0 < (f.setFrequency Real.exp pi frequency).g
      ∧ (f.setFrequency Real.exp pi frequency).g < 1)
    ∧ (((f.setFrequency Real.exp pi frequency).processSample x).1.z1 =
          f.z1 + (f.setFrequency Real.exp pi frequency).g * (x - f.z1)
      ∧ ((f.setFrequency Real.exp pi frequency).processSample x).2 =
          ((f.setFrequency Real.exp pi frequency).processSample x).1.z1
      ∧ ((f.setFrequency Real.exp pi frequency).processSample x).1.g =
          (f.setFrequency Real.exp pi frequency).g
      ∧ min f.z1 x ≤ ((f.setFrequency Real.exp pi frequency).processSample x).2
      ∧ ((f.setFrequency Real.exp pi frequency).processSample x).2 ≤ max f.z1 x)
    ∧ ((fun o : OnePole ℝ => (o.processSample c).1)^[n]
          (f.setFrequency Real.exp pi frequency)).z1 =
        c + (f.z1 - c) * (1 - (f.setFrequency Real.exp pi frequency).g) ^ n
    ∧ (((fun o : OnePole ℝ => (o.processSample c).1)^[n]
          (f.setFrequency Real.exp pi frequency)).processSample c).2 =
        c + (f.z1 - c) * (1 - (f.setFrequency Real.exp pi frequency).g) ^ (n + 1) := by
  have hfspos : 0 < f.fs := by norm_num at hfs; linarith
  have hfs2 : (20 : ℝ) ≤ f.fs * 0.49 := by rw [mul_comm]; exact hfs
  have hfc1 : 20 ≤ max 20 (min frequency (f.fs * 0.49)) := le_max_left _ _
  have hfc2 : max 20 (min frequency (f.fs * 0.49)) ≤ f.fs * 0.49 :=
    max_le hfs2 (min_le_right _ _)
  have hg : (f.setFrequency Real.exp pi frequency).g =
      1 - Real.exp (-(2 * pi * max 20 (min frequency (f.fs * 0.49)) / f.fs)) := rfl
  have hw : 0 < 2 * pi * max 20 (min frequency (f.fs * 0.49)) / f.fs := by
    apply div_pos _ hfspos
    have : (0 : ℝ) < max 20 (min frequency (f.fs * 0.49)) := by linarith
    positivity
  have he1 : Real.exp (-(2 * pi * max 20 (min frequency (f.fs * 0.49)) / f.fs)) < 1 := by
    have h := Real.exp_lt_exp.mpr (neg_neg_of_pos hw)
    rwa [Real.exp_zero] at h
  have he0 := Real.exp_pos (-(2 * pi * max 20 (min frequency (f.fs * 0.49)) / f.fs))
  have hg0 : 0 < (f.setFrequency Real.exp pi frequency).g := by rw [hg]; linarith
  have hg1 : (f.setFrequency Real.exp pi frequency).g < 1 := by rw [hg]; linarith
  have hout : ((f.setFrequency Real.exp pi frequency).processSample x).2 =
      f.z1 + (f.setFrequency Real.exp pi frequency).g * (x - f.z1) := rfl
  have hit := OnePole.processSample_iterate (f.setFrequency Real.exp pi frequency) c
  refine ⟨⟨hfc1, hfc2⟩, hg, rfl, rfl, ⟨hg0, hg1⟩, ⟨rfl, rfl, rfl, ?_, ?_⟩, (hit n).1, ?_⟩
  · rw [hout]
    rcases le_total f.z1 x with h | h
    · rw [min_eq_left h]; nlinarith
    · rw [min_eq_right h]; nlinarith
  · rw [hout]
    rcases le_total f.z1 x with h | h
    · rw [max_eq_right h]; nlinarith
    · rw [max_eq_left h]; nlinarith
  · have h := (hit (n + 1)).1
    rw [Function.iterate_succ_apply'] at h
    exact h

/-- Witness for C19: the default-constructed filter (44.1 kHz) set to 20 kHz. -/
theorem C19_onePole_smoothing_witness :
    0 < ((OnePole.new : OnePole ℝ).setFrequency Real.exp Real.pi 20000).g
      ∧ ((OnePole.new : OnePole ℝ).setFrequency Real.exp Real.pi 20000).g < 1 :=
  (C19_onePole_smoothing Real.pi (OnePole.new : OnePole ℝ) 20000 1 1 1 Real.pi_pos
    (by norm_num [OnePole.new])).2.2.2.2.1

/-- Claim C20: in every state reached after `prepareToPlay` with a positive sample rate by
processing any sequence of blocks (with any stage toggles and pad settings),
`smoothedPadGain` is strictly positive and within [1/100, 1]; the attack and release
coefficients are strictly between 0 and 1; the target of a block is `1 / stageMult` with the
pad enabled and 1 otherwise; the loop body on channel 0 replaces the smoothed gain `s` by
`s c + t (1 - c)` with `c` the attack coefficient when `t < s` and the release coefficient
otherwise; and that new value stays at the target when `s = t` and otherwise lies strictly
between the target and the old value, so it never jumps to or past the target. -/
theorem C20_pad_gain_bounded_and_gradual (pow : ℝ → ℝ → ℝ) (tan : ℝ → ℝ) (pi : ℝ)
    (decibelsToGain : ℝ → ℝ) (p : SanguinovaAudioProcessor ℝ) (params : Parameters ℝ)
    (maxInputLevel maxOutputLevel input : ℝ)
    (h : PlayReachable Real.exp pow tan pi decibelsToGain p) :
    (0 < p.smoothedPadGain ∧ 1 / 100 ≤ p.smoothedPadGain ∧ p.smoothedPadGain ≤ 1)
    ∧ ((0 < p.padAttackCoeff ∧ p.padAttackCoeff < 1)
      ∧ (0 < p.padReleaseCoeff ∧ p.padReleaseCoeff < 1))
    ∧ (blockLocals decibelsToGain params).targetPadGain =
        (if params.PAD_ENABLED > 0.5 then 1 / (blockLocals decibelsToGain params).stageMult
          else 1)
    ∧ (sampleBody Real.exp pow (blockLocals decibelsToGain params) 0
          { proc := p, maxInputLevel := maxInputLevel, maxOutputLevel := maxOutputLevel }
          input).1.proc.smoothedPadGain =
        p.smoothedPadGain *
            (if (blockLocals decibelsToGain params).targetPadGain < p.smoothedPadGain
              then p.padAttackCoeff else p.padReleaseCoeff) +
          (blockLocals decibelsToGain params).targetPadGain *
            (1 - (if (blockLocals decibelsToGain params).targetPadGain < p.smoothedPadGain
              then p.padAttackCoeff else p.padReleaseCoeff))
    ∧ ((p.smoothedPadGain = (blockLocals decibelsToGain params).targetPadGain
          ∧ (sampleBody Real.exp pow (blockLocals decibelsToGain params) 0
              { proc := p, maxInputLevel := maxInputLevel, maxOutputLevel := maxOutputLevel }
              input).1.proc.smoothedPadGain = (blockLocals decibelsToGain params).targetPadGain)
      ∨ ((blockLocals decibelsToGain params).targetPadGain < p.smoothedPadGain
          ∧ (blockLocals decibelsToGain params).targetPadGain <
            (sampleBody Real.exp pow (blockLocals decibelsToGain params) 0
              { proc := p, maxInputLevel := maxInputLevel, maxOutputLevel := maxOutputLevel }
              input).1.proc.smoothedPadGain
          ∧ (sampleBody Real.exp pow (blockLocals decibelsToGain params) 0
              { proc := p, maxInputLevel := maxInputLevel, maxOutputLevel := maxOutputLevel }
              input).1.proc.smoothedPadGain < p.smoothedPadGain)
      ∨ (p.smoothedPadGain < (blockLocals decibelsToGain params).targetPadGain
          ∧ p.smoothedPadGain <
            (sampleBody Real.exp pow (blockLocals decibelsToGain params) 0
              { proc := p, maxInputLevel := maxInputLevel, maxOutputLevel := maxOutputLevel }
              input).1.proc.smoothedPadGain
          ∧ (sampleBody Real.exp pow (blockLocals decibelsToGain params) 0
              { proc := p, maxInputLevel := maxInputLevel, maxOutputLevel := maxOutputLevel }
              input).1.proc.smoothedPadGain <
            (blockLocals decibelsToGain params).targetPadGain)) := by
  obtain ⟨ha, hr, hs⟩ := h.padInvariant
  refine ⟨⟨by linarith [hs.1], hs.1, hs.2⟩, ⟨ha, hr⟩, ?_, rfl, ?_⟩
  · show (if decide (params.PAD_ENABLED > 0.5) = true then _ else _) = _
    by_cases hp : params.PAD_ENABLED > 0.5
    · simp only [hp, decide_True, if_true]
      rfl
    · simp only [hp, decide_False, if_false]
      rfl
  · exact padStep_between _ _ _ _ ha hr

/-- Witness for C20: the freshly constructed object prepared at 44.1 kHz and the default
parameter values. -/
theorem C20_pad_gain_bounded_and_gradual_witness :
    0 < (prepareToPlay Real.exp (SanguinovaAudioProcessor.new (List.replicate 32 (1 / 32)))
        44100 512).smoothedPadGain
      ∧ 1 / 100 ≤ (prepareToPlay Real.exp
        (SanguinovaAudioProcessor.new (List.replicate 32 (1 / 32))) 44100 512).smoothedPadGain
      ∧ (prepareToPlay Real.exp (SanguinovaAudioProcessor.new (List.replicate 32 (1 / 32)))
        44100 512).smoothedPadGain ≤ 1 :=
  (C20_pad_gain_bounded_and_gradual Real.rpow Real.tan Real.pi (juceDecibelsToGain Real.rpow)
    _ defaultParameters 0 0 0
    (PlayReachable.prepared (SanguinovaAudioProcessor.new (List.replicate 32 (1 / 32)))
      44100 512 (by norm_num))).1

/-- Claim C21: in every object reached from construction or from `prepare` with a positive
sample rate by any sequence of method calls (real exponential), `getGainReduction`
computes the raw ratio `clamp(inputEnvelope / outputEnvelope, 0.1, 5)` when
`outputEnvelope > 1e-6`, the only case in which it divides, and exactly 1 otherwise; it
returns `smoothedGR + grSmoothCoeff * (raw - smoothedGR)`, which it also stores, and the
returned value lies in `[0.1, 5]`. -/
theorem C21_gain_reduction_bounded (a : AutoGain ℝ) (h : AutoGain.Reachable Real.exp a) :
    (a.getGainReduction).1.gainReduction =
        (if a.outputEnvelope > 1e-6 then max 0.1 (min (a.inputEnvelope / a.outputEnvelope) 5)
          else 1)
    ∧ (a.getGainReduction).2 =
        a.smoothedGR + a.grSmoothCoeff * ((a.getGainReduction).1.gainReduction - a.smoothedGR)
    ∧ (a.getGainReduction).1.smoothedGR = (a.getGainReduction).2
    ∧ 0.1 ≤ (a.getGainReduction).2 ∧ (a.getGainReduction).2 ≤ 5 := by
  refine ⟨?_, rfl, rfl, AutoGain.smoothed_step a h.smoothed_bounds.1 h.smoothed_bounds.2⟩
  show (if a.outputEnvelope > 1e-6 then
      stdClamp (a.inputEnvelope / a.outputEnvelope) 0.1 5 else 1) = _
  split_ifs
  · exact (stdClamp_eq _ _ _ (by norm_num)).1
  · rfl

/-- Witness for C21: the object prepared at 48 kHz after one output sample of 1/2 and one
input sample of 3. -/
theorem C21_gain_reduction_bounded_witness :
    0.1 ≤ (((((AutoGain.new Real.exp).prepare Real.exp 48000).updateOutputEnvelope
        (1 / 2)).updateInputEnvelope 3).getGainReduction).2
    ∧ (((((AutoGain.new Real.exp).prepare Real.exp 48000).updateOutputEnvelope
        (1 / 2)).updateInputEnvelope 3).getGainReduction).2 ≤ 5 :=
  (C21_gain_reduction_bounded _
    (AutoGain.Reachable.updateInputEnvelope _ 3
      (AutoGain.Reachable.updateOutputEnvelope _ (1 / 2)
        (AutoGain.Reachable.prepare _ 48000 (by norm_num))))).2.2.2

/-- Claim C22: for every sample of every processed channel (the first two channels of the
buffer), `processBlock` writes
`wet * (postFiltered * smoothedPadGain * outputGainLinear) + (1 - wet) * original`, where
`wet = MIX / 100`, `original` is the sample read from the buffer, `postFiltered` is the
pre-filter, oversampled waveshaper and post-filter applied to it in the state the loop has
reached, `smoothedPadGain` is the member after the pad update of that iteration and
`outputGainLinear = decibelsToGain(OUTPUT_GAIN)`; with `MIX = 0` the written sample equals
the sample read. -/
theorem C22_wet_dry_mix (exp : α → α) (pow : α → α → α) (tan : α → α) (pi : α)
    (decibelsToGain : α → α) (p : SanguinovaAudioProcessor α) (params : Parameters α)
    (buffer : List (List α)) (channel sample : Nat)
    (hc : channel < min buffer.length 2) (hs : sample < (buffer.getD channel []).length) :
    ((processBlock exp pow tan pi decibelsToGain p params buffer).2.getD channel []).getD
        sample 0 =
      params.MIX / 100 *
        (postFiltered exp pow (blockLocals decibelsToGain params) channel
            (loopStateAt exp pow tan pi decibelsToGain p params buffer channel sample).proc
            ((buffer.getD channel []).getD sample 0) *
          padUpdate
            (loopStateAt exp pow tan pi decibelsToGain p params buffer channel sample).proc
            (blockLocals decibelsToGain params).targetPadGain channel *
          decibelsToGain params.OUTPUT_GAIN) +
        (1 - params.MIX / 100) * (buffer.getD channel []).getD sample 0
    ∧ (params.MIX = 0 →
      ((processBlock exp pow tan pi decibelsToGain p params buffer).2.getD channel []).getD
        sample 0 = (buffer.getD channel []).getD sample 0) := by
  have h := processBlock_getD exp pow tan pi decibelsToGain p params buffer channel sample hc hs
  have hf : ((processBlock exp pow tan pi decibelsToGain p params buffer).2.getD channel
      []).getD sample 0 =
      params.MIX / 100 *
        (postFiltered exp pow (blockLocals decibelsToGain params) channel
            (loopStateAt exp pow tan pi decibelsToGain p params buffer channel sample).proc
            ((buffer.getD channel []).getD sample 0) *
          padUpdate
            (loopStateAt exp pow tan pi decibelsToGain p params buffer channel sample).proc
            (blockLocals decibelsToGain params).targetPadGain channel *
          decibelsToGain params.OUTPUT_GAIN) +
        (1 - params.MIX / 100) * (buffer.getD channel []).getD sample 0 := by
    rw [h]
    show postFiltered exp pow (blockLocals decibelsToGain params) channel _ _ *
      padUpdate _ _ channel * decibelsToGain params.OUTPUT_GAIN * (params.MIX / 100) +
      _ * (1 - params.MIX / 100) = _
    ring
  refine ⟨hf, ?_⟩
  intro hmix
  rw [hf, hmix]
  simp

/-- Witness for C22: the freshly constructed processor over the rationals, the default
parameters with `MIX = 0`, a one-channel block of two samples, and its second sample. -/
theorem C22_wet_dry_mix_witness :
    ((processBlock (fun x => x) (fun x _ => x) (fun x => x) 3 (fun x => x)
      (SanguinovaAudioProcessor.new ([] : List ℚ))
      (Parameters.mk (1 / 2) 1000 2 0 20000 0 0 0 0 0 1) [[2, 3]]).2.getD 0 []).getD 1 0 = 3 :=
  (C22_wet_dry_mix (fun x => x) (fun x _ => x) (fun x => x) 3 (fun x => x)
    (SanguinovaAudioProcessor.new ([] : List ℚ))
    (Parameters.mk (1 / 2) 1000 2 0 20000 0 0 0 0 0 1) [[2, 3]] 0 1
    (by decide) (by decide)).2 rfl

/-- Claim C23: after `processBlock` the stored input level is the maximum of `|x|` over the
samples read from the processed channels (the first two of the buffer) of that block, the
stored output level is the maximum of `|y|` over the samples written to them in that
block, and the stored pad-gain meter is `smoothedPadGain` as the block leaves it.  Neither
level depends on what was stored before the block, and both are 0 for a block without
samples. -/
theorem C23_block_metering (exp : α → α) (pow : α → α → α) (tan : α → α) (pi : α)
    (decibelsToGain : α → α) (p : SanguinovaAudioProcessor α) (params : Parameters α)
    (buffer : List (List α)) :
    (processBlock exp pow tan pi decibelsToGain p params buffer).1.currentInputLevel =
        peakOf ((buffer.take 2).flatten)
    ∧ (processBlock exp pow tan pi decibelsToGain p params buffer).1.currentOutputLevel =
        peakOf (((processBlock exp pow tan pi decibelsToGain p params buffer).2.take 2).flatten)
    ∧ (processBlock exp pow tan pi decibelsToGain p params buffer).1.currentGR =
        (processBlock exp pow tan pi decibelsToGain p params buffer).1.smoothedPadGain
    ∧ (∀ n : Nat,
      (processBlock exp pow tan pi decibelsToGain p params
          (List.replicate n [])).1.currentInputLevel = 0
      ∧ (processBlock exp pow tan pi decibelsToGain p params
          (List.replicate n [])).1.currentOutputLevel = 0) := by
  have key : ∀ (b : List (List α)),
      (processBlock exp pow tan pi decibelsToGain p params b).1.currentInputLevel =
        peakOf ((b.take 2).flatten)
      ∧ (processBlock exp pow tan pi decibelsToGain p params b).1.currentOutputLevel =
        peakOf (((processBlock exp pow tan pi decibelsToGain p params b).2.take 2).flatten) := by
    intro b
    obtain ⟨h1, h2⟩ := channelLoop_peaks exp pow tan pi (blockLocals decibelsToGain params)
      (min b.length 2) b 0
      { proc := { p with totalMultiplier := (blockLocals decibelsToGain params).stageMult }
        maxInputLevel := 0, maxOutputLevel := 0 }
    have hlen := channelLoop_length
      (processChannel exp pow tan pi (blockLocals decibelsToGain params)) (min b.length 2) b 0
      { proc := { p with totalMultiplier := (blockLocals decibelsToGain params).stageMult }
        maxInputLevel := 0, maxOutputLevel := 0 }
    rw [Nat.sub_zero, take_min_length b _ rfl] at h1
    rw [Nat.sub_zero, take_min_length _ _ hlen] at h2
    exact ⟨h1, h2⟩
  refine ⟨(key buffer).1, (key buffer).2, rfl, ?_⟩
  intro n
  have hb : ∀ (b : List (List α)), (∀ ch ∈ b, ch = []) → b.flatten = [] := by
    intro b
    induction b with
    | nil => intro _; rfl
    | cons x rest ih =>
      intro h
      rw [List.flatten_cons, h x (List.mem_cons_self _ _),
        ih (fun ch hch => h ch (List.mem_cons_of_mem _ hch))]
      rfl
  have hin : ((List.replicate n ([] : List α)).take 2).flatten = [] :=
    hb _ (fun ch hch => List.eq_of_mem_replicate (List.mem_of_mem_take hch))
  have hout : (((processBlock exp pow tan pi decibelsToGain p params
      (List.replicate n [])).2.take 2).flatten) = [] := by
    apply hb
    intro ch hch
    exact channelLoop_no_samples exp pow tan pi (blockLocals decibelsToGain params) _ _ 0 _
      (fun c hc => List.eq_of_mem_replicate hc) ch (List.mem_of_mem_take hch)
  rw [(key _).1, (key _).2, hin, hout]
  exact ⟨rfl, rfl⟩

/-- Claim C24: after any sequence of host calls on the freshly constructed processor, with
`T` channel-0 samples processed in all (the samples handed to channel 0 by its
`processBlock` calls), the decimation counter stands at `T mod 8` (it runs on across
blocks), the oscilloscope buffer and cursor are those left by exactly `floor(T / 8)`
stores, the one numbered `k` (from 0) storing the mixed output of channel-0 sample
`8 (k + 1)` (counting from 1); the cursor, advanced by 1 modulo 256 per store, stands at
`floor(T / 8) mod 256`, store `k` of the last 256 sits in slot `k mod 256`, and the loop
body of a channel other than 0 leaves buffer, cursor and counter as they are. -/
theorem C24_scope_decimation (exp : α → α) (pow : α → α → α) (tan : α → α) (pi : α)
    (decibelsToGain : α → α) (filterCoeffs : List α) (calls : List (HostCall α)) :
    (hostRun exp pow tan pi decibelsToGain (SanguinovaAudioProcessor.new filterCoeffs)
        calls).2.length = (channel0Samples calls).length
    ∧ (hostRun exp pow tan pi decibelsToGain (SanguinovaAudioProcessor.new filterCoeffs)
        calls).1.scopeDecimation = (((channel0Samples calls).length % 8 : Nat) : Int)
    ∧ (everyEighth (hostRun exp pow tan pi decibelsToGain
        (SanguinovaAudioProcessor.new filterCoeffs) calls).2).length =
          (channel0Samples calls).length / 8
    ∧ (hostRun exp pow tan pi decibelsToGain (SanguinovaAudioProcessor.new filterCoeffs)
        calls).1.scopeBuffer =
      ((everyEighth (hostRun exp pow tan pi decibelsToGain
          (SanguinovaAudioProcessor.new filterCoeffs) calls).2).foldl scopeStore
        (SanguinovaAudioProcessor.new filterCoeffs)).scopeBuffer
    ∧ (hostRun exp pow tan pi decibelsToGain (SanguinovaAudioProcessor.new filterCoeffs)
        calls).1.scopeWritePos = ((((channel0Samples calls).length / 8) % 256 : Nat) : Int)
    ∧ (∀ k, k < (channel0Samples calls).length / 8 →
        (channel0Samples calls).length / 8 ≤ k + 256 →
        (hostRun exp pow tan pi decibelsToGain (SanguinovaAudioProcessor.new filterCoeffs)
          calls).1.scopeBuffer.getD (k % 256) 0 =
        (hostRun exp pow tan pi decibelsToGain (SanguinovaAudioProcessor.new filterCoeffs)
          calls).2.getD (8 * k + 7) 0)
    ∧ (∀ (loc : BlockLocals α) (channel : Nat) (st : LoopState α) (input : α), channel ≠ 0 →
        (sampleBody exp pow loc channel st input).1.proc.scopeBuffer = st.proc.scopeBuffer
        ∧ (sampleBody exp pow loc channel st input).1.proc.scopeWritePos =
            st.proc.scopeWritePos
        ∧ (sampleBody exp pow loc channel st input).1.proc.scopeDecimation =
            st.proc.scopeDecimation) := by
  obtain ⟨⟨_, h2, h3, h4⟩, hlen⟩ :=
    hostRun_scopeAfter exp pow tan pi decibelsToGain (SanguinovaAudioProcessor.new filterCoeffs)
      calls (SanguinovaAudioProcessor.new filterCoeffs) [] (scopeAfter_nil _ rfl rfl)
  rw [List.nil_append] at h2 h3 h4
  have hcount : (everyEighth (hostRun exp pow tan pi decibelsToGain
      (SanguinovaAudioProcessor.new filterCoeffs) calls).2).length =
      (channel0Samples calls).length / 8 := by
    unfold everyEighth
    rw [List.length_map, List.length_range, hlen]
  obtain ⟨_, r2, r3⟩ := scopeStore_run (SanguinovaAudioProcessor.new filterCoeffs)
    (by show (List.replicate 256 (0 : α)).length = 256; rw [List.length_replicate]) rfl
    (everyEighth (hostRun exp pow tan pi decibelsToGain
      (SanguinovaAudioProcessor.new filterCoeffs) calls).2)
  rw [hcount] at r2 r3
  refine ⟨hlen, ?_, hcount, h3, ?_, ?_, ?_⟩
  · rw [h2, hlen]
  · rw [h4, r2]
  · intro k hk hk2
    rw [h3, r3 k hk hk2]
    unfold everyEighth
    rw [List.getD_eq_getElem?_getD, List.getElem?_map, List.getElem?_range (by rw [hlen]; exact hk)]
    rfl
  · intro loc channel st input hch
    obtain ⟨e1, e2, e3, _⟩ := sampleBody_scope_other exp pow loc channel hch st input
    exact ⟨e1, e2, e3⟩

/-- Counterexample to claim C25: the processor constructed with the Kaiser-windowed sinc
taps, prepared at 48 kHz, with drive 0 dB, all stages off, mix 100 %, pad disabled, output
trim 0 dB and the post-filter at 20 kHz, processes 10 ms of a 1 kHz sine of amplitude 32.
At sample 444, a positive peak of the sine well after the filter delay, the input is 32
and the output is at most 20 in magnitude: they differ by at least 12. -/
theorem C25_counterexample_sine_not_reproduced :
    12 ≤ |((processBlock Real.exp Real.rpow Real.tan Real.pi (juceDecibelsToGain Real.rpow)
        (prepareToPlay Real.exp
          (SanguinovaAudioProcessor.new
            (Oversampler.construct Real.sin Real.sqrt Real.rpow Real.pi).filterCoeffs)
          48000 480)
        unityParameters [sineWave Real.sin Real.pi 32 1000 48000 480]).2.getD 0 []).getD 444 0
      - (sineWave Real.sin Real.pi 32 1000 48000 480).getD 444 0| := by
  have hpi1 : (3.14 : ℝ) ≤ Real.pi := le_of_lt Real.pi_gt_d2
  have hpi2 : Real.pi ≤ (3.15 : ℝ) := le_of_lt Real.pi_lt_d2
  have hlen : (sineWave Real.sin Real.pi 32 1000 48000 480).length = 480 := by
    unfold sineWave
    rw [List.length_map, List.length_range]
  have hin : (sineWave Real.sin Real.pi 32 1000 48000 480).getD 444 0 = 32 := by
    unfold sineWave
    rw [List.getD_eq_getElem?_getD, List.getElem?_map, List.getElem?_range (by norm_num)]
    show 32 * Real.sin (2 * Real.pi * 1000 * ((444 : ℕ) : ℝ) / 48000) = 32
    have harg : 2 * Real.pi * 1000 * ((444 : ℕ) : ℝ) / 48000 =
        Real.pi / 2 + ((9 : ℕ) : ℝ) * (2 * Real.pi) := by
      push_cast
      ring
    rw [harg, Real.sin_add_nat_mul_two_pi, Real.sin_pi_div_two, mul_one]
  have key : ∀ xs : List ℝ, 444 < xs.length →
      |((processBlock Real.exp Real.rpow Real.tan Real.pi (juceDecibelsToGain Real.rpow)
        (prepareToPlay Real.exp
          (SanguinovaAudioProcessor.new
            (Oversampler.construct Real.sin Real.sqrt Real.rpow Real.pi).filterCoeffs)
          48000 480)
        unityParameters [xs]).2.getD 0 []).getD 444 0| ≤
      Oversampler.tapSum
        (Oversampler.construct Real.sin Real.sqrt Real.rpow Real.pi).filterCoeffs := by
    intro xs hxs
    exact (processBlock_unity Real.rpow Real.tan Real.pi Real.pi_pos
      (Oversampler.construct Real.sin Real.sqrt Real.rpow Real.pi).filterCoeffs
      (prepareToPlay Real.exp
        (SanguinovaAudioProcessor.new
          (Oversampler.construct Real.sin Real.sqrt Real.rpow Real.pi).filterCoeffs) 48000 480)
      (prepareToPlay_unity _ 48000 480 (by norm_num))
      unityParameters rfl (by show ¬ ((0 : ℝ) > 0.5); norm_num) rfl
      [xs] 0 444 (by simp) hxs).2
  have hout := key (sineWave Real.sin Real.pi 32 1000 48000 480) (by rw [hlen]; norm_num)
  have h20 := Oversampler.construct_tapSum_le Real.pi hpi1 hpi2
  rw [hin]
  have hb := abs_le.mp (hout.trans h20)
  rw [le_abs]
  right
  linarith [hb.2]

/-- Claim C25, amended: from the freshly constructed and prepared processor (positive
sample rate), with mix 100 %, pad disabled and output trim 0 dB, whatever the input and
the other settings (so also with drive 0 dB, all stages off and the post-filter at its
maximum), the pad, trim and mix stages are transparent: every sample written by
`processBlock` is exactly the post-filtered sample of the chain pre-filter, oversampled
waveshaper, post-filter.  The waveshaper stays in the path at 0 dB drive, so every
written sample is at most the sum of the absolute values of the 32 oversampler taps in
magnitude, which is at most 20 for the constructed filter, whatever the input
amplitude. -/
theorem C25_unity_settings_transparent_gain_bounded_output (sampleRate : ℝ)
    (samplesPerBlock : Int) (params : Parameters ℝ) (buffer : List (List ℝ))
    (channel sample : Nat) (hfs : 0 < sampleRate) (hmix : params.MIX = 100)
    (hpad : ¬ params.PAD_ENABLED > 0.5) (hgain : params.OUTPUT_GAIN = 0)
    (hc : channel < min buffer.length 2) (hs : sample < (buffer.getD channel []).length) :
    ((processBlock Real.exp Real.rpow Real.tan Real.pi (juceDecibelsToGain Real.rpow)
        (prepareToPlay Real.exp
          (SanguinovaAudioProcessor.new
            (Oversampler.construct Real.sin Real.sqrt Real.rpow Real.pi).filterCoeffs)
          sampleRate samplesPerBlock)
        params buffer).2.getD channel []).getD sample 0 =
      postFiltered Real.exp Real.rpow (blockLocals (juceDecibelsToGain Real.rpow) params)
        channel
        (loopStateAt Real.exp Real.rpow Real.tan Real.pi (juceDecibelsToGain Real.rpow)
          (prepareToPlay Real.exp
            (SanguinovaAudioProcessor.new
              (Oversampler.construct Real.sin Real.sqrt Real.rpow Real.pi).filterCoeffs)
            sampleRate samplesPerBlock)
          params buffer channel sample).proc ((buffer.getD channel []).getD sample 0)
    ∧ |((processBlock Real.exp Real.rpow Real.tan Real.pi (juceDecibelsToGain Real.rpow)
        (prepareToPlay Real.exp
          (SanguinovaAudioProcessor.new
            (Oversampler.construct Real.sin Real.sqrt Real.rpow Real.pi).filterCoeffs)
          sampleRate samplesPerBlock)
        params buffer).2.getD channel []).getD sample 0| ≤
      Oversampler.tapSum
        (Oversampler.construct Real.sin Real.sqrt Real.rpow Real.pi).filterCoeffs
    ∧ Oversampler.tapSum
        (Oversampler.construct Real.sin Real.sqrt Real.rpow Real.pi).filterCoeffs ≤ 20 := by
  obtain ⟨h1, h2⟩ := processBlock_unity Real.rpow Real.tan Real.pi Real.pi_pos
    (Oversampler.construct Real.sin Real.sqrt Real.rpow Real.pi).filterCoeffs
    (prepareToPlay Real.exp
      (SanguinovaAudioProcessor.new
        (Oversampler.construct Real.sin Real.sqrt Real.rpow Real.pi).filterCoeffs)
      sampleRate samplesPerBlock)
    (prepareToPlay_unity _ sampleRate samplesPerBlock hfs)
    params hmix hpad hgain buffer channel sample hc hs
  exact ⟨h1, h2, Oversampler.construct_tapSum_le Real.pi (le_of_lt Real.pi_gt_d2)
    (le_of_lt Real.pi_lt_d2)⟩

/-- Witness for the amended C25: the unity settings at 48 kHz, a one-channel block of two
samples, and its second sample. -/
theorem C25_unity_settings_transparent_gain_bounded_output_witness :
    |((processBlock Real.exp Real.rpow Real.tan Real.pi (juceDecibelsToGain Real.rpow)
        (prepareToPlay Real.exp
          (SanguinovaAudioProcessor.new
            (Oversampler.construct Real.sin Real.sqrt Real.rpow Real.pi).filterCoeffs)
          48000 512)
        unityParameters [[1, 2]]).2.getD 0 []).getD 1 0| ≤
      Oversampler.tapSum
        (Oversampler.construct Real.sin Real.sqrt Real.rpow Real.pi).filterCoeffs :=
  (C25_unity_settings_transparent_gain_bounded_output 48000 512 unityParameters [[1, 2]] 0 1
    (by norm_num) rfl (by show ¬ ((0 : ℝ) > 0.5); norm_num) rfl (by decide) (by decide)).2.1

/-- Claim C26: for every oversampler object (write position within the 32-entry history, as
the class keeps it) and every input, `getFilterCoeff(tap * 4 + phase)` is `filterCoeffs[tap]`
for every tap 0..31 and phase 0..3, the guard `coeffIdx < 128` holds for all of them, and the
four values returned by `upsample` are one and the same number: the sum over `tap = 0..31`
of `filterCoeffs[tap] * history[(upsampleIndex - tap) mod 32]`, where `history` is the
buffer holding the new input (times 4) at the write position. -/
theorem C26_upsample_phases_equal (os : Oversampler α) (input : α)
    (hlo : 0 ≤ os.upsampleIndex) (hhi : os.upsampleIndex < 32) :
    (∀ (tap phase : Nat), tap < 32 → phase < 4 →
      (tap : ℤ) * Oversampler.Factor + (phase : ℤ) < Oversampler.FilterOrder * Oversampler.Factor
      ∧ os.getFilterCoeff ((tap : ℤ) * Oversampler.Factor + (phase : ℤ)) =
        readAt os.filterCoeffs (tap : ℤ))
    ∧ (os.upsample input).2 =
      List.replicate 4
        ((List.range 32).map
          (fun (tap : Nat) => readAt os.filterCoeffs (tap : ℤ) *
            readAt (os.upsample input).1.upsampleBuffer
              ((os.upsampleIndex - (tap : ℤ)) % 32))).sum := by
  constructor
  · intro tap phase ht hp
    have h1 : Int.tdiv ((tap : ℤ) * 4 + (phase : ℤ)) 4 = (tap : ℤ) := by
      rw [Int.tdiv_eq_ediv (by omega) (by norm_num)]
      omega
    refine ⟨by simp only [Oversampler.Factor, Oversampler.FilterOrder]; omega, ?_⟩
    simp only [Oversampler.getFilterCoeff, Oversampler.Factor, Oversampler.FilterOrder, h1]
    rw [if_pos (by omega)]
  · obtain ⟨r, hr⟩ : ∃ r : Nat, os.upsampleIndex = (r : ℤ) := ⟨os.upsampleIndex.toNat, by omega⟩
    have hr32 : r < 32 := by omega
    rw [Oversampler.upsample_unrolled os input r hr32 hr]
    simp only [Oversampler.upsamplePhase_sum os _ _ r (by norm_num : (0:ℕ) < 4) hr32 hr,
      Oversampler.upsamplePhase_sum os _ _ r (by norm_num : (1:ℕ) < 4) hr32 hr,
      Oversampler.upsamplePhase_sum os _ _ r (by norm_num : (2:ℕ) < 4) hr32 hr,
      Oversampler.upsamplePhase_sum os _ _ r (by norm_num : (3:ℕ) < 4) hr32 hr, hr]
    have e : ∀ (b : List α), ((List.range 32).map
        (fun (tap : Nat) => readAt b (((r : ℤ) - (tap : ℤ)) % 32) *
          readAt os.filterCoeffs (tap : ℤ))).sum =
        ((List.range 32).map
        (fun (tap : Nat) => readAt os.filterCoeffs (tap : ℤ) *
          readAt b (((r : ℤ) - (tap : ℤ)) % 32))).sum := by
      intro b
      congr 1
      apply List.map_congr_left
      intro a _
      exact mul_comm _ _
    rw [e]
    rfl

/-- Witness for C26: the freshly constructed oversampler with the 32 distinct taps
`(i + 1) / 528` over the rationals and the input 1. -/
theorem C26_upsample_phases_equal_witness :
    ((Oversampler.new (List.map (fun (i : Nat) => ((i : ℚ) + 1) / 528)
      (List.range 32))).upsample 1).2.length = 4 := by
  rw [(C26_upsample_phases_equal (Oversampler.new (List.map (fun (i : Nat) => ((i : ℚ) + 1) / 528)
      (List.range 32))) 1 (le_refl _) (by show (0 : ℤ) < 32; norm_num)).2]
  rfl

/-- Claim C27: in every state reachable from `reset()` the decimation write position is a
multiple of 4 (below 128), and the values returned by any sequence of `downsample` calls
from that state do not depend on elements 0, 1 and 2 of the quadruples: two sequences of
quadruples that agree on element 3, call by call, return identical outputs. -/
theorem C27_downsample_ignores_elements_0_1_2 (os : Oversampler α)
    (h : Oversampler.Reachable os) (qs qs' : List (List α))
    (hq : List.Forall₂ (fun (q q' : List α) => q.getD 3 0 = q'.getD 3 0) qs qs') :
    (∃ r : Nat, r < 32 ∧ os.downsampleIndex = ((4 * r : Nat) : ℤ))
    ∧ Oversampler.downsampleRun os qs = Oversampler.downsampleRun os qs' := by
  refine ⟨h.downsampleIndex_mul4, ?_⟩
  apply Oversampler.downsampleRun_sameDecimated qs qs' hq
  obtain ⟨hc, _, hd, _, _⟩ := h.wf
  obtain ⟨r, hr, hi⟩ := h.downsampleIndex_mul4
  exact ⟨rfl, hd, hd, ⟨r, hr, hi, hi⟩, fun _ _ => rfl⟩

/-- Witness for C27: the reset oversampler with the 32 distinct taps `(i + 1) / 528` over
the rationals, after one `process` call, and two runs of two quadruples that differ in
elements 0, 1 and 2 only. -/
theorem C27_downsample_ignores_elements_0_1_2_witness :
    Oversampler.downsampleRun
      ((Oversampler.new (List.map (fun (i : Nat) => ((i : ℚ) + 1) / 528)
        (List.range 32))).process 1 id).1 [[1, 2, 3, 4], [5, 6, 7, 8]] =
    Oversampler.downsampleRun
      ((Oversampler.new (List.map (fun (i : Nat) => ((i : ℚ) + 1) / 528)
        (List.range 32))).process 1 id).1 [[9, 10, 11, 4], [-1, -2, -3, 8]] :=
  (C27_downsample_ignores_elements_0_1_2 _
    (Oversampler.Reachable.process _ 1 id
      (Oversampler.Reachable.reset _ (by simp) (by simp [Oversampler.FilterOrder])
        (by simp [Oversampler.FilterOrder, Oversampler.Factor])))
    [[1, 2, 3, 4], [5, 6, 7, 8]] [[9, 10, 11, 4], [-1, -2, -3, 8]]
    (List.Forall₂.cons rfl (List.Forall₂.cons rfl List.Forall₂.nil))).2

/-- Claim C28: silence in gives silence out.  From a state in which every filter
accumulator and every oversampler buffer is zero (as after construction and after a reset
of the DSP members), for every parameter snapshot and every block size, `processBlock` on
an all-zero buffer writes back an all-zero buffer, leaves every filter accumulator and
every oversampler buffer at zero, and stores input and output peak levels of 0. -/
theorem C28_silence_in_silence_out (exp : α → α) (pow : α → α → α) (tan : α → α) (pi : α)
    (decibelsToGain : α → α) (p : SanguinovaAudioProcessor α) (params : Parameters α)
    (buffer : List (List α)) (hp : Silent p) (hb : ∀ ch ∈ buffer, ∀ x ∈ ch, x = 0) :
    ((∀ filterCoeffs : List α, Silent (SanguinovaAudioProcessor.new filterCoeffs))
      ∧ Silent (releaseResources p))
    ∧ (processBlock exp pow tan pi decibelsToGain p params buffer).2 = buffer
    ∧ (∀ ch ∈ (processBlock exp pow tan pi decibelsToGain p params buffer).2, ∀ x ∈ ch, x = 0)
    ∧ Silent (processBlock exp pow tan pi decibelsToGain p params buffer).1
    ∧ (processBlock exp pow tan pi decibelsToGain p params buffer).1.currentInputLevel = 0
    ∧ (processBlock exp pow tan pi decibelsToGain p params buffer).1.currentOutputLevel = 0 := by
  have h := channelLoop_silent exp pow tan pi (blockLocals decibelsToGain params)
    (min buffer.length 2) buffer 0
    { proc := { p with totalMultiplier := (blockLocals decibelsToGain params).stageMult }
      maxInputLevel := 0, maxOutputLevel := 0 } hb ⟨hp, rfl, rfl⟩
  have hbuf : (processBlock exp pow tan pi decibelsToGain p params buffer).2 = buffer := h.1
  refine ⟨⟨new_silent, releaseResources_silent p⟩, hbuf, ?_, h.2.1, h.2.2.1, h.2.2.2⟩
  rw [hbuf]
  exact hb

/-- Witness for C28: the freshly constructed processor over the rationals, the default
parameters and a stereo block of two zero samples per channel. -/
theorem C28_silence_in_silence_out_witness :
    (processBlock (fun x => x) (fun x _ => x) (fun x => x) 3 (fun x => x)
      (SanguinovaAudioProcessor.new ([] : List ℚ)) defaultParameters
      [[0, 0], [0, 0]]).2 = [[0, 0], [0, 0]] :=
  (C28_silence_in_silence_out (fun x => x) (fun x _ => x) (fun x => x) 3 (fun x => x)
    (SanguinovaAudioProcessor.new ([] : List ℚ)) defaultParameters [[0, 0], [0, 0]]
    (new_silent _) (by simp)).2.1

/-- Claim C29: for every constant `c` and every set of coefficients, the filter state
`ic1eq = 0`, `ic2eq = c` is a fixed point of `processSample` under the input `c`: the call
leaves the whole object unchanged whatever the mode, the LowPass output is exactly `c`,
and the HighPass and BandPass outputs are exactly 0. -/
theorem C29_svf_dc_fixed_point (f : SVFFilter α) (c : α) (mode : Mode) :
    (({ f with ic1eq := 0, ic2eq := c } : SVFFilter α).processSample c mode).1 =
        { f with ic1eq := 0, ic2eq := c }
    ∧ (({ f with ic1eq := 0, ic2eq := c } : SVFFilter α).processSample c Mode.LowPass).2 = c
    ∧ (({ f with ic1eq := 0, ic2eq := c } : SVFFilter α).processSample c Mode.HighPass).2 = 0
    ∧ (({ f with ic1eq := 0, ic2eq := c } : SVFFilter α).processSample c Mode.BandPass).2 = 0 := by
  have hLH : Mode.HighPass ≠ Mode.LowPass := by decide
  have hBL : Mode.BandPass ≠ Mode.LowPass := by decide
  have hBH : Mode.BandPass ≠ Mode.HighPass := by decide
  refine ⟨?_, ?_, ?_, ?_⟩
  · simp only [SVFFilter.processSample, sub_self, mul_zero, add_zero, zero_add, sub_zero]
    congr 1
    ring
  · simp only [SVFFilter.processSample, sub_self, mul_zero, add_zero, if_true]
  · simp only [SVFFilter.processSample, sub_self, mul_zero, add_zero, if_neg hLH, if_true,
      sub_zero]
  · simp only [SVFFilter.processSample, sub_self, mul_zero, add_zero, if_neg hBL, if_neg hBH,
      if_true]

/-- Claim C30: on a manager holding the factory presets of `initFactoryPresets` and the
parameters registered by `createParameterLayout`, for every index `0..7`
`loadPreset(index)` returns true, sets `currentPresetName` to the name of that factory
preset and leaves the value of `PAD_ENABLED` (and the set of registered parameters) as it
was: the preset names the key `AUTO_GAIN`, which is not registered, so `applyPresetData`
skips it, and it does not name `PAD_ENABLED`.  For a negative index and for an index at or
beyond the number of factory presets plus the number of user preset files, `loadPreset`
returns false and changes nothing. -/
theorem C30_loadPreset_factory_frame (legalValue : String → α → α) (m : PresetManager α)
    (index : Int)
    (hf : m.factoryPresets = PresetManager.initFactoryPresets)
    (hs : m.state.map Prod.fst = (createParameterLayout : List (String × α)).map Prod.fst) :
    (0 ≤ index ∧ index < 8 →
      (PresetManager.loadPreset legalValue m index).2 = true
      ∧ (PresetManager.loadPreset legalValue m index).1.currentPresetName =
          ["Init", "Warm Saturation", "Gritty Edge", "Heavy Crunch", "Extreme Destruction",
            "Subtle Tape", "Bright Exciter", "Bass Thickener"].getD index.toNat ""
      ∧ PresetManager.getParameter (PresetManager.loadPreset legalValue m index).1.state
          "PAD_ENABLED" = PresetManager.getParameter m.state "PAD_ENABLED"
      ∧ (PresetManager.loadPreset legalValue m index).1.state.map Prod.fst =
          m.state.map Prod.fst
      ∧ "AUTO_GAIN" ∈ ((m.factoryPresets.getD index.toNat ⟨"", []⟩).data).map Prod.fst
      ∧ "PAD_ENABLED" ∉ ((m.factoryPresets.getD index.toNat ⟨"", []⟩).data).map Prod.fst
      ∧ PresetManager.getParameter m.state "AUTO_GAIN" = none
      ∧ ∀ v : α, PresetManager.applyPresetData legalValue m.state [("AUTO_GAIN", v)] = m.state)
    ∧ (index < 0 ∨ index ≥ 8 + (m.userPresetFiles.length : Int) →
      PresetManager.loadPreset legalValue m index = (m, false)) := by
  have hlen : m.factoryPresets.length = 8 := by rw [hf]; rfl
  have hauto : "AUTO_GAIN" ∉ m.state.map Prod.fst := by
    rw [hs]
    simp only [createParameterLayout, List.map_cons, List.map_nil]
    decide
  constructor
  · rintro ⟨h0, h8⟩
    obtain ⟨n, hn⟩ : ∃ n : Nat, index = (n : Int) := ⟨index.toNat, by omega⟩
    subst hn
    have hn8 : n < 8 := by omega
    have hmem : m.factoryPresets.getD n ⟨"", []⟩ ∈
        (PresetManager.initFactoryPresets : List (FactoryPreset α)) := by
      rw [← hf, List.getD_eq_getElem _ _ (by rw [hlen]; exact hn8)]
      exact List.getElem_mem _
    obtain ⟨k1, k2⟩ := PresetManager.factoryPreset_keys _ hmem
    obtain ⟨f1, f2⟩ := PresetManager.applyPresetData_frame legalValue "PAD_ENABLED"
      (m.factoryPresets.getD n ⟨"", []⟩).data m.state
    have hload : PresetManager.loadPreset legalValue m (n : Int) =
        ({ m with
            state := PresetManager.applyPresetData legalValue m.state
              (m.factoryPresets.getD n ⟨"", []⟩).data
            currentPresetName := (m.factoryPresets.getD n ⟨"", []⟩).name },
         true) := by
      unfold PresetManager.loadPreset
      rw [if_neg (by omega), if_pos (by rw [hlen]; omega), Int.toNat_ofNat]
    rw [hload, Int.toNat_ofNat]
    refine ⟨rfl, ?_, f2 k2, f1, k1, k2, PresetManager.getParameter_none _ _ hauto,
      fun v => PresetManager.applyPresetData_unregistered legalValue _ _ v hauto⟩
    show (m.factoryPresets.getD n ⟨"", []⟩).name = _
    rw [hf]
    interval_cases n <;> rfl
  · intro h
    unfold PresetManager.loadPreset
    rcases h with h | h
    · rw [if_pos h]
    · rw [if_neg (by omega), if_neg (by rw [hlen]; omega)]
      simp only []
      rw [if_neg (by rw [hlen]; omega)]

/-- Witness for C30: the manager constructed on the freshly registered parameters with
two unreadable user preset files, over the rationals, and the factory preset number 4. -/
theorem C30_loadPreset_factory_frame_witness :
    (PresetManager.loadPreset (fun _ (v : ℚ) => v)
        (PresetManager.new createParameterLayout [⟨"a", none⟩, ⟨"b", none⟩]) 4).1.currentPresetName
      = "Extreme Destruction"
    ∧ PresetManager.loadPreset (fun _ (v : ℚ) => v)
        (PresetManager.new createParameterLayout [⟨"a", none⟩, ⟨"b", none⟩]) 10 =
      (PresetManager.new createParameterLayout [⟨"a", none⟩, ⟨"b", none⟩], false) :=
  ⟨((C30_loadPreset_factory_frame (fun _ (v : ℚ) => v)
      (PresetManager.new createParameterLayout [⟨"a", none⟩, ⟨"b", none⟩]) 4 rfl rfl).1
      ⟨by decide, by decide⟩).2.1,
   (C30_loadPreset_factory_frame (fun _ (v : ℚ) => v)
      (PresetManager.new createParameterLayout [⟨"a", none⟩, ⟨"b", none⟩]) 10 rfl rfl).2
      (Or.inr (by decide))⟩

end Sanguinova
